import Mathlib

/-!
# EventBus (observer pattern): a shallow embedding of `code/behavior_pattern/observer.h`

The C++ program keeps subscribers in a `std::list<std::weak_ptr<Observers>>`.
The embedding makes the pieces of machine state that the C++ leaves implicit
explicit:

* the heap of `Observers` objects, each with its `use_count` (split into the
  `shared_ptr`s held by external owners and the temporary `locked` pointers the
  bus itself creates with `weak.lock()`); a destroyed object stays in the heap
  as a record with `use_count = 0`, which is what an expired control block is;
* the list nodes of `m_observers`, each with an address, so that the range-for
  iterator of `broadcast` is an address into the *current* list, as in C++;
* standard output, and a ghost trace of the `monitor` invocations.

`Observers` is an abstract class with a virtual `monitor`.  Besides the three
concrete classes of the source, the embedding has `Client`, a subclass written
by a user of the header whose `monitor` runs a fixed list of calls on the bus
and on the owners of subscribers (attach, detach, release, throw).  A `monitor`
that calls `broadcast` again is outside the embedding.
-/

namespace Observer

/-- The struct `Event`. -/
structure Event where
  type_ : String
  payload_ : String
deriving DecidableEq, Repr

/-- Identity of an `Observers` object (of its control block). -/
abbrev ObjId := Nat

/-- One statement in the `monitor` body of a `Client` subscriber. -/
inductive Op where
  /-- The call `ebus.attach(observer)`. -/
  | attach (observer : ObjId)
  /-- The call `ebus.detach(observer)`. -/
  | detach (observer : ObjId)
  /-- An owner of `target` drops its `shared_ptr` (`reset()`). -/
  | release (target : ObjId)
  /-- The statement `throw`. -/
  | raise
deriving DecidableEq, Repr

/-- The dynamic type of an `Observers` object together with the data members
of that type. -/
inductive ObsState where
  | QuestTracker (m_defeat_num : Nat)
  | AchievementSystem (m_rare_items_num : Nat)
  | UIHUD
  | Client (body : List Op)
deriving DecidableEq, Repr

/-- An `Observers` object with its control block. -/
structure Obj where
  m_name : String
  state : ObsState
  /-- Number of `shared_ptr`s held outside the bus. -/
  owners : Nat
  /-- Number of `locked` temporaries the bus currently holds. -/
  locks : Nat
deriving DecidableEq, Repr

/-- A node of `std::list<std::weak_ptr<Observers>>`. -/
structure Node where
  addr : Nat
  weak : ObjId
deriving DecidableEq, Repr

/-- Machine state: the heap, the `EventBus` member `m_observers` (with the next
free node address), standard output, and the trace of `monitor` invocations. -/
structure World where
  heap : List Obj
  m_observers : List Node
  fresh : Nat
  out : List String
  calls : List (ObjId × Event)
deriving DecidableEq, Repr

/-- Ways in which a call can fail to return normally. -/
inductive Fault where
  /-- Dereference of a null `shared_ptr` (undefined behaviour). -/
  | nullDeref
  /-- Use of a list iterator whose node was erased (undefined behaviour). -/
  | invalidIterator
  /-- An exception left `broadcast`. -/
  | uncaughtException
  /-- The model ran out of fuel. -/
  | outOfFuel
deriving DecidableEq, Repr

/-- Outcome of a call: it returned in state `w`, or it stopped with a fault in
state `w`. -/
inductive Res where
  | done (w : World)
  | fault (f : Fault) (w : World)
deriving DecidableEq, Repr

/-- State in which a call ended. -/
def Res.world : Res → World
  | .done w => w
  | .fault _ w => w

/-- Size of `size_t` on the 64-bit target. -/
def SIZE_MOD : Nat := 2 ^ 64

/-- The member `use_count()` of a control block. -/
def use_count (h : List Obj) (o : ObjId) : Nat :=
  match h[o]? with
  | some x => x.owners + x.locks
  | none => 0

/-- The member `weak_ptr::expired()`. -/
def expired (h : List Obj) (o : ObjId) : Bool :=
  use_count h o == 0

/-- The object behind a pointer, when it still exists: the value of
`weak.lock()` as a pointer, and of `*observer` for a `shared_ptr`.  A
`shared_ptr` with no live object behind it is the null pointer. -/
def resolve (h : List Obj) (o : ObjId) : Option Obj :=
  if expired h o then none else h[o]?

/-- The comparison `Observers::operator==`. -/
def operator_eq (a b : Obj) : Bool :=
  a.m_name == b.m_name

/-- The call `std::puts(s)`. -/
def puts (w : World) (s : String) : World :=
  { w with out := w.out ++ [s ++ "\n"] }

/-- Apply `f` to the object `o` of the heap. -/
def update (h : List Obj) (o : ObjId) (f : Obj → Obj) : List Obj :=
  match h[o]? with
  | some x => h.set o (f x)
  | none => h

/-- The call `EventBus::cleanup`: `remove_if` of the expired handles. -/
def cleanup (w : World) : World :=
  { w with m_observers := w.m_observers.filter (fun n => !expired w.heap n.weak) }

/-- The scan of `attach` over `m_observers`: `true` when a live entry equal to
`*observer` is met. -/
def attach_scan (h : List Obj) (observer : ObjId) : List Node → Except Fault Bool
  | [] => .ok false
  | n :: rest =>
    match resolve h n.weak with
    | none => attach_scan h observer rest
    | some locked =>
      match resolve h observer with
      | none => .error .nullDeref
      | some obs => if operator_eq locked obs then .ok true else attach_scan h observer rest

/-- The call `m_observers.emplace_back(observer)`. -/
def emplace_back (w : World) (observer : ObjId) : World :=
  { w with m_observers := w.m_observers ++ [⟨w.fresh, observer⟩], fresh := w.fresh + 1 }

/-- The call `EventBus::attach`. -/
def attach (w : World) (observer : ObjId) : Res :=
  let w1 := cleanup w
  match attach_scan w1.heap observer w1.m_observers with
  | .error f => .fault f w1
  | .ok true => .done (puts w1 "the object already exists.")
  | .ok false => .done (puts (emplace_back w1 observer) "add success.")

/-- The predicate of `detach`: `!locked || (*locked == *observer)`. -/
def detach_pred (h : List Obj) (observer : ObjId) (n : Node) : Except Fault Bool :=
  match resolve h n.weak with
  | none => .ok true
  | some locked =>
    match resolve h observer with
    | none => .error .nullDeref
    | some obs => .ok (operator_eq locked obs)

/-- The member `std::list::remove_if` with a predicate that may fault. -/
def remove_if (p : Node → Except Fault Bool) : List Node → Except Fault (List Node)
  | [] => .ok []
  | n :: rest =>
    match p n with
    | .error f => .error f
    | .ok b =>
      match remove_if p rest with
      | .error f => .error f
      | .ok rest1 => .ok (if b then rest1 else n :: rest1)

/-- The call `EventBus::detach`. -/
def detach (w : World) (observer : ObjId) : Res :=
  match remove_if (detach_pred w.heap observer) w.m_observers with
  | .error f => .fault f w
  | .ok l => .done { w with m_observers := l }

/-- An owner of `o` drops its `shared_ptr`. -/
def release (w : World) (o : ObjId) : World :=
  { w with heap := update w.heap o (fun x => { x with owners := x.owners - 1 }) }

/-- The bus takes `locked = weak.lock()` on a live object. -/
def lock (w : World) (o : ObjId) : World :=
  { w with heap := update w.heap o (fun x => { x with locks := x.locks + 1 }) }

/-- The temporary `locked` goes out of scope. -/
def unlock (w : World) (o : ObjId) : World :=
  { w with heap := update w.heap o (fun x => { x with locks := x.locks - 1 }) }

/-- Ghost step: note that `monitor(event)` is entered on `o`. -/
def record (w : World) (o : ObjId) (event : Event) : World :=
  { w with calls := w.calls ++ [(o, event)] }

/-- Write the data members of `o`. -/
def set_state (w : World) (o : ObjId) (s : ObsState) : World :=
  { w with heap := update w.heap o (fun x => { x with state := s }) }

/-- The body of `QuestTracker::monitor`. -/
def QuestTracker_monitor (w : World) (self : ObjId) (m_defeat_num : Nat) (event : Event) : World :=
  if event.type_ = "enemy_defeated" then
    let n := (m_defeat_num + 1) % SIZE_MOD
    let w1 := set_state w self (.QuestTracker n)
    if n % 5 = 0 then puts w1 "task finished!" else w1
  else w

/-- The body of `AchievementSystem::monitor`. -/
def AchievementSystem_monitor (w : World) (self : ObjId) (m_rare_items_num : Nat)
    (event : Event) : World :=
  if event.type_ = "rare_items_collected" then
    let n := (m_rare_items_num + 1) % SIZE_MOD
    let w1 := set_state w self (.AchievementSystem n)
    if n % 3 = 0 then puts w1 "nice collected!" else w1
  else w

/-- The body of `UIHUD::monitor`. -/
def UIHUD_monitor (w : World) (event : Event) : World :=
  { w with out := w.out ++ ["type:" ++ event.type_ ++ ",payload:" ++ event.payload_ ++ "\n"] }

/-- The body of a `Client` subscriber's `monitor`. -/
def run_body : List Op → World → Res
  | [], w => .done w
  | .attach o :: rest, w =>
    match attach w o with
    | .done w1 => run_body rest w1
    | .fault f w1 => .fault f w1
  | .detach o :: rest, w =>
    match detach w o with
    | .done w1 => run_body rest w1
    | .fault f w1 => .fault f w1
  | .release o :: rest, w => run_body rest (release w o)
  | .raise :: _, w => .fault .uncaughtException w

/-- The virtual call `locked->monitor(event)`. -/
def monitor (w : World) (self : ObjId) (event : Event) : Res :=
  match w.heap[self]? with
  | none => .done w
  | some x =>
    match x.state with
    | .QuestTracker k => .done (QuestTracker_monitor w self k event)
    | .AchievementSystem k => .done (AchievementSystem_monitor w self k event)
    | .UIHUD => .done (UIHUD_monitor w event)
    | .Client body => run_body body w

/-- Dereference of the list iterator `it`. -/
def find_node (reg : List Node) (a : Nat) : Option Node :=
  reg.find? (fun n => n.addr == a)

/-- The step `++it`: `none` when the node of `it` is no longer in the list,
`some none` for `end()`. -/
def next_it : List Node → Nat → Option (Option Nat)
  | [], _ => none
  | n :: rest, a => if n.addr = a then some (rest.head?.map (·.addr)) else next_it rest a

/-- The body of the range-for of `broadcast` at one entry. -/
def visit (w : World) (o : ObjId) (event : Event) : Res :=
  if expired w.heap o then .done w
  else
    match monitor (record (lock w o) o event) o event with
    | .done w2 => .done (unlock w2 o)
    | .fault f w2 => .fault f (unlock w2 o)

/-- The range-for of `broadcast`, from iterator `it` on. -/
def dispatch (event : Event) : Nat → World → Option Nat → Res
  | _, w, none => .done w
  | 0, w, some _ => .fault .outOfFuel w
  | fuel + 1, w, some a =>
    match find_node w.m_observers a with
    | none => .fault .invalidIterator w
    | some n =>
      match visit w n.weak event with
      | .fault f w3 => .fault f w3
      | .done w3 =>
        match next_it w3.m_observers a with
        | none => .fault .invalidIterator w3
        | some it1 => dispatch event fuel w3 it1

/-- The iterator `m_observers.begin()`. -/
def begin_it (w : World) : Option Nat :=
  w.m_observers.head?.map (·.addr)

/-- The call `EventBus::broadcast`. -/
def broadcast (fuel : Nat) (w : World) (event : Event) : Res :=
  dispatch event fuel (cleanup w) (begin_it (cleanup w))

/-- The call `std::make_shared<T>(name)`; the caller owns the new object. -/
def make_shared (w : World) (name : String) (s : ObsState) : World :=
  { w with heap := w.heap ++ [⟨name, s, 1, 0⟩] }

/-- A program that has constructed an `EventBus` and nothing else. -/
def World.empty : World := ⟨[], [], 0, [], []⟩

/-- A handle whose subscriber still exists. -/
def live (h : List Obj) (n : Node) : Bool :=
  !expired h n.weak

/-- A handle whose subscriber still exists and is named `s`. -/
def named (h : List Obj) (s : String) (n : Node) : Bool :=
  match resolve h n.weak with
  | some x => x.m_name == s
  | none => false


/-- A top-level statement of a program that uses the bus.  The objects are
made beforehand: they are the heap of the state the program starts in. -/
inductive Call where
  | attach (observer : ObjId)
  | detach (observer : ObjId)
  | broadcast (fuel : Nat) (event : Event)
  | release (target : ObjId)
deriving DecidableEq, Repr

/-- Run one top-level statement. -/
def step (w : World) : Call → Res
  | .attach o => attach w o
  | .detach o => detach w o
  | .broadcast fuel event => broadcast fuel w event
  | .release o => .done (release w o)

/-- Run a sequence of top-level statements; a fault ends the run. -/
def run : List Call → World → Res
  | [], w => .done w
  | c :: rest, w =>
    match step w c with
    | .done w1 => run rest w1
    | .fault f w1 => .fault f w1

/-- The state of `observer_test` after its three `make_shared` calls: `qt`,
`as`, `ui` are objects 0, 1, 2. -/
def observer_test_objects : World :=
  make_shared (make_shared (make_shared World.empty "qt" (.QuestTracker 0))
    "as" (.AchievementSystem 0)) "ui" .UIHUD

/-- The first three `attach` calls of `observer_test`. -/
def observer_test_setup : List Call :=
  [.attach 0, .attach 1, .attach 2]

/-- The state of `observer_test` after its first three `attach` calls. -/
def observer_test_attached : World :=
  (run observer_test_setup observer_test_objects).world

/-- The event `ed` of `observer_test`. -/
def ed : Event := ⟨"enemy_defeated", "1"⟩

/-- The event `rit` of `observer_test`. -/
def rit : Event := ⟨"rare_items_collected", "2"⟩

/-- The event `rand` of `observer_test`. -/
def rand : Event := ⟨"random event", "3"⟩

/-- The function `observer_test`. -/
def observer_test : Res :=
  run (observer_test_setup ++ [.attach 0,
    .broadcast 3 ed, .broadcast 3 ed, .broadcast 3 ed, .broadcast 3 ed, .broadcast 3 ed,
    .broadcast 3 rit, .broadcast 3 rit, .broadcast 3 rit, .broadcast 3 rand]) observer_test_objects

/-- A property of states that every elementary step of the bus and of the
subscribers keeps. -/
structure Stable (P : World → Prop) : Prop where
  attach : ∀ w o, P w → P (attach w o).world
  detach : ∀ w o, P w → P (detach w o).world
  release : ∀ w o, P w → P (release w o)
  enter : ∀ w o ev, P w → expired w.heap o = false → P (record (lock w o) o ev)
  leave : ∀ w o, P w → P (unlock w o)
  set_state : ∀ w o s, P w → expired w.heap o = false → P (set_state w o s)
  puts : ∀ w s, P w → P (puts w s)
  printf : ∀ w ev, P w → P (UIHUD_monitor w ev)
  cleanup : ∀ w, P w → P (cleanup w)

/-- Relative to the state `w0` in which a call began: the subscribers that
were already destroyed then have the same record in `w`, and every `monitor`
invocation noted since then is on a subscriber that was not destroyed then. -/
def Untouched (w0 w : World) : Prop :=
  (∀ o, expired w0.heap o = true → w.heap[o]? = w0.heap[o]?) ∧
  ∃ added, w.calls = w0.calls ++ added ∧ ∀ e ∈ added, expired w0.heap e.1 = false

/-- The names of the live entries of a registry, in registry order. -/
def live_names (h : List Obj) (l : List Node) : List (Option String) :=
  (l.filter (live h)).map (fun n => (h[n.weak]?).map (·.m_name))

/-- No two live entries of the registry have the same name. -/
def DistinctLive (w : World) : Prop :=
  (live_names w.heap w.m_observers).Nodup

/-- The list nodes have distinct addresses, all below the next free one. -/
def NodesOk (w : World) : Prop :=
  (w.m_observers.map (·.addr)).Nodup ∧ ∀ n ∈ w.m_observers, n.addr < w.fresh

/-- The classes of the source (`QuestTracker`, `AchievementSystem`, `UIHUD`):
their `monitor` neither calls the bus, nor releases a subscriber, nor throws. -/
def ObsState.builtin : ObsState → Bool
  | .Client _ => false
  | _ => true

/-- The state of a subscriber with its counter set back to zero. -/
def ObsState.reset : ObsState → ObsState
  | .QuestTracker _ => .QuestTracker 0
  | .AchievementSystem _ => .AchievementSystem 0
  | s => s

/-- An object without the value of its counter. -/
def shape (x : Obj) : Obj :=
  { x with state := x.state.reset }

/-- Two heaps that differ at most in the counters of their objects. -/
def Similar (h h1 : List Obj) : Prop :=
  ∀ i : Nat, (h1[i]?).map shape = (h[i]?).map shape

/-- Every handle of the registry of `w` refers to a subscriber that was not yet
destroyed in the state `w0`. -/
def AllLiveAt (w0 w : World) : Prop :=
  ∀ n ∈ w.m_observers, expired w0.heap n.weak = false

/-- What holds while `broadcast`, called in state `w0`, is inside the call
`locked->monitor(event)` for the list node at address `a` and its subscriber
`o`: the bus holds a lock on `o`, and as long as the node is still in the list
it is a handle to `o` and the registry has no handle to a subscriber destroyed
before the call. -/
def Pinned (w0 : World) (a : Nat) (o : ObjId) (w : World) : Prop :=
  a < w.fresh ∧ NodesOk w ∧ Untouched w0 w ∧ (∃ x, w.heap[o]? = some x ∧ 0 < x.locks) ∧
  ((∃ n ∈ w.m_observers, n.addr = a) →
    AllLiveAt w0 w ∧ ∃ n ∈ w.m_observers, n.addr = a ∧ n.weak = o)

/-- A program with three subscribers: `A` (object 0), a client subclass whose
`monitor` calls `ebus.attach(N)`; `B` (object 1) and `N` (object 2), both
`UIHUD`.  `A` and `B` are attached, `N` is not. -/
def attach_in_monitor : World :=
  (run [.attach 0, .attach 1]
    (make_shared (make_shared (make_shared World.empty "A" (.Client [.attach 2])) "B" .UIHUD)
      "N" .UIHUD)).world

/-- A program with two attached subscribers: `A` (object 0), a client subclass
whose `monitor` calls `ebus.detach` on itself, and `B` (object 1), a `UIHUD`. -/
def detach_self_in_monitor : World :=
  (run [.attach 0, .attach 1]
    (make_shared (make_shared World.empty "A" (.Client [.detach 0])) "B" .UIHUD)).world

/-- A program with two attached subscribers: `A` (object 0), a client subclass
whose `monitor` throws, and `B` (object 1), a `UIHUD`. -/
def raise_in_monitor : World :=
  (run [.attach 0, .attach 1]
    (make_shared (make_shared World.empty "A" (.Client [.raise])) "B" .UIHUD)).world

/-- Deliver a sequence of events to the subscriber `self`, one `monitor` call
per event. -/
def deliver (self : ObjId) : List Event → World → World
  | [], w => w
  | e :: rest, w => deliver self rest (monitor w self e).world

/-- The number of events of kind `kind` in a sequence. -/
def count_kind (kind : String) (events : List Event) : Nat :=
  events.countP (fun e => e.type_ == kind)

/-- A program with two objects named "qt", a `QuestTracker` (object 0) and a
`UIHUD` (object 1); the `QuestTracker` is attached. -/
def same_name_program : World :=
  (run [.attach 0]
    (make_shared (make_shared World.empty "qt" (.QuestTracker 0)) "qt" .UIHUD)).world

/-- The operation `unsubscribe` as the specification words it, in two steps:
first the reclamation pass, then the removal of every entry whose identity key
is `key`.  It is the comparison side for `detach`, which makes one pass. -/
def unsubscribe_spec (w : World) (key : String) : World :=
  { cleanup w with
    m_observers := List.filter
      (fun n => (w.heap[n.weak]?).map Obj.m_name != some key) (cleanup w).m_observers }

/-- A statement of a client `monitor` that is not a call on the bus. -/
def Op.quiet : Op → Bool
  | .attach _ => false
  | .detach _ => false
  | .release _ => true
  | .raise => true

/-- A subscriber whose `monitor` does not call back into the bus: one of a class
of the source, or a client whose `monitor` has no `attach` and no `detach`. -/
def ObsState.quiet : ObsState → Bool
  | .Client body => body.all Op.quiet
  | _ => true

/-- During a broadcast among subscribers that do not call the bus: the registry
is the list `L`, the next free node address is `f`, and the subscribers of `L`
do not call the bus. -/
def Quiet (L : List Node) (f : Nat) (w : World) : Prop :=
  w.m_observers = L ∧ w.fresh = f ∧
  ∀ n ∈ L, ∀ x, w.heap[n.weak]? = some x → x.state.quiet = true

end Observer

/-!
# ChatMediator (mediator pattern): `code/behavior_pattern/mediator.h`

Players are objects of a heap; a `shared_ptr<Player>` is `none` (null) or the
index of a player, and an index outside the heap stands for null as well.
Besides standard output the state has a ghost trace of the `receive` calls.
-/

namespace Mediator

/-- The data members of the class `Player`. -/
structure Player where
  m_name : String
  m_last_message : String
deriving DecidableEq, Repr

/-- Machine state: the heap of players, the member `m_players` of the
`ChatMediator`, whether the mediator that the players point to still exists,
standard output, and the trace of `receive` calls (player, from, message). -/
structure World where
  heap : List Player
  m_players : List (Option Nat)
  mediator : Bool
  out : List String
  received : List (Nat × String × String)
deriving DecidableEq, Repr

/-- The object behind a `shared_ptr<Player>`, when it is not null. -/
def deref (w : World) (p : Option Nat) : Option Player :=
  p.bind (fun i => w.heap[i]?)

/-- The call `Player::receive` on player `i`. -/
def receive (w : World) (i : Nat) (x : Player) (from_ message : String) : World :=
  { w with
    heap := w.heap.set i { x with m_last_message := message }
    out := w.out ++ ["[" ++ from_ ++ " -> " ++ x.m_name ++ "] " ++ message ++ "\n"]
    received := w.received ++ [(i, from_, message)] }

/-- The body of the range-for of `ChatMediator::broadcast` at one entry. -/
def broadcast_step (from_ message : String) (w : World) (player : Option Nat) : World :=
  match player with
  | none => w
  | some i =>
    match w.heap[i]? with
    | none => w
    | some x => if x.m_name != from_ then receive w i x from_ message else w

/-- The call `ChatMediator::broadcast`. -/
def broadcast (w : World) (from_ message : String) : World :=
  w.m_players.foldl (broadcast_step from_ message) w

/-- The call `ChatMediator::contains`. -/
def contains (w : World) (name : String) : Bool :=
  w.m_players.any (fun p =>
    match deref w p with
    | some x => x.m_name == name
    | none => false)

/-- The call `ChatMediator::add_player`. -/
def add_player (w : World) (player : Option Nat) : World :=
  match deref w player with
  | none => w
  | some x => if contains w x.m_name then w else { w with m_players := w.m_players ++ [player] }

/-- The call `ChatMediator::remove_player`. -/
def remove_player (w : World) (player_name : String) : World :=
  { w with
    m_players := w.m_players.filter (fun p =>
      match deref w p with
      | some x => !(x.m_name == player_name)
      | none => false) }

/-- The call `Player::send` on player `i`. -/
def send (w : World) (i : Nat) (message : String) : World :=
  if w.mediator then
    match w.heap[i]? with
    | some x => broadcast w x.m_name message
    | none => w
  else w

/-- A statement of a program that uses the mediator. -/
inductive Call where
  | add_player (player : Option Nat)
  | remove_player (player_name : String)
  | broadcast (from_ message : String)
  | send (i : Nat) (message : String)
deriving DecidableEq, Repr

/-- Run one statement. -/
def step (w : World) : Call → World
  | .add_player p => add_player w p
  | .remove_player n => remove_player w n
  | .broadcast f m => broadcast w f m
  | .send i m => send w i m

/-- Run a sequence of statements. -/
def run (calls : List Call) (w : World) : World :=
  calls.foldl step w

end Mediator

/-!
# Player and SaveHistory (memento pattern): `code/behavior_pattern/memento.h`

The state is one `Player` together with the `SaveHistory` its member
`m_history` points to (`none` for a null pointer); the history is used through
this player only, as in `memento_test`.  `int` is the 32-bit signed type, and
an arithmetic overflow (undefined behaviour) is the result `none`.
-/

namespace Memento

/-- The least value of `int`. -/
def INT_MIN : Int := -2147483648

/-- The greatest value of `int`. -/
def INT_MAX : Int := 2147483647

/-- An `int` result: `none` when the exact value is not representable. -/
def to_int (v : Int) : Option Int :=
  if INT_MIN ≤ v ∧ v ≤ INT_MAX then some v else none

/-- The struct `Player::PlayerMemento`. -/
structure PlayerMemento where
  m_health : Int
  m_pos : Int × Int
deriving DecidableEq, Repr

/-- Machine state: the data members of the `Player`, the stack `m_history` of
the `SaveHistory` behind the player's pointer (top first), standard output. -/
structure World where
  m_health : Int
  m_pos : Int × Int
  m_history : Option (List PlayerMemento)
  out : List String
deriving DecidableEq, Repr

/-- The call `Player::move`. -/
def move (w : World) (dx dy : Int) : Option World :=
  match to_int (w.m_pos.1 + dx), to_int (w.m_pos.2 + dy) with
  | some x, some y => some { w with m_pos := (x, y) }
  | _, _ => none

/-- The call `Player::damage`. -/
def damage (w : World) (value : Int) : Option World :=
  match to_int (w.m_health - value) with
  | some h => some { w with m_health := h }
  | none => none

/-- The call `SaveHistory::save`: the new stack and output. -/
def SaveHistory_save (stack : List PlayerMemento) (out : List String)
    (memento : Option PlayerMemento) : List PlayerMemento × List String :=
  match memento with
  | none => (stack, out)
  | some m => (m :: stack, out ++ ["[History] save snapshot.\n"])

/-- The call `SaveHistory::undo`: the returned pointer, the new stack and
output. -/
def SaveHistory_undo (stack : List PlayerMemento) (out : List String) :
    Option PlayerMemento × List PlayerMemento × List String :=
  match stack with
  | [] => (none, [], out ++ ["[History] nothing to undo.\n"])
  | top :: rest => (some top, rest, out ++ ["[History] undo snapshot.\n"])

/-- The call `Player::save`. -/
def save (w : World) : World :=
  match w.m_history with
  | none => w
  | some stack =>
    let r := SaveHistory_save stack w.out (some ⟨w.m_health, w.m_pos⟩)
    { w with m_history := some r.1, out := r.2 }

/-- The call `Player::restore`. -/
def restore (w : World) : World :=
  match w.m_history with
  | none => w
  | some stack =>
    match SaveHistory_undo stack w.out with
    | (none, rest, out) => { w with m_history := some rest, out := out }
    | (some snapshot, rest, out) =>
      { m_health := snapshot.m_health, m_pos := snapshot.m_pos, m_history := some rest,
        out := out }

/-- The constructor `Player::Player`; a null `history` is replaced by a new
`SaveHistory`. -/
def Player_new (health : Int) (pos : Int × Int) (history : Option (List PlayerMemento)) :
    World :=
  { m_health := health, m_pos := pos,
    m_history := some (match history with
      | some stack => stack
      | none => []),
    out := [] }

/-- A call that changes the player without touching the history. -/
inductive Op where
  | move (dx dy : Int)
  | damage (value : Int)
deriving DecidableEq, Repr

/-- Run a sequence of `move` and `damage` calls; `none` when one overflows. -/
def run_ops : List Op → World → Option World
  | [], w => some w
  | .move dx dy :: rest, w =>
    match move w dx dy with
    | some w1 => run_ops rest w1
    | none => none
  | .damage v :: rest, w =>
    match damage w v with
    | some w1 => run_ops rest w1
    | none => none

/-- The state changes of `memento_test` up to its first `restore` (the calls of
`print_state` left out): construction with a new history, `save`, `move(5, 3)`,
`damage(20)`. -/
def memento_test_moved : Option World :=
  run_ops [.move 5 3, .damage 20] (save (Player_new 100 (0, 0) (some [])))

end Memento

/-!
# PieceFactory (flyweight pattern): `code/structural_pattern/flyweight.h`

The `ConcretePiece` objects live in a heap; the value of a
`shared_ptr<PieceFlyweight>` is the index of its object, so that two pointers
are equal exactly when the indices are.  The `unordered_map` is a list of pairs
with distinct keys.
-/

namespace Flyweight

/-- The data members of the class `ConcretePiece`. -/
structure ConcretePiece where
  m_type : String
  m_color : String
deriving DecidableEq, Repr

/-- Machine state: the heap of pieces and the member `m_pool` of the
`PieceFactory`. -/
structure World where
  heap : List ConcretePiece
  m_pool : List (String × Nat)
deriving DecidableEq, Repr

/-- The key that `get_piece` builds. -/
def key_of (type color : String) : String :=
  color ++ "_" ++ type

/-- The call `PieceFactory::get_piece`: the new state and the returned
pointer. -/
def get_piece (w : World) (type color : String) : World × Nat :=
  match w.m_pool.lookup (key_of type color) with
  | some p => (w, p)
  | none =>
    ({ heap := w.heap ++ [⟨type, color⟩],
       m_pool := w.m_pool ++ [(key_of type color, w.heap.length)] }, w.heap.length)

/-- The call `PieceFactory::pool_size`. -/
def pool_size (w : World) : Nat :=
  w.m_pool.length

/-- A new `PieceFactory`. -/
def PieceFactory_new : World := ⟨[], []⟩

/-- Make the `get_piece` calls of a list of (type, color) requests, in order;
the final state and the returned pointers. -/
def get_pieces : List (String × String) → World → World × List Nat
  | [], w => (w, [])
  | (type, color) :: rest, w =>
    let r := get_piece w type color
    let rs := get_pieces rest r.1
    (rs.1, r.2 :: rs.2)

/-- The `get_piece` calls of `flyweight_test`. -/
def flyweight_test_requests : List (String × String) :=
  [("Knight", "White"), ("Knight", "White"), ("Rook", "Black")]

end Flyweight

/-!
# InputHandler (chain of responsibility):
`code/behavior_pattern/chain_of_responsibiliity.h`

A handler is given with the handlers reached through `m_next`; the chain is
finite.  Standard output is the list of the lines printed.
-/

namespace Chain

/-- The concrete classes of `InputHandler`. -/
inductive Kind where
  | PlayerHandler
  | UIHandler
  | FallbackHandler
deriving DecidableEq, Repr

/-- A handler object: its class and its member `m_next` (`last` when `m_next`
is null). -/
inductive Handler where
  | last (kind : Kind)
  | link (kind : Kind) (m_next : Handler)
deriving DecidableEq, Repr

/-- The function `std::isspace` in the "C" locale. -/
def is_space (c : Char) : Bool :=
  c.toNat == 32 || c.toNat == 9 || c.toNat == 10 || c.toNat == 11 || c.toNat == 12 ||
    c.toNat == 13

/-- The tokens that `iss >> token` reads one after the other: `cur` holds the
characters of the token being read, last first. -/
def tokens_aux : List Char → List Char → List String
  | [], cur => if cur = [] then [] else [String.mk cur.reverse]
  | c :: rest, cur =>
    if is_space c then
      (if cur = [] then tokens_aux rest [] else String.mk cur.reverse :: tokens_aux rest [])
    else tokens_aux rest (c :: cur)

/-- The whitespace-separated tokens of an input. -/
def tokens (input : String) : List String :=
  tokens_aux input.data []

/-- The virtual function `handler_name`. -/
def handler_name : Kind → String
  | .PlayerHandler => "PlayerHandler"
  | .UIHandler => "UIHandler"
  | .FallbackHandler => "FallbackHandler"

/-- The virtual function `handle_input_impl`: its result and the lines it
prints. -/
def handle_input_impl (kind : Kind) (token : String) : Bool × List String :=
  match kind with
  | .PlayerHandler => (token == "player", [])
  | .UIHandler => (token == "ui", [])
  | .FallbackHandler => (true, ["[Fallback handles] " ++ token ++ "\n"])

/-- The loop `while (iss >> token)` of `handle_input`: the lines printed and
whether the loop ended with `return`. -/
def scan (kind : Kind) : List String → List String → List String × Bool
  | [], out => (out, false)
  | token :: rest, out =>
    let r := handle_input_impl kind token
    if r.1 then
      (out ++ r.2 ++ ["[Handled by " ++ handler_name kind ++ "] " ++ token ++ "\n"], true)
    else scan kind rest (out ++ r.2)

/-- The class of a handler. -/
def Handler.kind : Handler → Kind
  | .last k => k
  | .link k _ => k

/-- The call `InputHandler::handle_input`: standard output after the call. -/
def handle_input : Handler → String → List String → List String
  | .last kind, input, out =>
    let r := scan kind (tokens input) out
    if r.2 then r.1 else r.1 ++ ["[Unhandled] " ++ input ++ "\n"]
  | .link kind m_next, input, out =>
    let r := scan kind (tokens input) out
    if r.2 then r.1 else handle_input m_next input r.1

/-- The chain of `chain_of_responsibility`: `ui`, then `player`, then
`fallback`. -/
def test_chain : Handler :=
  .link .UIHandler (.link .PlayerHandler (.last .FallbackHandler))

/-- The function `chain_of_responsibility`. -/
def chain_of_responsibility : List String :=
  handle_input test_chain "unknown input"
    (handle_input test_chain "player" (handle_input test_chain "ui" []))

end Chain

/-!
# PlayerContext (state pattern): `code/behavior_pattern/state.h`

The three state objects belong to the context; `m_state` is `none` (null) or
names one of them.  The member `m_frames_left` of the context's `AttackState`
is a field of the context.  The `int` members are integers: the bounds proved
for them rule out an overflow.
-/

namespace PlayerState

/-- The enum `Input`. -/
inductive Input where
  | None
  | Move
  | Stop
  | Attack
deriving DecidableEq, Repr

/-- The state objects of a context: `m_idle_state`, `m_running_state`,
`m_attack_state`. -/
inductive StateId where
  | Idle
  | Running
  | Attack
deriving DecidableEq, Repr

/-- The class `PlayerContext`, with the `m_frames_left` of its `AttackState`
and standard output. -/
structure PlayerContext where
  m_state : Option StateId
  m_health : Int
  m_stamina : Int
  m_current_animation : String
  m_frames_left : Int
  out : List String
deriving DecidableEq, Repr

/-- The constant `AttackState::kTotalFrames`. -/
def kTotalFrames : Int := 3

/-- The constant `kRunCost` of `RunningState::update`. -/
def kRunCost : Int := 5

/-- Write a line to `std::cout`. -/
def print (c : PlayerContext) (s : String) : PlayerContext :=
  { c with out := c.out ++ [s] }

/-- The call `PlayerContext::play_animation`. -/
def play_animation (c : PlayerContext) (name : String) : PlayerContext :=
  print { c with m_current_animation := name } ("[Animation] -> " ++ name ++ "\n")

/-- The call `PlayerContext::has_stamina`. -/
def has_stamina (c : PlayerContext) (cost : Int) : Bool :=
  decide (c.m_stamina ≥ cost)

/-- The call `PlayerContext::consume_stamina`. -/
def consume_stamina (c : PlayerContext) (cost : Int) : PlayerContext :=
  let s := max 0 (c.m_stamina - cost)
  print { c with m_stamina := s } ("[Stamina] now " ++ toString s ++ "\n")

/-- The call `PlayerContext::restore_stamina`. -/
def restore_stamina (c : PlayerContext) (amount : Int) : PlayerContext :=
  let s := min 100 (c.m_stamina + amount)
  print { c with m_stamina := s } ("[Stamina] now " ++ toString s ++ "\n")

/-- The virtual function `enter` of the state `s`. -/
def enter (s : StateId) (c : PlayerContext) : PlayerContext :=
  match s with
  | .Idle => play_animation (print c "[State] Enter Idle\n") "Idle"
  | .Running => play_animation (print c "[State] Enter Running\n") "Run"
  | .Attack =>
    { play_animation (print c "[State] Enter Attack\n") "Attack" with
      m_frames_left := kTotalFrames }

/-- The virtual function `exit` of the state `s`. -/
def exit (s : StateId) (c : PlayerContext) : PlayerContext :=
  match s with
  | .Running => print c "[State] Exit Running\n"
  | _ => c

/-- The call `PlayerContext::change_state`. -/
def change_state (c : PlayerContext) (state : Option StateId) : PlayerContext :=
  match state with
  | none => c
  | some s =>
    if c.m_state = some s then c
    else
      let c1 := match c.m_state with
        | some old => exit old c
        | none => c
      enter s { c1 with m_state := some s }

/-- The function `IdleState::handle_input`. -/
def IdleState_handle_input (c : PlayerContext) (input : Input) : PlayerContext :=
  if input = .Move then change_state c (some .Running)
  else if input = .Attack then change_state c (some .Attack)
  else c

/-- The function `IdleState::update`. -/
def IdleState_update (c : PlayerContext) : PlayerContext :=
  restore_stamina c 2

/-- The function `RunningState::handle_input`. -/
def RunningState_handle_input (c : PlayerContext) (input : Input) : PlayerContext :=
  if input = .Stop then change_state c (some .Idle)
  else if input = .Attack then change_state c (some .Attack)
  else c

/-- The function `RunningState::update`. -/
def RunningState_update (c : PlayerContext) : PlayerContext :=
  if has_stamina c kRunCost then consume_stamina c kRunCost
  else change_state (print c "[Running] Out of stamina -> Idle\n") (some .Idle)

/-- The function `AttackState::handle_input`. -/
def AttackState_handle_input (c : PlayerContext) (input : Input) : PlayerContext :=
  if input = .Attack then
    { print c "[Attack] Combo input queued\n" with m_frames_left := kTotalFrames }
  else c

/-- The function `AttackState::update`. -/
def AttackState_update (c : PlayerContext) : PlayerContext :=
  let c1 := { c with m_frames_left := c.m_frames_left - 1 }
  if c1.m_frames_left ≤ 0 then
    change_state (print c1 "[Attack] Animation finished -> Idle\n") (some .Idle)
  else c1

/-- The call `PlayerContext::handle_input`. -/
def handle_input (c : PlayerContext) (input : Input) : PlayerContext :=
  match c.m_state with
  | none => c
  | some .Idle => IdleState_handle_input c input
  | some .Running => RunningState_handle_input c input
  | some .Attack => AttackState_handle_input c input

/-- The call `PlayerContext::update`. -/
def update (c : PlayerContext) : PlayerContext :=
  match c.m_state with
  | none => c
  | some .Idle => IdleState_update c
  | some .Running => RunningState_update c
  | some .Attack => AttackState_update c

/-- The constructor `PlayerContext::PlayerContext`. -/
def PlayerContext_new : PlayerContext :=
  change_state ⟨none, 100, 100, "idle", 0, []⟩ (some .Idle)

/-- A call on a context. -/
inductive Call where
  | handle_input (input : Input)
  | update
deriving DecidableEq, Repr

/-- Run one call. -/
def step (c : PlayerContext) : Call → PlayerContext
  | .handle_input i => handle_input c i
  | .update => update c

/-- Run a sequence of calls. -/
def run (calls : List Call) (c : PlayerContext) : PlayerContext :=
  calls.foldl step c

/-- The calls of `state_test`. -/
def state_test_calls : List Call :=
  [.handle_input .Move, .update, .update, .update, .handle_input .Attack, .update, .update,
   .update, .update, .handle_input .Move, .handle_input .Stop, .update]

/-- The invariant of a context: a current state, stamina within 0..100, and the
frame counter within 0..3. -/
def Inv (c : PlayerContext) : Prop :=
  (∃ s, c.m_state = some s) ∧ 0 ≤ c.m_stamina ∧ c.m_stamina ≤ 100 ∧
    0 ≤ c.m_frames_left ∧ c.m_frames_left ≤ 3 ∧
    (c.m_state = some .Attack → 1 ≤ c.m_frames_left)

end PlayerState

namespace Observer

theorem resolve_eq_some {h : List Obj} {o : ObjId} {x : Obj} (hx : resolve h o = some x) :
    expired h o = false ∧ h[o]? = some x := by
  unfold resolve at hx
  split at hx
  · simp at hx
  · rename_i he
    exact ⟨by simpa using he, hx⟩

theorem resolve_eq_none_of_expired {h : List Obj} {o : ObjId} (he : expired h o = true) :
    resolve h o = none := by
  simp [resolve, he]

theorem resolve_isSome_of_live {h : List Obj} {o : ObjId} (he : expired h o = false) :
    ∃ x, resolve h o = some x := by
  unfold resolve
  simp only [he]
  cases hx : h[o]? with
  | some x => exact ⟨x, by simp⟩
  | none => simp [expired, use_count, hx] at he

theorem named_live {h : List Obj} {s : String} {n : Node} (hn : named h s n = true) :
    live h n = true := by
  unfold named at hn
  split at hn
  · rename_i x hx
    simp [live, (resolve_eq_some hx).1]
  · simp at hn

theorem attach_scan_eq {h : List Obj} {o : ObjId} {obs : Obj} (ho : resolve h o = some obs)
    (l : List Node) : attach_scan h o l = .ok (l.any (named h obs.m_name)) := by
  induction l with
  | nil => rfl
  | cons n rest ih =>
    unfold attach_scan
    cases hn : resolve h n.weak with
    | none => simp [ih, named, hn]
    | some x =>
      simp only [ho, operator_eq]
      by_cases hx : x.m_name == obs.m_name
      · simp [named, hn, hx]
      · simp [named, hn, hx, ih]

theorem remove_if_eq {p : Node → Except Fault Bool} {q : Node → Bool} (l : List Node)
    (hp : ∀ n ∈ l, p n = .ok (q n)) : remove_if p l = .ok (l.filter (fun n => !q n)) := by
  induction l with
  | nil => rfl
  | cons n rest ih =>
    have h1 := hp n (List.mem_cons_self _ _)
    have h2 := ih (fun m hm => hp m (List.mem_cons_of_mem _ hm))
    unfold remove_if
    rw [h1]
    simp only [h2]
    cases hq : q n <;> simp [List.filter, hq]

theorem detach_pred_eq {h : List Obj} {o : ObjId} {obs : Obj} (ho : resolve h o = some obs)
    (n : Node) : detach_pred h o n = .ok (!live h n || named h obs.m_name n) := by
  unfold detach_pred
  cases hn : resolve h n.weak with
  | none =>
    have : expired h n.weak = true := by
      by_contra hc
      obtain ⟨x, hx⟩ := resolve_isSome_of_live (by simpa using hc)
      simp [hx] at hn
    simp [live, this]
  | some x =>
    simp [ho, operator_eq, live, (resolve_eq_some hn).1, named, hn]

theorem detach_eq {w : World} {o : ObjId} {obs : Obj} (ho : resolve w.heap o = some obs) :
    detach w o = .done { w with
      m_observers := List.filter (fun n => live w.heap n && !named w.heap obs.m_name n)
        w.m_observers } := by
  unfold detach
  rw [remove_if_eq (q := fun n => !live w.heap n || named w.heap obs.m_name n) _
    (fun n _ => detach_pred_eq ho n)]
  simp

theorem named_iff {h : List Obj} {s : String} {n : Node} :
    named h s n = true ↔ ∃ x, resolve h n.weak = some x ∧ x.m_name = s := by
  unfold named
  cases hn : resolve h n.weak with
  | none => simp
  | some x => simp

theorem any_named_iff {h : List Obj} {s : String} {l : List Node} :
    l.any (named h s) = true ↔
      ∃ n ∈ l.filter (live h), ∃ x, h[n.weak]? = some x ∧ x.m_name = s := by
  simp only [List.any_eq_true, List.mem_filter]
  constructor
  · rintro ⟨n, hn, hs⟩
    obtain ⟨x, hx, hxs⟩ := named_iff.1 hs
    exact ⟨n, ⟨hn, named_live hs⟩, x, (resolve_eq_some hx).2, hxs⟩
  · rintro ⟨n, ⟨hn, hl⟩, x, hx, hxs⟩
    refine ⟨n, hn, named_iff.2 ⟨x, ?_, hxs⟩⟩
    have : expired h n.weak = false := by simpa [live] using hl
    simp [resolve, this, hx]

theorem attach_eq {w : World} {o : ObjId} {obs : Obj} (ho : resolve w.heap o = some obs) :
    attach w o =
      if w.m_observers.any (named w.heap obs.m_name) then
        .done (puts (cleanup w) "the object already exists.")
      else .done (puts (emplace_back (cleanup w) o) "add success.") := by
  have hc : (cleanup w).m_observers.any (named w.heap obs.m_name)
      = w.m_observers.any (named w.heap obs.m_name) := by
    rw [Bool.eq_iff_iff]
    simp only [cleanup, List.any_eq_true, List.mem_filter]
    constructor
    · rintro ⟨n, ⟨hn, _⟩, hs⟩
      exact ⟨n, hn, hs⟩
    · rintro ⟨n, hn, hs⟩
      exact ⟨n, ⟨hn, by simpa [live] using named_live hs⟩, hs⟩
  unfold attach
  have hh : (cleanup w).heap = w.heap := rfl
  simp only [hh, attach_scan_eq ho, hc]
  cases w.m_observers.any (named w.heap obs.m_name) <;> rfl

theorem puts_exists : "the object already exists." ++ "\n" = "the object already exists.\n" := by decide

/-- C5: for an existing observer `o`, `attach(o)` returns, and it prints
"the object already exists." exactly when, after reclamation, some live entry
has the name of `o`; in that case the registry is the sequence of the entries
that were live, its size is their number (the registry is unchanged when no
entry was expired), and nothing else changes. -/
theorem attach_reports_present_iff (w : World) (o : ObjId) (obs : Obj)
    (ho : resolve w.heap o = some obs) :
    ∃ w1, attach w o = .done w1 ∧
      (w1.out = w.out ++ ["the object already exists.\n"] ↔
        ∃ n ∈ (cleanup w).m_observers, ∃ x, w.heap[n.weak]? = some x ∧ x.m_name = obs.m_name) ∧
      (w1.out = w.out ++ ["the object already exists.\n"] →
        w1.m_observers = (cleanup w).m_observers ∧
        w1.m_observers.length = (w.m_observers.filter (live w.heap)).length ∧
        ((∀ n ∈ w.m_observers, live w.heap n = true) → w1.m_observers = w.m_observers) ∧
        w1.heap = w.heap ∧ w1.fresh = w.fresh ∧ w1.calls = w.calls) := by
  have hcl : (cleanup w).m_observers = w.m_observers.filter (live w.heap) := rfl
  rw [attach_eq ho]
  by_cases hany : w.m_observers.any (named w.heap obs.m_name) = true
  · have hex := any_named_iff.1 hany
    rw [if_pos hany]
    refine ⟨_, rfl, ?_, ?_⟩
    · simp only [puts, cleanup, puts_exists, true_iff]
      exact hex
    · intro _
      refine ⟨rfl, by rw [← hcl]; rfl, ?_, rfl, rfl, rfl⟩
      intro hall
      show (cleanup w).m_observers = _
      rw [hcl]
      exact List.filter_eq_self.2 hall
  · have hex : ¬ ∃ n ∈ (cleanup w).m_observers, ∃ x, w.heap[n.weak]? = some x ∧
        x.m_name = obs.m_name := fun h => hany (any_named_iff.2 h)
    rw [if_neg hany]
    have hne : ¬ (w.out ++ ["add success." ++ "\n"] = w.out ++ ["the object already exists.\n"]) := by
      intro h
      have := List.append_cancel_left h
      revert this
      decide
    refine ⟨_, rfl, ?_, ?_⟩
    · simp only [puts, emplace_back, cleanup]
      exact ⟨fun h => absurd h hne, fun h => absurd h hex⟩
    · intro h
      exact absurd h hne


/-- Witness for C5: the fourth `attach` of `observer_test` (`qt` again). -/
theorem attach_reports_present_iff_witness :
    resolve observer_test_attached.heap 0
        = some ⟨"qt", .QuestTracker 0, 1, 0⟩ ∧
      (attach observer_test_attached 0).world.m_observers.length = 3 ∧
      (attach observer_test_attached 0).world.out
        = ["add success.\n", "add success.\n", "add success.\n", "the object already exists.\n"] ∧
      ∃ w1, attach observer_test_attached 0 = .done w1 ∧
        (w1.out = observer_test_attached.out
            ++ ["the object already exists.\n"] ↔
          ∃ n ∈ (cleanup observer_test_attached).m_observers,
            ∃ x, observer_test_attached.heap[n.weak]? = some x ∧
              x.m_name = (Obj.mk "qt" (.QuestTracker 0) 1 0).m_name) ∧
        (w1.out = observer_test_attached.out
            ++ ["the object already exists.\n"] →
          w1.m_observers = (cleanup observer_test_attached).m_observers ∧
          w1.m_observers.length = (observer_test_attached.m_observers.filter
            (live observer_test_attached.heap)).length ∧
          ((∀ n ∈ observer_test_attached.m_observers,
              live observer_test_attached.heap n = true) →
            w1.m_observers = observer_test_attached.m_observers) ∧
          w1.heap = observer_test_attached.heap ∧
          w1.fresh = observer_test_attached.fresh ∧
          w1.calls = observer_test_attached.calls) :=
  ⟨by decide, by decide, by decide,
    attach_reports_present_iff observer_test_attached 0
      ⟨"qt", .QuestTracker 0, 1, 0⟩ (by decide)⟩

/-- C6: for an existing observer `o` whose name no live entry has, `attach(o)`
returns, prints "add success.", and the registry is the previously live
entries in their order followed by one new handle to `o`. -/
theorem attach_appends_new (w : World) (o : ObjId) (obs : Obj)
    (ho : resolve w.heap o = some obs)
    (hnew : ∀ n ∈ w.m_observers, ∀ x, resolve w.heap n.weak = some x → x.m_name ≠ obs.m_name) :
    ∃ w1, attach w o = .done w1 ∧
      w1.out = w.out ++ ["add success.\n"] ∧
      w1.m_observers = w.m_observers.filter (live w.heap) ++ [⟨w.fresh, o⟩] ∧
      w1.heap = w.heap ∧ w1.calls = w.calls := by
  have hany : ¬ w.m_observers.any (named w.heap obs.m_name) = true := by
    simp only [List.any_eq_true, not_exists, not_and]
    intro n hn hs
    obtain ⟨x, hx, hxs⟩ := named_iff.1 hs
    exact hnew n hn x hx hxs
  rw [attach_eq ho, if_neg hany]
  exact ⟨_, rfl, rfl, rfl, rfl, rfl⟩

/-- C8: `detach` never fails: for every state and every existing observer `o`
the call returns; when no live entry has the name of `o` the registry becomes
the sequence of its live entries and nothing else changes; on an empty registry
the state is unchanged. -/
theorem detach_never_fails (w : World) (o : ObjId) (obs : Obj)
    (ho : resolve w.heap o = some obs) :
    (∃ w1, detach w o = .done w1) ∧
      ((∀ n ∈ w.m_observers, ∀ x, resolve w.heap n.weak = some x → x.m_name ≠ obs.m_name) →
        detach w o = .done { w with m_observers := w.m_observers.filter (live w.heap) }) ∧
      (w.m_observers = [] → detach w o = .done w) := by
  rw [detach_eq ho]
  refine ⟨⟨_, rfl⟩, ?_, ?_⟩
  · intro hnew
    congr 2
    apply List.filter_congr
    intro n hn
    have : named w.heap obs.m_name n = false := by
      cases hs : named w.heap obs.m_name n with
      | false => rfl
      | true =>
        obtain ⟨x, hx, hxs⟩ := named_iff.1 hs
        exact absurd hxs (hnew n hn x hx)
    simp [this]
  · intro he
    cases w
    simp_all

theorem getElem?_update (h : List Obj) (o : ObjId) (f : Obj → Obj) (i : Nat) :
    (update h o f)[i]? = if i = o then (h[o]?).map f else h[i]? := by
  unfold update
  cases ho : h[o]? with
  | none =>
    by_cases hi : i = o
    · subst hi; simp [ho]
    · simp [hi]
  | some x =>
    have hlt : o < h.length := by
      by_contra hc
      have : h[o]? = none := List.getElem?_eq_none (Nat.le_of_not_lt hc)
      simp [this] at ho
    by_cases hi : i = o
    · subst hi; simp [List.getElem?_set, hlt]
    · have : o ≠ i := fun e => hi e.symm
      simp [List.getElem?_set, hi, this]

theorem length_update (h : List Obj) (o : ObjId) (f : Obj → Obj) :
    (update h o f).length = h.length := by
  unfold update
  cases h[o]? <;> simp

theorem use_count_update (h : List Obj) (o : ObjId) (f : Obj → Obj) (i : Nat) :
    use_count (update h o f) i =
      if i = o then (match h[o]? with | some x => (f x).owners + (f x).locks | none => 0)
      else use_count h i := by
  unfold use_count
  rw [getElem?_update]
  by_cases hi : i = o
  · subst hi
    cases h[i]? <;> simp
  · simp [hi]

theorem expired_lock {w : World} {o : ObjId} (he : expired w.heap o = false) (ev : Event) :
    expired (record (lock w o) o ev).heap o = false := by
  simp only [expired, record, lock, use_count_update] at *
  cases ho : w.heap[o]? with
  | none => simp [use_count, ho] at he
  | some x => simp

theorem run_body_keeps {P : World → Prop} (ha : ∀ w o, P w → P (attach w o).world)
    (hd : ∀ w o, P w → P (detach w o).world) (hr : ∀ w o, P w → P (release w o))
    (ops : List Op) : ∀ w, P w → P (run_body ops w).world := by
  induction ops with
  | nil => intro w hw; exact hw
  | cons op rest ih =>
    intro w hw
    cases op with
    | attach o =>
      have h1 := ha w o hw
      unfold run_body
      cases h : Observer.attach w o with
      | done w1 => rw [h] at h1; exact ih w1 h1
      | fault f w1 => rw [h] at h1; exact h1
    | detach o =>
      have h1 := hd w o hw
      unfold run_body
      cases h : Observer.detach w o with
      | done w1 => rw [h] at h1; exact ih w1 h1
      | fault f w1 => rw [h] at h1; exact h1
    | release o =>
      unfold run_body
      exact ih _ (hr w o hw)
    | raise => exact hw

theorem run_body_stable {P : World → Prop} (hP : Stable P) (ops : List Op) :
    ∀ w, P w → P (run_body ops w).world :=
  run_body_keeps hP.attach hP.detach hP.release ops

theorem monitor_QuestTracker {w : World} {o : ObjId} {x : Obj} {k : Nat} (ev : Event)
    (ho : w.heap[o]? = some x) (hs : x.state = .QuestTracker k) :
    monitor w o ev = .done (QuestTracker_monitor w o k ev) := by
  simp [monitor, ho, hs]

theorem monitor_AchievementSystem {w : World} {o : ObjId} {x : Obj} {k : Nat} (ev : Event)
    (ho : w.heap[o]? = some x) (hs : x.state = .AchievementSystem k) :
    monitor w o ev = .done (AchievementSystem_monitor w o k ev) := by
  simp [monitor, ho, hs]

theorem monitor_UIHUD {w : World} {o : ObjId} {x : Obj} (ev : Event)
    (ho : w.heap[o]? = some x) (hs : x.state = .UIHUD) :
    monitor w o ev = .done (UIHUD_monitor w ev) := by
  simp [monitor, ho, hs]

theorem monitor_Client {w : World} {o : ObjId} {x : Obj} {body : List Op} (ev : Event)
    (ho : w.heap[o]? = some x) (hs : x.state = .Client body) :
    monitor w o ev = run_body body w := by
  simp [monitor, ho, hs]

theorem monitor_stable {P : World → Prop} (hP : Stable P) (w : World) (o : ObjId) (ev : Event)
    (hw : P w) (he : expired w.heap o = false) : P (monitor w o ev).world := by
  cases ho : w.heap[o]? with
  | none => simpa [monitor, ho] using hw
  | some x =>
    cases hs : x.state with
    | QuestTracker k =>
      rw [monitor_QuestTracker ev ho hs]
      simp only [Res.world, QuestTracker_monitor]
      split
      · split
        · exact hP.puts _ _ (hP.set_state _ _ _ hw he)
        · exact hP.set_state _ _ _ hw he
      · exact hw
    | AchievementSystem k =>
      rw [monitor_AchievementSystem ev ho hs]
      simp only [Res.world, AchievementSystem_monitor]
      split
      · split
        · exact hP.puts _ _ (hP.set_state _ _ _ hw he)
        · exact hP.set_state _ _ _ hw he
      · exact hw
    | UIHUD =>
      rw [monitor_UIHUD ev ho hs]
      exact hP.printf _ _ hw
    | Client body =>
      rw [monitor_Client ev ho hs]
      exact run_body_stable hP body w hw

theorem visit_stable {P : World → Prop} (hP : Stable P) (w : World) (o : ObjId) (ev : Event)
    (hw : P w) : P (visit w o ev).world := by
  unfold visit
  cases he : expired w.heap o with
  | true => exact hw
  | false =>
    have h1 := monitor_stable hP _ o ev (hP.enter w o ev hw he) (expired_lock he ev)
    simp only [Bool.false_eq_true, ↓reduceIte]
    cases hm : monitor (record (lock w o) o ev) o ev with
    | done w2 => rw [hm] at h1; exact hP.leave _ _ h1
    | fault f w2 => rw [hm] at h1; exact hP.leave _ _ h1

theorem dispatch_stable {P : World → Prop} (hP : Stable P) (ev : Event) (fuel : Nat) :
    ∀ w it, P w → P (dispatch ev fuel w it).world := by
  induction fuel with
  | zero =>
    intro w it hw
    cases it <;> exact hw
  | succ fuel ih =>
    intro w it hw
    cases it with
    | none => exact hw
    | some a =>
      unfold dispatch
      cases hf : find_node w.m_observers a with
      | none => exact hw
      | some n =>
        have h1 := visit_stable hP w n.weak ev hw
        simp only
        cases hv : visit w n.weak ev with
        | fault f w3 => rw [hv] at h1; exact h1
        | done w3 =>
          rw [hv] at h1
          simp only
          cases hn : next_it w3.m_observers a with
          | none => exact h1
          | some it1 => exact ih w3 it1 h1

theorem broadcast_stable {P : World → Prop} (hP : Stable P) (fuel : Nat) (w : World)
    (ev : Event) (hw : P w) : P (broadcast fuel w ev).world :=
  dispatch_stable hP ev fuel _ _ (hP.cleanup w hw)

theorem step_stable {P : World → Prop} (hP : Stable P) (w : World) (c : Call) (hw : P w) :
    P (step w c).world := by
  cases c with
  | attach o => exact hP.attach w o hw
  | detach o => exact hP.detach w o hw
  | broadcast fuel ev => exact broadcast_stable hP fuel w ev hw
  | release o => exact hP.release w o hw

theorem run_stable {P : World → Prop} (hP : Stable P) (cs : List Call) :
    ∀ w, P w → P (run cs w).world := by
  induction cs with
  | nil => intro w hw; exact hw
  | cons c rest ih =>
    intro w hw
    have h1 := step_stable hP w c hw
    unfold run
    cases hs : step w c with
    | done w1 => rw [hs] at h1; exact ih w1 h1
    | fault f w1 => rw [hs] at h1; exact h1

theorem expired_congr {h h1 : List Obj} {o : ObjId} (e : h1[o]? = h[o]?) :
    expired h1 o = expired h o := by
  simp [expired, use_count, e]

theorem expired_iff {h : List Obj} {o : ObjId} :
    expired h o = true ↔ ∀ x, h[o]? = some x → x.owners = 0 ∧ x.locks = 0 := by
  unfold expired use_count
  cases h[o]? with
  | none => simp
  | some x => simp

theorem update_dead {h : List Obj} {o : ObjId} {f : Obj → Obj} {i : Nat}
    (hi : expired h i = true) (hf : ∀ x, x.owners = 0 → x.locks = 0 → f x = x) :
    (update h o f)[i]? = h[i]? := by
  rw [getElem?_update]
  split
  · rename_i e
    subst e
    cases hx : h[i]? with
    | none => rfl
    | some x =>
      have := expired_iff.1 hi x hx
      simp [hf x this.1 this.2]
  · rfl

theorem update_other {h : List Obj} {o : ObjId} {f : Obj → Obj} {i : Nat}
    (hi : expired h i = true) (ho : expired h o = false) :
    (update h o f)[i]? = h[i]? := by
  rw [getElem?_update]
  split
  · rename_i e
    subst e
    rw [hi] at ho
    cases ho
  · rfl

theorem remove_if_sublist {p : Node → Except Fault Bool} :
    ∀ {l l1 : List Node}, remove_if p l = .ok l1 → l1.Sublist l := by
  intro l
  induction l with
  | nil =>
    intro l1 h
    simp [remove_if] at h
    subst h
    exact List.Sublist.refl _
  | cons n rest ih =>
    intro l1 h
    unfold remove_if at h
    cases hp : p n with
    | error f => simp [hp] at h
    | ok b =>
      cases hr : remove_if p rest with
      | error f => simp [hp, hr] at h
      | ok r1 =>
        simp only [hp, hr, Except.ok.injEq] at h
        subst h
        have := ih hr
        cases b
        · simpa using this.cons₂ n
        · simpa using this.cons n

theorem detach_world (w : World) (o : ObjId) :
    ∃ l, l.Sublist w.m_observers ∧ (detach w o).world = { w with m_observers := l } := by
  unfold detach
  cases hr : remove_if (detach_pred w.heap o) w.m_observers with
  | error f => exact ⟨w.m_observers, List.Sublist.refl _, rfl⟩
  | ok l => exact ⟨l, remove_if_sublist hr, rfl⟩

theorem attach_scan_false {h : List Obj} {o : ObjId} {l : List Node}
    (hs : attach_scan h o l = .ok false) :
    (resolve h o = none ∧ ∀ n ∈ l, live h n = false) ∨
      ∃ obs, resolve h o = some obs ∧ ∀ n ∈ l, named h obs.m_name n = false := by
  cases ho : resolve h o with
  | some obs =>
    right
    rw [attach_scan_eq ho] at hs
    refine ⟨obs, rfl, ?_⟩
    intro n hn
    have := hs
    simp only [Except.ok.injEq, List.any_eq_false] at this
    simpa using this n hn
  | none =>
    left
    refine ⟨rfl, ?_⟩
    induction l with
    | nil => simp
    | cons n rest ih =>
      unfold attach_scan at hs
      cases hn : resolve h n.weak with
      | some x => simp [hn, ho] at hs
      | none =>
        simp only [hn] at hs
        intro m hm
        rcases List.mem_cons.1 hm with e | hm
        · subst e
          cases hl : live h m with
          | false => rfl
          | true =>
            obtain ⟨x, hx⟩ := resolve_isSome_of_live (by simpa [live] using hl)
            simp [hx] at hn
        · exact ih hs m hm

/-- The states in which `attach` can end. -/
theorem attach_world (w : World) (o : ObjId) :
    (attach w o).world = cleanup w ∨
    (attach w o).world = puts (cleanup w) "the object already exists." ∨
    ((attach w o).world = puts (emplace_back (cleanup w) o) "add success." ∧
      ((resolve w.heap o = none ∧ (cleanup w).m_observers = []) ∨
        ∃ obs, resolve w.heap o = some obs ∧
          ∀ n ∈ (cleanup w).m_observers, named w.heap obs.m_name n = false)) := by
  cases hs : attach_scan (cleanup w).heap o (cleanup w).m_observers with
  | error f => left; simp only [attach, hs, Res.world]
  | ok b =>
    cases b with
    | true => right; left; simp only [attach, hs, Res.world]
    | false =>
      right; right
      refine ⟨by simp only [attach, hs, Res.world], ?_⟩
      rcases attach_scan_false hs with ⟨h1, h2⟩ | h
      · left
        refine ⟨h1, ?_⟩
        apply List.eq_nil_iff_forall_not_mem.2
        intro n hn
        have h3 := h2 n hn
        have h4 : live w.heap n = true := by
          have := (List.mem_filter.1 hn).2
          simpa [live] using this
        have h5 : (cleanup w).heap = w.heap := rfl
        rw [h5, h4] at h3
        cases h3
      · right; exact h

theorem attach_heap (w : World) (o : ObjId) : (attach w o).world.heap = w.heap := by
  rcases attach_world w o with h | h | ⟨h, _⟩ <;> rw [h] <;> rfl

theorem attach_calls (w : World) (o : ObjId) : (attach w o).world.calls = w.calls := by
  rcases attach_world w o with h | h | ⟨h, _⟩ <;> rw [h] <;> rfl

theorem detach_heap (w : World) (o : ObjId) : (detach w o).world.heap = w.heap := by
  obtain ⟨l, _, h⟩ := detach_world w o
  rw [h]

theorem detach_calls (w : World) (o : ObjId) : (detach w o).world.calls = w.calls := by
  obtain ⟨l, _, h⟩ := detach_world w o
  rw [h]

theorem untouched_expired {w0 w : World} (hw : Untouched w0 w) {o : ObjId}
    (ho : expired w0.heap o = true) : expired w.heap o = true := by
  rw [expired_congr (hw.1 o ho)]
  exact ho

theorem untouched_of_heap {w0 w w1 : World} (hw : Untouched w0 w)
    (hh : ∀ o, expired w.heap o = true → w1.heap[o]? = w.heap[o]?)
    (hc : w1.calls = w.calls) : Untouched w0 w1 := by
  refine ⟨fun o ho => ?_, ?_⟩
  · rw [hh o (untouched_expired hw ho)]
    exact hw.1 o ho
  · rw [hc]
    exact hw.2

theorem untouched_stable (w0 : World) : Stable (Untouched w0) where
  attach w o hw := untouched_of_heap hw (fun i _ => by rw [attach_heap]) (attach_calls w o)
  detach w o hw := untouched_of_heap hw (fun i _ => by rw [detach_heap]) (detach_calls w o)
  release w o hw := untouched_of_heap hw
    (fun i hi => update_dead hi (fun x h1 _ => by cases x; simp_all)) rfl
  enter w o ev hw he := by
    refine ⟨fun i hi => ?_, ?_⟩
    · have h1 : (record (lock w o) o ev).heap[i]? = w.heap[i]? :=
        update_other (untouched_expired hw hi) he
      rw [h1]
      exact hw.1 i hi
    · obtain ⟨added, h1, h2⟩ := hw.2
      refine ⟨added ++ [(o, ev)], by simp [record, lock, h1], ?_⟩
      intro e hm
      rcases List.mem_append.1 hm with hm | hm
      · exact h2 e hm
      · simp only [List.mem_singleton] at hm
        subst hm
        cases h3 : expired w0.heap o with
        | false => rfl
        | true =>
          rw [untouched_expired hw h3] at he
          cases he
  leave w o hw := untouched_of_heap hw
    (fun i hi => update_dead hi (fun x _ h2 => by cases x; simp_all)) rfl
  set_state w o s hw he := untouched_of_heap hw (fun i hi => update_other hi he) rfl
  puts w s hw := untouched_of_heap hw (fun _ _ => rfl) rfl
  printf w ev hw := untouched_of_heap hw (fun _ _ => rfl) rfl
  cleanup w hw := untouched_of_heap hw (fun _ _ => rfl) rfl

theorem untouched_refl (w : World) : Untouched w w :=
  ⟨fun _ _ => rfl, [], by simp, by simp⟩

theorem live_names_sublist {h : List Obj} {l1 l : List Node} (hs : l1.Sublist l) :
    (live_names h l1).Sublist (live_names h l) :=
  (hs.filter _).map _

theorem live_names_decay {h h1 : List Obj} (l : List Node)
    (hn : ∀ o : ObjId, (h1[o]?).map Obj.m_name = (h[o]?).map Obj.m_name)
    (hl : ∀ o, expired h o = true → expired h1 o = true) :
    (live_names h1 l).Sublist (live_names h l) := by
  have h1' : live_names h1 l
      = (l.filter (live h1)).map (fun n => (h[n.weak]?).map (·.m_name)) := by
    unfold live_names
    apply List.map_congr_left
    intro n _
    exact hn n.weak
  rw [h1']
  apply List.Sublist.map
  apply List.monotone_filter_right
  intro n hn1
  cases he : expired h n.weak with
  | false => simp [live, he]
  | true =>
    have := hl n.weak he
    simp [live, this] at hn1

theorem distinct_of_decay {w w1 : World} (hw : DistinctLive w)
    (hr : w1.m_observers.Sublist w.m_observers)
    (hn : ∀ o : ObjId, (w1.heap[o]?).map Obj.m_name = (w.heap[o]?).map Obj.m_name)
    (hl : ∀ o, expired w.heap o = true → expired w1.heap o = true) : DistinctLive w1 := by
  unfold DistinctLive at *
  exact ((live_names_decay w1.m_observers hn hl).trans (live_names_sublist hr)).nodup hw

theorem update_name (h : List Obj) (o : ObjId) (f : Obj → Obj)
    (hf : ∀ x, (f x).m_name = x.m_name) (i : Nat) :
    ((update h o f)[i]?).map Obj.m_name = (h[i]?).map Obj.m_name := by
  rw [getElem?_update]
  split
  · rename_i e
    subst e
    cases h[i]? <;> simp [hf]
  · rfl

theorem update_expired_of_dead {h : List Obj} {o : ObjId} {f : Obj → Obj}
    (hf : ∀ x, x.owners = 0 → x.locks = 0 → f x = x) {i : Nat} (hi : expired h i = true) :
    expired (update h o f) i = true := by
  rw [expired_congr (update_dead hi hf)]
  exact hi

theorem update_expired_of_live {h : List Obj} {o : ObjId} {f : Obj → Obj}
    (ho : expired h o = false) {i : Nat} (hi : expired h i = true) :
    expired (update h o f) i = true := by
  rw [expired_congr (update_other hi ho)]
  exact hi

theorem live_names_cleanup (w : World) :
    live_names w.heap (cleanup w).m_observers = live_names w.heap w.m_observers := by
  simp only [live_names, cleanup, List.filter_filter]
  congr 1
  apply List.filter_congr
  intro n _
  simp [live]

theorem distinct_stable : Stable DistinctLive where
  attach w o hw := by
    have hc : DistinctLive (cleanup w) :=
      distinct_of_decay hw (List.filter_sublist _) (fun _ => rfl) (fun _ h => h)
    rcases attach_world w o with h | h | ⟨h, hnew⟩
    · rw [h]; exact hc
    · rw [h]; exact hc
    · rw [h]
      unfold DistinctLive at *
      have hh : (puts (emplace_back (cleanup w) o) "add success.").heap = w.heap := rfl
      have hm : (puts (emplace_back (cleanup w) o) "add success.").m_observers
          = (cleanup w).m_observers ++ [⟨(cleanup w).fresh, o⟩] := rfl
      rw [hh, hm]
      have hc' : (live_names w.heap (cleanup w).m_observers).Nodup := hc
      simp only [live_names, List.filter_append, List.map_append] at hc' ⊢
      rcases hnew with ⟨hnone, _⟩ | ⟨obs, ho, hno⟩
      · have : live w.heap ⟨(cleanup w).fresh, o⟩ = false := by
          cases hl : live w.heap ⟨(cleanup w).fresh, o⟩ with
          | false => rfl
          | true =>
            obtain ⟨x, hx⟩ := resolve_isSome_of_live (h := w.heap) (o := o)
              (by simpa [live] using hl)
            simp [hx] at hnone
        simp [List.filter, this]
        exact hc'
      · have hl : live w.heap ⟨(cleanup w).fresh, o⟩ = true := by
          simp [live, (resolve_eq_some ho).1]
        simp only [List.filter, hl, List.map_cons, List.map_nil]
        rw [List.nodup_append]
        refine ⟨hc', List.nodup_singleton _, ?_⟩
        intro s hs1 hs2
        simp only [List.mem_singleton] at hs2
        subst hs2
        obtain ⟨n, hn, hns⟩ := List.mem_map.1 hs1
        have hn' := List.mem_filter.1 hn
        have hf := hno n hn'.1
        have hx : expired w.heap n.weak = false := by simpa [live] using hn'.2
        obtain ⟨x, hx2⟩ := resolve_isSome_of_live hx
        have hx3 := (resolve_eq_some hx2).2
        have : named w.heap obs.m_name n = true := by
          rw [named_iff]
          refine ⟨x, hx2, ?_⟩
          simpa [hx3, (resolve_eq_some ho).2] using hns
        rw [this] at hf
        cases hf
  detach w o hw := by
    obtain ⟨l, hl, h⟩ := detach_world w o
    rw [h]
    exact distinct_of_decay hw hl (fun _ => rfl) (fun _ h => h)
  release w o hw := distinct_of_decay hw (List.Sublist.refl _)
    (update_name _ _ _ (fun _ => rfl))
    (fun _ hi => update_expired_of_dead (fun x h1 _ => by cases x; simp_all) hi)
  enter w o ev hw he := distinct_of_decay hw (List.Sublist.refl _)
    (update_name _ _ _ (fun _ => rfl))
    (fun _ hi => update_expired_of_live he hi)
  leave w o hw := distinct_of_decay hw (List.Sublist.refl _)
    (update_name _ _ _ (fun _ => rfl))
    (fun _ hi => update_expired_of_dead (fun x _ h2 => by cases x; simp_all) hi)
  set_state w o s hw he := distinct_of_decay hw (List.Sublist.refl _)
    (update_name _ _ _ (fun _ => rfl))
    (fun _ hi => update_expired_of_live he hi)
  puts w s hw := hw
  printf w ev hw := hw
  cleanup w hw := distinct_of_decay hw (List.filter_sublist _) (fun _ => rfl) (fun _ h => h)

theorem nodes_stable : Stable NodesOk where
  attach w o hw := by
    have hc : NodesOk (cleanup w) :=
      ⟨((List.filter_sublist _).map _).nodup hw.1, fun n hn => hw.2 n (List.mem_filter.1 hn).1⟩
    rcases attach_world w o with h | h | ⟨h, _⟩
    · rw [h]; exact hc
    · rw [h]; exact hc
    · rw [h]
      refine ⟨?_, ?_⟩
      · show (((cleanup w).m_observers ++ [Node.mk (cleanup w).fresh o]).map Node.addr).Nodup
        rw [List.map_append, List.nodup_append]
        refine ⟨hc.1, List.nodup_singleton _, ?_⟩
        intro a ha1 ha2
        simp only [List.map_cons, List.map_nil, List.mem_singleton] at ha2
        subst ha2
        obtain ⟨n, hn, hna⟩ := List.mem_map.1 ha1
        have := hc.2 n hn
        omega
      · intro n hn
        have hn' : n ∈ (cleanup w).m_observers ++ [Node.mk (cleanup w).fresh o] := hn
        show n.addr < (cleanup w).fresh + 1
        rcases List.mem_append.1 hn' with hn' | hn'
        · have := hc.2 n hn'
          omega
        · simp only [List.mem_singleton] at hn'
          subst hn'
          exact Nat.lt_succ_self _
  detach w o hw := by
    obtain ⟨l, hl, h⟩ := detach_world w o
    rw [h]
    exact ⟨(hl.map _).nodup hw.1, fun n hn => hw.2 n (hl.subset hn)⟩
  release w o hw := hw
  enter w o ev hw he := hw
  leave w o hw := hw
  set_state w o s hw he := hw
  puts w s hw := hw
  printf w ev hw := hw
  cleanup w hw :=
    ⟨((List.filter_sublist _).map _).nodup hw.1, fun n hn => hw.2 n (List.mem_filter.1 hn).1⟩

theorem run_append (a b : List Call) : ∀ w, run (a ++ b) w =
    match run a w with
    | .done w1 => run b w1
    | .fault f w1 => .fault f w1 := by
  induction a with
  | nil => intro w; rfl
  | cons c rest ih =>
    intro w
    simp only [List.cons_append, run]
    cases step w c with
    | done w1 => exact ih w1
    | fault f w1 => rfl

/-- C1: `broadcast` never invokes `monitor` on a subscriber that was already
destroyed when the call began (no such subscriber is among the invocations the
call adds to the trace), and the record of such a subscriber, its counter
included, is the same after the call.  This holds for every state, event and
amount of fuel, whatever the subscribers do in `monitor`, and also in the state
in which a broadcast that faults stops. -/
theorem broadcast_never_dispatches_expired (fuel : Nat) (w : World) (event : Event) :
    ∃ added, (broadcast fuel w event).world.calls = w.calls ++ added ∧
      ∀ o, expired w.heap o = true →
        (∀ e ∈ added, e.1 ≠ o) ∧ (broadcast fuel w event).world.heap[o]? = w.heap[o]? := by
  obtain ⟨h1, added, h2, h3⟩ :=
    broadcast_stable (untouched_stable w) fuel w event (untouched_refl w)
  refine ⟨added, h2, fun o ho => ⟨fun e he heq => ?_, h1 o ho⟩⟩
  have := h3 e he
  rw [heq, ho] at this
  cases this

/-- C2: starting from a bus with an empty registry (any heap of subscribers),
after any sequence `pre` of `attach`, `detach`, `broadcast` and `release` calls
followed by an `attach`, no two live entries of the registry have the same
name.  When `pre` returns and the observer passed to `attach` exists, that
`attach` returns and the names of the live entries are pairwise distinct. -/
theorem attach_keeps_names_distinct (heap : List Obj) (fresh : Nat) (out : List String)
    (calls : List (ObjId × Event)) (pre : List Call) (o : ObjId) :
    DistinctLive (run (pre ++ [.attach o]) ⟨heap, [], fresh, out, calls⟩).world ∧
      ∀ w1 obs, run pre ⟨heap, [], fresh, out, calls⟩ = .done w1 →
        resolve w1.heap o = some obs →
        ∃ w2, attach w1 o = .done w2 ∧
          run (pre ++ [.attach o]) ⟨heap, [], fresh, out, calls⟩ = .done w2 ∧
          ((w2.m_observers.filter (live w2.heap)).map
            (fun n => (w2.heap[n.weak]?).map Obj.m_name)).Nodup := by
  have h0 : DistinctLive ⟨heap, [], fresh, out, calls⟩ := by
    simp [DistinctLive, live_names]
  refine ⟨run_stable distinct_stable _ _ h0, ?_⟩
  intro w1 obs hr ho
  have h1 := run_stable distinct_stable (pre ++ [.attach o]) _ h0
  rw [run_append, hr] at h1 ⊢
  simp only [run, step] at h1 ⊢
  rw [attach_eq ho] at h1 ⊢
  split
  · rename_i h
    simp only [h, ↓reduceIte] at h1
    exact ⟨_, rfl, rfl, h1⟩
  · rename_i h
    simp only [h] at h1
    exact ⟨_, rfl, rfl, h1⟩

theorem similar_refl (h : List Obj) : Similar h h := fun _ => rfl

theorem similar_trans {h h1 h2 : List Obj} (a : Similar h h1) (b : Similar h1 h2) :
    Similar h h2 := fun i => (b i).trans (a i)

theorem similar_expired {h h1 : List Obj} (hs : Similar h h1) (o : ObjId) :
    expired h1 o = expired h o := by
  have := hs o
  unfold expired use_count
  cases h1o : h1[o]? with
  | none =>
    cases ho : h[o]? with
    | none => rfl
    | some x => simp [h1o, ho] at this
  | some x1 =>
    cases ho : h[o]? with
    | none => simp [h1o, ho] at this
    | some x =>
      simp only [h1o, ho, Option.map_some', Option.some.injEq, shape] at this
      have h1 := congrArg Obj.owners this
      have h2 := congrArg Obj.locks this
      simp only at h1 h2
      simp [h1, h2]

theorem similar_live {h h1 : List Obj} (hs : Similar h h1) (n : Node) :
    live h1 n = live h n := by
  simp [live, similar_expired hs]

theorem builtin_reset (s : ObsState) : s.reset.builtin = s.builtin := by
  cases s <;> rfl

theorem similar_builtin {h h1 : List Obj} (hs : Similar h h1) {o : ObjId} {x1 : Obj}
    (h1o : resolve h1 o = some x1) :
    ∃ x, resolve h o = some x ∧ x.state.builtin = x1.state.builtin := by
  obtain ⟨he, hx⟩ := resolve_eq_some h1o
  rw [similar_expired hs] at he
  obtain ⟨x, hr⟩ := resolve_isSome_of_live he
  refine ⟨x, hr, ?_⟩
  have := hs o
  simp only [hx, (resolve_eq_some hr).2, Option.map_some', Option.some.injEq, shape] at this
  have h2 := congrArg (fun y => y.state.builtin) this
  simp only [builtin_reset] at h2
  exact h2.symm

/-- One entry of the range-for whose subscriber is of a class of the source. -/
theorem visit_builtin {w : World} {o : ObjId} {x : Obj} (ev : Event)
    (ho : resolve w.heap o = some x) (hb : x.state.builtin = true) :
    ∃ w1, visit w o ev = .done w1 ∧ w1.m_observers = w.m_observers ∧ w1.fresh = w.fresh ∧
      w1.calls = w.calls ++ [(o, ev)] ∧ Similar w.heap w1.heap := by
  obtain ⟨he, hx⟩ := resolve_eq_some ho
  have hlk : (record (lock w o) o ev).heap[o]? = some { x with locks := x.locks + 1 } := by
    simp [record, lock, getElem?_update, hx]
  unfold visit
  simp only [he, Bool.false_eq_true, ↓reduceIte]
  cases hs : x.state with
  | Client body => simp [hs, ObsState.builtin] at hb
  | UIHUD =>
    rw [monitor_UIHUD ev hlk hs]
    refine ⟨_, rfl, rfl, rfl, rfl, ?_⟩
    intro i
    simp only [unlock, UIHUD_monitor, record, lock, getElem?_update]
    split
    · rename_i e; subst e; simp [hx]
    · rfl
  | QuestTracker k =>
    rw [monitor_QuestTracker ev hlk hs]
    simp only [QuestTracker_monitor]
    split
    · split
      · refine ⟨_, rfl, rfl, rfl, rfl, ?_⟩
        intro i
        simp only [unlock, puts, set_state, record, lock, getElem?_update]
        split
        · rename_i e; subst e; simp [hx, shape, hs, ObsState.reset]
        · rfl
      · refine ⟨_, rfl, rfl, rfl, rfl, ?_⟩
        intro i
        simp only [unlock, puts, set_state, record, lock, getElem?_update]
        split
        · rename_i e; subst e; simp [hx, shape, hs, ObsState.reset]
        · rfl
    · refine ⟨_, rfl, rfl, rfl, rfl, ?_⟩
      intro i
      simp only [unlock, record, lock, getElem?_update]
      split
      · rename_i e; subst e; simp [hx]
      · rfl
  | AchievementSystem k =>
    rw [monitor_AchievementSystem ev hlk hs]
    simp only [AchievementSystem_monitor]
    split
    · split
      · refine ⟨_, rfl, rfl, rfl, rfl, ?_⟩
        intro i
        simp only [unlock, puts, set_state, record, lock, getElem?_update]
        split
        · rename_i e; subst e; simp [hx, shape, hs, ObsState.reset]
        · rfl
      · refine ⟨_, rfl, rfl, rfl, rfl, ?_⟩
        intro i
        simp only [unlock, puts, set_state, record, lock, getElem?_update]
        split
        · rename_i e; subst e; simp [hx, shape, hs, ObsState.reset]
        · rfl
    · refine ⟨_, rfl, rfl, rfl, rfl, ?_⟩
      intro i
      simp only [unlock, record, lock, getElem?_update]
      split
      · rename_i e; subst e; simp [hx]
      · rfl

theorem find_node_mid {l1 : List Node} {n : Node} {r : List Node}
    (hn : n.addr ∉ l1.map Node.addr) : find_node (l1 ++ n :: r) n.addr = some n := by
  induction l1 with
  | nil => simp [find_node]
  | cons m rest ih =>
    have h1 : m.addr ≠ n.addr := fun e => hn (by simp [e])
    have h2 : n.addr ∉ rest.map Node.addr := fun h => hn (by simp at h ⊢; exact Or.inr h)
    have := ih h2
    simp only [find_node] at this ⊢
    have h3 : (m.addr == n.addr) = false := by simpa using h1
    simp [List.find?, h3, this]

theorem next_it_mid {l1 : List Node} {n : Node} {r : List Node}
    (hn : n.addr ∉ l1.map Node.addr) :
    next_it (l1 ++ n :: r) n.addr = some (r.head?.map (·.addr)) := by
  induction l1 with
  | nil => simp [next_it]
  | cons m rest ih =>
    have h1 : m.addr ≠ n.addr := fun e => hn (by simp [e])
    have h2 : n.addr ∉ rest.map Node.addr := fun h => hn (by simp at h ⊢; exact Or.inr h)
    simp [next_it, h1, ih h2]

theorem next_it_none {l : List Node} {a : Nat} (ha : a ∉ l.map Node.addr) :
    next_it l a = none := by
  induction l with
  | nil => rfl
  | cons m rest ih =>
    have h1 : m.addr ≠ a := fun e => ha (by simp [e])
    have h2 : a ∉ rest.map Node.addr := fun h => ha (by simp at h ⊢; exact Or.inr h)
    simp [next_it, h1, ih h2]

/-- The range-for over a stretch `l2` of the registry whose live subscribers
are all of a class of the source. -/
theorem dispatch_builtin (ev : Event) (fuel : Nat) : ∀ (l2 l1 l3 : List Node) (w : World),
    w.m_observers = l1 ++ l2 ++ l3 → (w.m_observers.map Node.addr).Nodup →
    (∀ n ∈ l2, ∀ x, resolve w.heap n.weak = some x → x.state.builtin = true) →
    ∃ w1, dispatch ev (l2.length + fuel) w ((l2 ++ l3).head?.map (·.addr))
        = dispatch ev fuel w1 (l3.head?.map (·.addr)) ∧
      w1.m_observers = w.m_observers ∧ w1.fresh = w.fresh ∧ Similar w.heap w1.heap ∧
      w1.calls = w.calls ++ (l2.filter (live w.heap)).map (fun n => (n.weak, ev)) := by
  intro l2
  induction l2 with
  | nil =>
    intro l1 l3 w _ _ _
    exact ⟨w, by simp, rfl, rfl, similar_refl _, by simp⟩
  | cons n rest ih =>
    intro l1 l3 w hreg hnd hb
    have hreg' : w.m_observers = l1 ++ n :: (rest ++ l3) := by simp [hreg]
    have hn1 : n.addr ∉ l1.map Node.addr := by
      rw [hreg', List.map_append, List.nodup_append] at hnd
      intro h
      exact hnd.2.2 h (by simp)
    have hfuel : (n :: rest).length + fuel = (rest.length + fuel) + 1 := by
      simp only [List.length_cons]; omega
    have hstep : ∃ w3, visit w n.weak ev = .done w3 ∧ w3.m_observers = w.m_observers ∧
        w3.fresh = w.fresh ∧ Similar w.heap w3.heap ∧
        w3.calls = w.calls ++ ([n].filter (live w.heap)).map (fun n => (n.weak, ev)) := by
      cases he : expired w.heap n.weak with
      | true =>
        refine ⟨w, by simp [visit, he], rfl, rfl, similar_refl _, ?_⟩
        simp [List.filter, live, he]
      | false =>
        obtain ⟨x, hx⟩ := resolve_isSome_of_live he
        obtain ⟨w3, h1, h2, h3, h4, h5⟩ :=
          visit_builtin ev hx (hb n (List.mem_cons_self _ _) x hx)
        refine ⟨w3, h1, h2, h3, h5, ?_⟩
        simp [List.filter, live, he, h4]
    obtain ⟨w3, hv, hm, hf, hs, hc⟩ := hstep
    have hreg3 : w3.m_observers = (l1 ++ [n]) ++ rest ++ l3 := by simp [hm, hreg]
    have hb3 : ∀ m ∈ rest, ∀ x, resolve w3.heap m.weak = some x → x.state.builtin = true := by
      intro m hm' x hx
      obtain ⟨y, hy, hyb⟩ := similar_builtin hs hx
      rw [← hyb]
      exact hb m (List.mem_cons_of_mem _ hm') y hy
    obtain ⟨w1, e1, e2, e3, e4, e5⟩ := ih (l1 ++ [n]) l3 w3 hreg3 (by rw [hm]; exact hnd) hb3
    refine ⟨w1, ?_, by rw [e2, hm], by rw [e3, hf], similar_trans hs e4, ?_⟩
    · rw [hfuel, ← e1]
      simp only [List.cons_append, List.head?_cons, Option.map_some']
      rw [dispatch]
      simp only [hreg', find_node_mid hn1, hv]
      rw [hm, hreg', next_it_mid hn1]
    · rw [e5, hc]
      have : List.filter (live w3.heap) rest = List.filter (live w.heap) rest :=
        List.filter_congr (fun m _ => similar_live hs m)
      rw [this]
      simp [List.filter_cons]
      split <;> simp

theorem dispatch_end (ev : Event) (fuel : Nat) (w : World) :
    dispatch ev fuel w none = .done w := by
  cases fuel <;> rfl

theorem live_cleanup (w : World) : ∀ n ∈ (cleanup w).m_observers, live w.heap n = true := by
  intro n hn
  have := (List.mem_filter.1 hn).2
  simpa [live] using this

/-- A broadcast over a registry whose live subscribers are all of a class of the
source. -/
theorem broadcast_builtin (w : World) (ev : Event) (fuel : Nat)
    (hnodes : (w.m_observers.map Node.addr).Nodup)
    (hb : ∀ n ∈ w.m_observers, ∀ x, resolve w.heap n.weak = some x → x.state.builtin = true)
    (hfuel : (w.m_observers.filter (live w.heap)).length ≤ fuel) :
    ∃ w1, broadcast fuel w ev = .done w1 ∧
      w1.m_observers = w.m_observers.filter (live w.heap) ∧ w1.fresh = w.fresh ∧
      Similar w.heap w1.heap ∧
      w1.calls = w.calls ++ (w.m_observers.filter (live w.heap)).map (fun n => (n.weak, ev)) := by
  have hcl : (cleanup w).m_observers = w.m_observers.filter (live w.heap) := rfl
  obtain ⟨k, hk⟩ := Nat.exists_eq_add_of_le hfuel
  obtain ⟨w1, e1, e2, e3, e4, e5⟩ := dispatch_builtin ev k (cleanup w).m_observers [] []
    (cleanup w) (by simp) (((List.filter_sublist _).map _).nodup hnodes)
    (fun n hn x hx => hb n (List.mem_filter.1 hn).1 x hx)
  refine ⟨w1, ?_, by rw [e2, hcl], e3, e4, ?_⟩
  · unfold broadcast begin_it
    rw [hk, ← hcl]
    simp only [List.append_nil, List.head?_nil, Option.map_none', dispatch_end] at e1
    exact e1
  · rw [e5]
    have : (cleanup w).m_observers.filter (live (cleanup w).heap)
        = w.m_observers.filter (live w.heap) := by
      rw [hcl, List.filter_filter]
      apply List.filter_congr
      intro n _
      show (live w.heap n && live w.heap n) = live w.heap n
      simp
    rw [this]
    rfl

theorem mem_detach_filter {h : List Obj} {s : String} {l : List Node} {n : Node} :
    n ∈ l.filter (fun n => live h n && !named h s n) ↔
      n ∈ l ∧ expired h n.weak = false ∧ ∀ x, h[n.weak]? = some x → x.m_name ≠ s := by
  simp only [List.mem_filter, Bool.and_eq_true, Bool.not_eq_true']
  constructor
  · rintro ⟨hn, hl, hs⟩
    have he : expired h n.weak = false := by simpa [live] using hl
    refine ⟨hn, he, fun x hx hxs => ?_⟩
    have : named h s n = true := named_iff.2 ⟨x, by simp [resolve, he, hx], hxs⟩
    rw [this] at hs
    cases hs
  · rintro ⟨hn, he, hx⟩
    refine ⟨hn, by simp [live, he], ?_⟩
    cases hs : named h s n with
    | false => rfl
    | true =>
      obtain ⟨x, hx1, hx2⟩ := named_iff.1 hs
      exact absurd hx2 (hx x (resolve_eq_some hx1).2)

/-- C7: after `detach(o)` the registry is the previous one without its expired
entries and without the entries named like `o`, the others in their order; a
following `broadcast` (subscribers of the classes of the source) invokes
`monitor` on no subscriber named like `o`. -/
theorem detach_removes_named (w : World) (o : ObjId) (obs : Obj)
    (ho : resolve w.heap o = some obs) :
    ∃ w1, detach w o = .done w1 ∧
      w1 = { w with
        m_observers := List.filter (fun n => live w.heap n && !named w.heap obs.m_name n)
          w.m_observers } ∧
      (∀ n, n ∈ w1.m_observers ↔ n ∈ w.m_observers ∧ expired w.heap n.weak = false ∧
        ∀ x, w.heap[n.weak]? = some x → x.m_name ≠ obs.m_name) ∧
      w1.m_observers.Sublist w.m_observers ∧
      ∀ event fuel, (w.m_observers.map Node.addr).Nodup →
        (∀ n ∈ w.m_observers, ∀ x, resolve w.heap n.weak = some x → x.state.builtin = true) →
        w.m_observers.length ≤ fuel →
        ∃ w2 added, broadcast fuel w1 event = .done w2 ∧ w2.calls = w1.calls ++ added ∧
          ∀ e ∈ added, ∀ x, w.heap[e.1]? = some x → x.m_name ≠ obs.m_name := by
  refine ⟨_, detach_eq ho, rfl, fun n => mem_detach_filter, List.filter_sublist _, ?_⟩
  intro event fuel hnodes hb hfuel
  have hsub : (List.filter (fun n => live w.heap n && !named w.heap obs.m_name n)
      w.m_observers).Sublist w.m_observers := List.filter_sublist _
  obtain ⟨w2, h1, _, _, _, h5⟩ := broadcast_builtin
    { w with
      m_observers := List.filter (fun n => live w.heap n && !named w.heap obs.m_name n)
        w.m_observers }
    event fuel ((hsub.map _).nodup hnodes)
    (fun n hn x hx => hb n (hsub.subset hn) x hx)
    (le_trans ((List.filter_sublist _).length_le) (le_trans hsub.length_le hfuel))
  refine ⟨w2, _, h1, h5, ?_⟩
  intro e he x hx
  obtain ⟨n, hn, rfl⟩ := List.mem_map.1 he
  have hn2 := (List.mem_filter.1 hn).1
  exact (mem_detach_filter.1 hn2).2.2 x hx

theorem addr_inj {w : World} (hw : NodesOk w) {n m : Node} (hn : n ∈ w.m_observers)
    (hm : m ∈ w.m_observers) (e : n.addr = m.addr) : n = m :=
  List.inj_on_of_nodup_map hw.1 hn hm e

theorem attach_fresh (w : World) (o : ObjId) : w.fresh ≤ (attach w o).world.fresh := by
  rcases attach_world w o with h | h | ⟨h, _⟩ <;> rw [h]
  · exact Nat.le_refl _
  · exact Nat.le_refl _
  · exact Nat.le_succ _

theorem pinned_sub {w0 w w1 : World} {a : Nat} {o : ObjId} (hw : Pinned w0 a o w)
    (hf : w.fresh ≤ w1.fresh) (hn : NodesOk w1) (hu : Untouched w0 w1)
    (hl : ∀ x, w.heap[o]? = some x → ∃ y, w1.heap[o]? = some y ∧ y.locks = x.locks)
    (hs : w1.m_observers.Sublist w.m_observers) : Pinned w0 a o w1 := by
  obtain ⟨h1, h2, _, ⟨x, hx, hxl⟩, h5⟩ := hw
  obtain ⟨y, hy, hyl⟩ := hl x hx
  refine ⟨by omega, hn, hu, ⟨y, hy, by omega⟩, ?_⟩
  rintro ⟨n, hn1, hna⟩
  obtain ⟨h6, m, hm, hma, hmo⟩ := h5 ⟨n, hs.subset hn1, hna⟩
  have : n = m := addr_inj h2 (hs.subset hn1) hm (hna.trans hma.symm)
  subst this
  exact ⟨fun k hk => h6 k (hs.subset hk), n, hn1, hma, hmo⟩

theorem pinned_attach {w0 w : World} {a : Nat} {o : ObjId} (p : ObjId)
    (hw : Pinned w0 a o w) : Pinned w0 a o (attach w p).world := by
  have hn := nodes_stable.attach w p hw.2.1
  have hu := (untouched_stable w0).attach w p hw.2.2.1
  have hcl : Pinned w0 a o (cleanup w) :=
    pinned_sub hw (Nat.le_refl _) (nodes_stable.cleanup w hw.2.1)
      ((untouched_stable w0).cleanup w hw.2.2.1) (fun x hx => ⟨x, hx, rfl⟩)
      (List.filter_sublist _)
  rcases attach_world w p with h | h | ⟨h, hnew⟩
  · rw [h]; exact hcl
  · rw [h]; exact hcl
  · rw [h] at hn hu ⊢
    obtain ⟨h1, h2, h3, h4, h5⟩ := hcl
    refine ⟨Nat.lt_succ_of_lt h1, hn, hu, h4, ?_⟩
    rintro ⟨n, hn1, hna⟩
    have hn2 : n ∈ (cleanup w).m_observers ++ [Node.mk (cleanup w).fresh p] := hn1
    have hn3 : n ∈ (cleanup w).m_observers := by
      rcases List.mem_append.1 hn2 with h | h
      · exact h
      · simp only [List.mem_singleton] at h
        subst h
        simp only at hna
        omega
    obtain ⟨h6, m, hm, hma, hmo⟩ := h5 ⟨n, hn3, hna⟩
    refine ⟨?_, m, List.mem_append_left _ hm, hma, hmo⟩
    intro k hk
    have hk2 : k ∈ (cleanup w).m_observers ++ [Node.mk (cleanup w).fresh p] := hk
    rcases List.mem_append.1 hk2 with h | h
    · exact h6 k h
    · simp only [List.mem_singleton] at h
      subst h
      rcases hnew with ⟨_, hnil⟩ | ⟨obs, ho, _⟩
      · rw [hnil] at hn3
        cases hn3
      · cases he : expired w0.heap p with
        | false => rfl
        | true =>
          have h7 := untouched_expired hw.2.2.1 he
          rw [(resolve_eq_some ho).1] at h7
          cases h7

theorem pinned_detach {w0 w : World} {a : Nat} {o : ObjId} (p : ObjId)
    (hw : Pinned w0 a o w) : Pinned w0 a o (detach w p).world := by
  have hn := nodes_stable.detach w p hw.2.1
  have hu := (untouched_stable w0).detach w p hw.2.2.1
  obtain ⟨l, hl, h⟩ := detach_world w p
  rw [h] at hn hu ⊢
  exact pinned_sub hw (Nat.le_refl _) hn hu (fun x hx => ⟨x, hx, rfl⟩) hl

theorem pinned_heap {w0 w : World} {a : Nat} {o : ObjId} (p : ObjId) (f : Obj → Obj)
    (hw : Pinned w0 a o w) (hf : ∀ x, (f x).locks = x.locks)
    (hu : Untouched w0 { w with heap := update w.heap p f }) :
    Pinned w0 a o { w with heap := update w.heap p f } := by
  refine pinned_sub hw (Nat.le_refl _) hw.2.1 hu ?_ (List.Sublist.refl _)
  intro x hx
  show ∃ y, (update w.heap p f)[o]? = some y ∧ y.locks = x.locks
  rw [getElem?_update]
  split
  · rename_i e
    subst e
    exact ⟨f x, by simp [hx], hf x⟩
  · exact ⟨x, hx, rfl⟩

theorem pinned_live {w0 w : World} {a : Nat} {o : ObjId} (hw : Pinned w0 a o w) :
    expired w.heap o = false := by
  obtain ⟨x, hx, hxl⟩ := hw.2.2.2.1
  simp only [expired, use_count, hx]
  simp
  omega

theorem pinned_monitor {w0 w : World} {a : Nat} {o : ObjId} (ev : Event)
    (hw : Pinned w0 a o w) : Pinned w0 a o (monitor w o ev).world := by
  have hl := pinned_live hw
  have hst : ∀ s, Pinned w0 a o (set_state w o s) := fun s =>
    pinned_heap o _ hw (fun _ => rfl) ((untouched_stable w0).set_state w o s hw.2.2.1 hl)
  have hout : ∀ {w1 : World} (l : List String), Pinned w0 a o w1 →
      Pinned w0 a o { w1 with out := l } := fun l h => h
  cases ho : w.heap[o]? with
  | none => simpa [monitor, ho] using hw
  | some x =>
    cases hs : x.state with
    | QuestTracker k =>
      rw [monitor_QuestTracker ev ho hs]
      simp only [Res.world, QuestTracker_monitor]
      split
      · split
        · exact hout _ (hst _)
        · exact hst _
      · exact hw
    | AchievementSystem k =>
      rw [monitor_AchievementSystem ev ho hs]
      simp only [Res.world, AchievementSystem_monitor]
      split
      · split
        · exact hout _ (hst _)
        · exact hst _
      · exact hw
    | UIHUD =>
      rw [monitor_UIHUD ev ho hs]
      exact hout _ hw
    | Client body =>
      rw [monitor_Client ev ho hs]
      exact run_body_keeps (fun w p h => pinned_attach p h) (fun w p h => pinned_detach p h)
        (fun w p h => pinned_heap p _ h (fun _ => rfl)
          ((untouched_stable w0).release w p h.2.2.1)) body w hw

theorem find_node_some {l : List Node} {a : Nat} {n : Node} (h : find_node l a = some n) :
    n ∈ l ∧ n.addr = a := by
  unfold find_node at h
  exact ⟨List.mem_of_find?_eq_some h, by simpa using List.find?_some h⟩

/-- One entry of the range-for, for arbitrary subscribers: if the node is still
in the list afterwards, the registry has no handle to a subscriber destroyed
before the broadcast began. -/
theorem visit_all_live {w0 w : World} {a : Nat} {n : Node} (ev : Event)
    (hn : NodesOk w) (hu : Untouched w0 w) (hl : AllLiveAt w0 w)
    (hf : find_node w.m_observers a = some n) :
    NodesOk (visit w n.weak ev).world ∧ Untouched w0 (visit w n.weak ev).world ∧
      ((∃ m ∈ (visit w n.weak ev).world.m_observers, m.addr = a) →
        AllLiveAt w0 (visit w n.weak ev).world) := by
  refine ⟨visit_stable nodes_stable w n.weak ev hn,
    visit_stable (untouched_stable w0) w n.weak ev hu, ?_⟩
  obtain ⟨hmem, hna⟩ := find_node_some hf
  unfold visit
  cases he : expired w.heap n.weak with
  | true => intro _; exact hl
  | false =>
    simp only [Bool.false_eq_true, ↓reduceIte]
    have hp : Pinned w0 a n.weak (record (lock w n.weak) n.weak ev) := by
      refine ⟨?_, hn, (untouched_stable w0).enter w n.weak ev hu he, ?_, ?_⟩
      · have := hn.2 n hmem
        rw [hna] at this
        exact this
      · obtain ⟨x, hx⟩ := resolve_isSome_of_live he
        refine ⟨{ x with locks := x.locks + 1 }, ?_, Nat.succ_pos _⟩
        simp [record, lock, getElem?_update, (resolve_eq_some hx).2]
      · intro _
        exact ⟨hl, n, hmem, hna, rfl⟩
    have hm := pinned_monitor ev hp
    have key : ∀ w2 : World, Pinned w0 a n.weak w2 →
        (∃ m ∈ (unlock w2 n.weak).m_observers, m.addr = a) →
          AllLiveAt w0 (unlock w2 n.weak) := fun w2 h2 hex => (h2.2.2.2.2 hex).1
    cases hmo : monitor (record (lock w n.weak) n.weak ev) n.weak ev with
    | done w2 => rw [hmo] at hm; exact key w2 hm
    | fault f w2 => rw [hmo] at hm; exact key w2 hm

theorem dispatch_all_live (w0 : World) (ev : Event) (fuel : Nat) :
    ∀ w it w1, NodesOk w → Untouched w0 w → AllLiveAt w0 w →
      dispatch ev fuel w it = .done w1 → AllLiveAt w0 w1 := by
  induction fuel with
  | zero =>
    intro w it w1 _ _ hl hd
    cases it with
    | none =>
      simp only [dispatch, Res.done.injEq] at hd
      subst hd
      exact hl
    | some a => simp [dispatch] at hd
  | succ fuel ih =>
    intro w it w1 hn hu hl hd
    cases it with
    | none =>
      simp only [dispatch, Res.done.injEq] at hd
      subst hd
      exact hl
    | some a =>
      unfold dispatch at hd
      cases hf : find_node w.m_observers a with
      | none => simp [hf] at hd
      | some n =>
        obtain ⟨h1, h2, h3⟩ := visit_all_live ev hn hu hl hf
        simp only [hf] at hd
        cases hv : visit w n.weak ev with
        | fault f w3 => simp [hv] at hd
        | done w3 =>
          rw [hv] at h1 h2 h3
          simp only [hv] at hd
          cases hnx : next_it w3.m_observers a with
          | none => simp [hnx] at hd
          | some it1 =>
            simp only [hnx] at hd
            have hex : ∃ m ∈ w3.m_observers, m.addr = a := by
              by_contra hc
              have : a ∉ w3.m_observers.map Node.addr := by
                intro hmem
                obtain ⟨m, hm, hma⟩ := List.mem_map.1 hmem
                exact hc ⟨m, hm, hma⟩
              rw [next_it_none this] at hnx
              cases hnx
            exact ih w3 it1 w1 h1 h2 (h3 hex) hd

/-- A broadcast that returns, whatever its subscribers do, leaves no handle to a
subscriber that was destroyed before it began. -/
theorem broadcast_all_live (w : World) (ev : Event) (fuel : Nat) (w1 : World)
    (hn : NodesOk w) (hd : broadcast fuel w ev = .done w1) :
    ∀ n ∈ w1.m_observers, expired w.heap n.weak = false :=
  dispatch_all_live w ev fuel (cleanup w) _ w1 (nodes_stable.cleanup w hn)
    ((untouched_stable w).cleanup w (untouched_refl w))
    (fun n hm => by simpa [live] using live_cleanup w n hm) hd

/-- C4: after a single `attach`, `detach` or `broadcast` that returns, the
registry has no handle to a subscriber that was destroyed when the call began,
and its size is the number of handles that were live, plus one for a newly
attached observer, minus the live handles that `detach` removed.  For
`broadcast` the size is stated for subscribers of the classes of the source;
the absence of reclaimed handles holds whatever the subscribers do. -/
theorem reclaim_bound (w : World) :
    (∀ o obs, resolve w.heap o = some obs →
      ∃ w1, attach w o = .done w1 ∧
        (∀ n ∈ w1.m_observers, expired w.heap n.weak = false) ∧
        w1.m_observers.length = (w.m_observers.filter (live w.heap)).length +
          (if w.m_observers.any (named w.heap obs.m_name) then 0 else 1)) ∧
    (∀ o obs, resolve w.heap o = some obs →
      ∃ w1, detach w o = .done w1 ∧
        (∀ n ∈ w1.m_observers, expired w.heap n.weak = false) ∧
        w1.m_observers.length + (w.m_observers.filter (named w.heap obs.m_name)).length
          = (w.m_observers.filter (live w.heap)).length) ∧
    (∀ event fuel, (w.m_observers.map Node.addr).Nodup →
      (∀ n ∈ w.m_observers, ∀ x, resolve w.heap n.weak = some x → x.state.builtin = true) →
      (w.m_observers.filter (live w.heap)).length ≤ fuel →
      ∃ w1, broadcast fuel w event = .done w1 ∧
        (∀ n ∈ w1.m_observers, expired w.heap n.weak = false) ∧
        w1.m_observers.length = (w.m_observers.filter (live w.heap)).length) ∧
    (∀ event fuel w1, NodesOk w → broadcast fuel w event = .done w1 →
      ∀ n ∈ w1.m_observers, expired w.heap n.weak = false) := by
  refine ⟨?_, ?_, ?_, fun event fuel w1 hn hd => broadcast_all_live w event fuel w1 hn hd⟩
  · intro o obs ho
    rw [attach_eq ho]
    have hcl : ∀ n ∈ (cleanup w).m_observers, expired w.heap n.weak = false := fun n hn => by
      simpa [live] using live_cleanup w n hn
    split
    · exact ⟨_, rfl, hcl, rfl⟩
    · refine ⟨_, rfl, ?_, ?_⟩
      · intro n hn
        have hn' : n ∈ (cleanup w).m_observers ++ [Node.mk (cleanup w).fresh o] := hn
        rcases List.mem_append.1 hn' with h | h
        · exact hcl n h
        · simp only [List.mem_singleton] at h
          subst h
          exact (resolve_eq_some ho).1
      · show ((cleanup w).m_observers ++ [Node.mk (cleanup w).fresh o]).length = _
        rw [List.length_append]
        rfl
  · intro o obs ho
    refine ⟨_, detach_eq ho, ?_, ?_⟩
    · intro n hn
      exact (mem_detach_filter.1 hn).2.1
    · show (List.filter (fun n => live w.heap n && !named w.heap obs.m_name n)
          w.m_observers).length + _ = _
      have h1 : List.filter (named w.heap obs.m_name) w.m_observers
          = List.filter (fun n => live w.heap n && named w.heap obs.m_name n) w.m_observers := by
        apply List.filter_congr
        intro n _
        cases hs : named w.heap obs.m_name n with
        | false => simp
        | true => simp [named_live hs]
      rw [h1]
      induction w.m_observers with
      | nil => rfl
      | cons n rest ih =>
        simp only [List.filter_cons]
        cases live w.heap n <;> cases named w.heap obs.m_name n <;> simp <;> omega
  · intro event fuel hnodes hb hfuel
    obtain ⟨w1, h1, h2, _, _, _⟩ := broadcast_builtin w event fuel hnodes hb hfuel
    refine ⟨w1, h1, ?_, by rw [h2]⟩
    intro n hn
    rw [h2] at hn
    simpa [live] using (List.mem_filter.1 hn).2

theorem expired_lock_heap {h : List Obj} {o : ObjId} (ho : expired h o = false) (i : ObjId) :
    expired (update h o (fun x => { x with locks := x.locks + 1 })) i = expired h i := by
  unfold expired
  rw [use_count_update]
  split
  · rename_i e
    subst e
    cases hx : h[i]? with
    | none => simp [use_count, hx]
    | some x =>
      simp only [expired, use_count, hx] at ho ⊢
      simp at ho ⊢
      omega
  · rfl

theorem resolve_lock_heap {h : List Obj} {o : ObjId} (ho : expired h o = false) (i : ObjId) :
    (resolve (update h o (fun x => { x with locks := x.locks + 1 })) i).map Obj.m_name
      = (resolve h i).map Obj.m_name := by
  unfold resolve
  rw [expired_lock_heap ho]
  split
  · rfl
  · exact update_name h o (fun x => { x with locks := x.locks + 1 }) (fun _ => rfl) i

theorem named_lock_heap {h : List Obj} {o : ObjId} (ho : expired h o = false) (s : String)
    (n : Node) :
    named (update h o (fun x => { x with locks := x.locks + 1 })) s n = named h s n := by
  have := resolve_lock_heap ho n.weak
  unfold named
  cases h1 : resolve (update h o (fun x => { x with locks := x.locks + 1 })) n.weak with
  | none =>
    cases h2 : resolve h n.weak with
    | none => rfl
    | some y => simp [h1, h2] at this
  | some x =>
    cases h2 : resolve h n.weak with
    | none => simp [h1, h2] at this
    | some y =>
      simp only [h1, h2, Option.map_some', Option.some.injEq] at this
      simp [this]

theorem similar_lock_unlock (h : List Obj) (o : ObjId) :
    Similar h (update (update h o (fun x => { x with locks := x.locks + 1 })) o
      (fun x => { x with locks := x.locks - 1 })) := by
  intro i
  simp only [getElem?_update]
  split
  · rename_i e
    subst e
    cases h[i]? <;> simp
  · rfl

/-- One entry of the range-for whose subscriber's `monitor` is the single call
`attach(N)`. -/
theorem visit_attaching {w : World} {X N : ObjId} {x y : Obj} (ev : Event)
    (hx : resolve w.heap X = some x) (hs : x.state = .Client [.attach N])
    (hy : resolve w.heap N = some y) (hall : ∀ n ∈ w.m_observers, live w.heap n = true) :
    ∃ w1, visit w X ev = .done w1 ∧ w1.calls = w.calls ++ [(X, ev)] ∧
      Similar w.heap w1.heap ∧
      w1.m_observers = w.m_observers ++
        (if w.m_observers.any (named w.heap y.m_name) then [] else [⟨w.fresh, N⟩]) ∧
      w1.fresh = w.fresh + (if w.m_observers.any (named w.heap y.m_name) then 0 else 1) := by
  obtain ⟨he, hxx⟩ := resolve_eq_some hx
  have hlk : (record (lock w X) X ev).heap[X]? = some { x with locks := x.locks + 1 } := by
    simp [record, lock, getElem?_update, hxx]
  have hyl : ∃ y1, resolve (record (lock w X) X ev).heap N = some y1 ∧ y1.m_name = y.m_name := by
    have := resolve_lock_heap he N
    rw [hy] at this
    cases h1 : resolve (update w.heap X (fun x => { x with locks := x.locks + 1 })) N with
    | none => simp [h1] at this
    | some y1 =>
      simp only [h1, Option.map_some', Option.some.injEq] at this
      exact ⟨y1, h1, this⟩
  obtain ⟨y1, hy1, hyn⟩ := hyl
  have hreg : (cleanup (record (lock w X) X ev)).m_observers = w.m_observers := by
    show List.filter _ w.m_observers = _
    apply List.filter_eq_self.2
    intro n hn
    have := hall n hn
    simp only [live] at this
    show (!expired (update w.heap X (fun x => { x with locks := x.locks + 1 })) n.weak) = true
    rw [expired_lock_heap he]
    exact this
  have hany : (record (lock w X) X ev).m_observers.any
      (named (record (lock w X) X ev).heap y1.m_name)
      = w.m_observers.any (named w.heap y.m_name) := by
    show w.m_observers.any (named (update w.heap X _) y1.m_name) = _
    rw [hyn]
    congr 1
    funext n
    exact named_lock_heap he _ n
  unfold visit
  simp only [he, Bool.false_eq_true, ↓reduceIte]
  rw [monitor_Client ev hlk hs]
  simp only [run_body]
  rw [attach_eq hy1, hany]
  cases w.m_observers.any (named w.heap y.m_name) with
  | true =>
    refine ⟨_, rfl, rfl, similar_lock_unlock _ _, ?_, rfl⟩
    simp only [↓reduceIte, List.append_nil]
    exact hreg
  | false =>
    refine ⟨_, rfl, rfl, similar_lock_unlock _ _, ?_, rfl⟩
    simp only [Bool.false_eq_true, ↓reduceIte]
    show (cleanup (record (lock w X) X ev)).m_observers ++ _ = _
    rw [hreg]
    rfl

theorem similar_symm {h h1 : List Obj} (a : Similar h h1) : Similar h1 h :=
  fun i => (a i).symm

theorem similar_resolve {h h1 : List Obj} (hs : Similar h h1) {o : ObjId} {x : Obj}
    (hx : resolve h o = some x) : ∃ x1, resolve h1 o = some x1 ∧ shape x1 = shape x := by
  obtain ⟨he, hxx⟩ := resolve_eq_some hx
  rw [← similar_expired hs] at he
  obtain ⟨x1, hr⟩ := resolve_isSome_of_live he
  refine ⟨x1, hr, ?_⟩
  have := hs o
  simpa [hxx, (resolve_eq_some hr).2] using this

theorem shape_name {x x1 : Obj} (h : shape x1 = shape x) : x1.m_name = x.m_name := by
  show (shape x1).m_name = (shape x).m_name
  rw [h]

theorem shape_builtin {x x1 : Obj} (h : shape x1 = shape x) :
    x1.state.builtin = x.state.builtin := by
  have := congrArg (fun y => y.state.builtin) h
  simpa [shape, builtin_reset] using this

theorem shape_client {x x1 : Obj} {b : List Op} (h : shape x1 = shape x)
    (hs : x.state = .Client b) : x1.state = .Client b := by
  have := congrArg Obj.state h
  simp only [shape, hs, ObsState.reset] at this
  cases h1 : x1.state <;> simp [h1, ObsState.reset] at this
  rw [this]

theorem similar_named {h h1 : List Obj} (hs : Similar h h1) (s : String) (n : Node) :
    named h1 s n = named h s n := by
  unfold named
  cases hx : resolve h n.weak with
  | some x =>
    obtain ⟨x1, h1x, hsh⟩ := similar_resolve hs hx
    simp [h1x, shape_name hsh]
  | none =>
    cases h1x : resolve h1 n.weak with
    | none => rfl
    | some x1 =>
      obtain ⟨x, h2, _⟩ := similar_resolve (similar_symm hs) h1x
      simp [h2] at hx

/-- A broadcast over a registry whose live entries are `pre`, then a subscriber
whose `monitor` is the call `attach(N)`, then `suf`, all others being of a class
of the source: the dispatch runs over the list as `attach` leaves it. -/
theorem broadcast_attaching (w : World) (ev : Event) (fuel : Nat) (pre suf : List Node)
    (X : Node) (N : ObjId) (x y : Obj) (hn : NodesOk w)
    (hreg : w.m_observers.filter (live w.heap) = pre ++ X :: suf)
    (hb : ∀ n ∈ pre ++ suf, ∀ z, resolve w.heap n.weak = some z → z.state.builtin = true)
    (hx : resolve w.heap X.weak = some x) (hs : x.state = .Client [.attach N])
    (hy : resolve w.heap N = some y) (hyb : y.state.builtin = true)
    (hfuel : pre.length + suf.length + 2 ≤ fuel) :
    ∃ w1, broadcast fuel w ev = .done w1 ∧ Similar w.heap w1.heap ∧
      w1.m_observers = pre ++ X :: suf ++
        (if (pre ++ X :: suf).any (named w.heap y.m_name) then [] else [Node.mk w.fresh N]) ∧
      w1.fresh = w.fresh +
        (if (pre ++ X :: suf).any (named w.heap y.m_name) then 0 else 1) ∧
      w1.calls = w.calls ++ (pre ++ X :: suf ++
        (if (pre ++ X :: suf).any (named w.heap y.m_name) then [] else [Node.mk w.fresh N])).map
          (fun n => (n.weak, ev)) := by
  have hcl : (cleanup w).m_observers = pre ++ X :: suf := hreg
  have hnc : NodesOk (cleanup w) := nodes_stable.cleanup w hn
  have hlive : ∀ n ∈ pre ++ X :: suf, live w.heap n = true := by
    intro n hm
    rw [← hcl] at hm
    exact live_cleanup w n hm
  generalize hex : (if (pre ++ X :: suf).any (named w.heap y.m_name) then []
    else [Node.mk w.fresh N]) = extra
  have hexlen : (if (pre ++ X :: suf).any (named w.heap y.m_name) then 0 else 1)
      = extra.length := by
    rw [← hex]; split <;> rfl
  rw [hexlen]
  have hexle : extra.length ≤ 1 := by
    rw [← hex]; split <;> simp
  obtain ⟨k, hk⟩ : ∃ k, fuel = pre.length + (((suf ++ extra).length + k) + 1) := by
    refine ⟨fuel - (pre.length + suf.length + extra.length + 1), ?_⟩
    simp only [List.length_append]
    omega
  -- the entries before the attaching subscriber
  obtain ⟨wa, a1, a2, a3, a4, a5⟩ := dispatch_builtin ev (((suf ++ extra).length + k) + 1)
    pre [] (X :: suf) (cleanup w) (by simp [hcl]) hnc.1
    (fun n hm z hz => hb n (List.mem_append_left _ hm) z hz)
  -- the attaching subscriber
  have hall : ∀ n ∈ wa.m_observers, live wa.heap n = true := by
    intro n hm
    rw [a2, hcl] at hm
    rw [similar_live a4]
    exact hlive n hm
  obtain ⟨xa, hxa, hxs⟩ := similar_resolve a4 (show resolve (cleanup w).heap X.weak = some x from hx)
  obtain ⟨ya, hya, hys⟩ := similar_resolve a4 (show resolve (cleanup w).heap N = some y from hy)
  obtain ⟨wb, b1, b2, b3, b4, b5⟩ := visit_attaching ev hxa (shape_client hxs hs) hya hall
  have hany : wa.m_observers.any (named wa.heap ya.m_name)
      = (pre ++ X :: suf).any (named w.heap y.m_name) := by
    rw [a2, hcl, shape_name hys]
    congr 1
    funext n
    exact similar_named a4 _ n
  have hextra : (if wa.m_observers.any (named wa.heap ya.m_name) then []
      else [Node.mk wa.fresh N]) = extra := by
    rw [hany, a3, ← hex]
    rfl
  rw [hextra] at b4
  have hwb : wb.m_observers = (pre ++ [X]) ++ (suf ++ extra) ++ [] := by
    rw [b4, a2, hcl]; simp
  have hXpre : X.addr ∉ pre.map Node.addr := by
    have h1 := hnc.1
    rw [hcl, List.map_append, List.nodup_append] at h1
    intro h
    exact h1.2.2 h (by simp)
  have hndb : (wb.m_observers.map Node.addr).Nodup := by
    rw [b4, a2, List.map_append, List.nodup_append]
    refine ⟨hnc.1, ?_, ?_⟩
    · rw [← hex]; split <;> simp
    · intro a h1 h2
      obtain ⟨m, hm, hma⟩ := List.mem_map.1 h1
      have h3 := hnc.2 m hm
      rw [← hex] at h2
      split at h2
      · simp at h2
      · simp only [List.map_cons, List.map_nil, List.mem_singleton] at h2
        have h4 : (cleanup w).fresh = w.fresh := rfl
        omega
  have hsb : Similar w.heap wb.heap := similar_trans a4 b3
  have hbb : ∀ n ∈ suf ++ extra, ∀ z, resolve wb.heap n.weak = some z →
      z.state.builtin = true := by
    intro n hm z hz
    obtain ⟨z0, hz0, hzs⟩ := similar_resolve (similar_symm hsb) hz
    rw [← shape_builtin hzs]
    rcases List.mem_append.1 hm with h | h
    · exact hb n (List.mem_append_right _ h) z0 hz0
    · rw [← hex] at h
      split at h
      · simp at h
      · simp only [List.mem_singleton] at h
        subst h
        simp only at hz0
        rw [hy] at hz0
        cases hz0
        exact hyb
  obtain ⟨wc, c1, c2, c3, c4, c5⟩ := dispatch_builtin ev k (suf ++ extra) (pre ++ [X]) []
    wb hwb hndb hbb
  simp only [List.append_nil] at c1
  have hlivec : List.filter (live wb.heap) (suf ++ extra) = suf ++ extra := by
    apply List.filter_eq_self.2
    intro n hm
    rw [similar_live hsb]
    rcases List.mem_append.1 hm with h | h
    · exact hlive n (by simp [h])
    · rw [← hex] at h
      split at h
      · simp at h
      · simp only [List.mem_singleton] at h
        subst h
        simp [live, (resolve_eq_some hy).1]
  have hlivea : List.filter (live (cleanup w).heap) pre = pre := by
    apply List.filter_eq_self.2
    intro n hm
    exact hlive n (by simp [hm])
  refine ⟨wc, ?_, similar_trans hsb c4, ?_, ?_, ?_⟩
  · unfold broadcast begin_it
    rw [hk, hcl]
    rw [a1]
    simp only [List.head?_cons, Option.map_some']
    rw [dispatch]
    have hfa : find_node wa.m_observers X.addr = some X := by
      rw [a2, hcl]; exact find_node_mid hXpre
    simp only [hfa, b1]
    have hnx : next_it wb.m_observers X.addr = some ((suf ++ extra).head?.map (·.addr)) := by
      rw [b4, a2, hcl]
      have : pre ++ X :: suf ++ extra = pre ++ X :: (suf ++ extra) := by simp
      rw [this]
      exact next_it_mid hXpre
    simp only [hnx]
    rw [c1]
    simp [dispatch_end]
  · rw [c2, b4, a2, hcl]
  · rw [c3, b5, a3, hany, hexlen]
    rfl
  · rw [c5, b2, a5, hlivec, hlivea]
    simp
    rfl

/-- C9, counterexample: in `attach_in_monitor` the subscriber `N` (object 2) is
not registered; `A` attaches it during its `monitor`, and `N` receives the
event of that same broadcast. -/
theorem snapshot_dispatch_counterexample :
    attach_in_monitor.m_observers.map Node.weak = [0, 1] ∧
      (attach_in_monitor.heap[0]?).map Obj.state = some (.Client [.attach 2]) ∧
      ∃ w1, broadcast 3 attach_in_monitor ⟨"e", "1"⟩ = .done w1 ∧
        w1.calls = [(0, ⟨"e", "1"⟩), (1, ⟨"e", "1"⟩), (2, ⟨"e", "1"⟩)] ∧
        ¬ (2, (⟨"e", "1"⟩ : Event)) ∉ w1.calls :=
  ⟨by decide, by decide, _, rfl, by decide, by decide⟩

/-- C10: in `detach_self_in_monitor` the subscriber `A` detaches itself during
its `monitor`.  With any fuel and event the broadcast does not return: the
step `++it` uses the iterator of the erased node, and `monitor` is never
invoked on `B`, which is registered after `A`. -/
theorem detach_self_breaks_broadcast (fuel : Nat) (event : Event) :
    detach_self_in_monitor.m_observers.map Node.weak = [0, 1] ∧
      (detach_self_in_monitor.heap[0]?).map Obj.state = some (.Client [.detach 0]) ∧
      ∃ w1, broadcast (fuel + 1) detach_self_in_monitor event = .fault .invalidIterator w1 ∧
        w1.calls = [(0, event)] ∧ w1.m_observers.map Node.weak = [1] := by
  refine ⟨by decide, by decide, _, rfl, rfl, rfl⟩

/-- C9, amended: dispatch runs over the registry as it is, not over a fixed set
of handles.  When the live entries are `pre`, then a subscriber whose `monitor`
attaches an existing observer `N` whose name no live entry has, then `suf`
(all others of the classes of the source), the broadcast returns, the handle
to `N` is appended to the registry, and `N` receives the event of the broadcast
in progress, after all others, and the event of the next broadcast. -/
theorem attach_in_monitor_is_dispatched (w : World) (ev ev2 : Event) (fuel : Nat)
    (pre suf : List Node) (X : Node) (N : ObjId) (x y : Obj) (hn : NodesOk w)
    (hreg : w.m_observers.filter (live w.heap) = pre ++ X :: suf)
    (hb : ∀ n ∈ pre ++ suf, ∀ z, resolve w.heap n.weak = some z → z.state.builtin = true)
    (hx : resolve w.heap X.weak = some x) (hs : x.state = .Client [.attach N])
    (hy : resolve w.heap N = some y) (hyb : y.state.builtin = true)
    (hnew : ∀ n ∈ w.m_observers, ∀ z, resolve w.heap n.weak = some z → z.m_name ≠ y.m_name)
    (hfuel : pre.length + suf.length + 3 ≤ fuel) :
    ∃ w1, broadcast fuel w ev = .done w1 ∧
      w1.m_observers = pre ++ X :: suf ++ [Node.mk w.fresh N] ∧
      w1.calls = w.calls ++
        (pre ++ X :: suf ++ [Node.mk w.fresh N]).map (fun n => (n.weak, ev)) ∧
      ∃ w2, broadcast fuel w1 ev2 = .done w2 ∧ w2.m_observers = w1.m_observers ∧
        w2.calls = w1.calls ++
          (pre ++ X :: suf ++ [Node.mk w.fresh N]).map (fun n => (n.weak, ev2)) := by
  have hsub : ∀ n ∈ pre ++ X :: suf, n ∈ w.m_observers ∧ live w.heap n = true := by
    intro n hm
    rw [← hreg] at hm
    exact List.mem_filter.1 hm
  have hany : (pre ++ X :: suf).any (named w.heap y.m_name) = false := by
    rw [List.any_eq_false]
    intro n hm hnm
    obtain ⟨z, hz, hzn⟩ := named_iff.1 hnm
    exact hnew n (hsub n hm).1 z hz hzn
  obtain ⟨w1, h1, h2, h3, h4, h5⟩ := broadcast_attaching w ev fuel pre suf X N x y hn hreg hb
    hx hs hy hyb (by omega)
  simp only [hany, Bool.false_eq_true, ↓reduceIte] at h3 h4 h5
  refine ⟨w1, h1, h3, h5, ?_⟩
  have hn1 : NodesOk w1 := by
    have := broadcast_stable nodes_stable fuel w ev hn
    rw [h1] at this
    exact this
  obtain ⟨x1, hx1, hxs⟩ := similar_resolve h2 hx
  obtain ⟨y1, hy1, hys⟩ := similar_resolve h2 hy
  have hlive1 : w1.m_observers.filter (live w1.heap) = pre ++ X :: (suf ++ [Node.mk w.fresh N]) := by
    have : pre ++ X :: (suf ++ [Node.mk w.fresh N]) = w1.m_observers := by rw [h3]; simp
    rw [this]
    apply List.filter_eq_self.2
    intro n hm
    rw [similar_live h2, h3] at *
    rcases List.mem_append.1 hm with h | h
    · exact (hsub n h).2
    · simp only [List.mem_singleton] at h
      subst h
      simp [live, (resolve_eq_some hy).1]
  have hb1 : ∀ n ∈ pre ++ (suf ++ [Node.mk w.fresh N]), ∀ z,
      resolve w1.heap n.weak = some z → z.state.builtin = true := by
    intro n hm z hz
    obtain ⟨z0, hz0, hzs⟩ := similar_resolve (similar_symm h2) hz
    rw [← shape_builtin hzs]
    rw [← List.append_assoc] at hm
    rcases List.mem_append.1 hm with h | h
    · exact hb n h z0 hz0
    · simp only [List.mem_singleton] at h
      subst h
      simp only at hz0
      rw [hy] at hz0
      cases hz0
      exact hyb
  obtain ⟨w2, g1, _, g3, _, g5⟩ := broadcast_attaching w1 ev2 fuel pre
    (suf ++ [Node.mk w.fresh N]) X N x1 y1 hn1 hlive1 hb1 hx1 (shape_client hxs hs) hy1
    (by rw [shape_builtin hys]; exact hyb) (by simp only [List.length_append, List.length_singleton]; omega)
  have hany1 : (pre ++ X :: (suf ++ [Node.mk w.fresh N])).any (named w1.heap y1.m_name)
      = true := by
    rw [List.any_eq_true]
    refine ⟨Node.mk w.fresh N, by simp, ?_⟩
    exact named_iff.2 ⟨y1, hy1, rfl⟩
  simp only [hany1, ↓reduceIte, List.append_nil] at g3 g5
  refine ⟨w2, g1, ?_, ?_⟩
  · rw [g3, h3]; simp
  · rw [g5]; simp

theorem forall_resolve_of_all {h : List Obj} {l : List Node} {p : Obj → Bool}
    (hall : l.all (fun n => match h[n.weak]? with
      | some x => p x
      | none => true) = true) :
    ∀ n ∈ l, ∀ x, resolve h n.weak = some x → p x = true := by
  intro n hn x hx
  have h1 := List.all_eq_true.1 hall n hn
  simp only [(resolve_eq_some hx).2] at h1
  exact h1

/-- Witness for C1: `qt` is destroyed before a broadcast of `ed`. -/
theorem broadcast_never_dispatches_expired_witness :
    expired (release observer_test_attached 0).heap 0 = true ∧
      (broadcast 3 (release observer_test_attached 0) ed).world.calls = [(1, ed), (2, ed)] ∧
      ∃ added, (broadcast 3 (release observer_test_attached 0) ed).world.calls
          = (release observer_test_attached 0).calls ++ added ∧
        ∀ o, expired (release observer_test_attached 0).heap o = true →
          (∀ e ∈ added, e.1 ≠ o) ∧
            (broadcast 3 (release observer_test_attached 0) ed).world.heap[o]?
              = (release observer_test_attached 0).heap[o]? :=
  ⟨by decide, by decide,
    broadcast_never_dispatches_expired 3 (release observer_test_attached 0) ed⟩

/-- Witness for C2: the fourth `attach` of `observer_test`. -/
theorem attach_keeps_names_distinct_witness :
    run observer_test_setup ⟨observer_test_objects.heap, [], 0, [], []⟩
        = .done observer_test_attached ∧
      resolve observer_test_attached.heap 0 = some ⟨"qt", .QuestTracker 0, 1, 0⟩ ∧
      ∃ w2, attach observer_test_attached 0 = .done w2 ∧
        run (observer_test_setup ++ [.attach 0]) ⟨observer_test_objects.heap, [], 0, [], []⟩
          = .done w2 ∧
        ((w2.m_observers.filter (live w2.heap)).map
          (fun n => (w2.heap[n.weak]?).map Obj.m_name)).Nodup :=
  ⟨by decide, by decide,
    (attach_keeps_names_distinct observer_test_objects.heap 0 [] [] observer_test_setup 0).2
      observer_test_attached ⟨"qt", .QuestTracker 0, 1, 0⟩ (by decide) (by decide)⟩

/-- Witness for C4: `qt` is destroyed, then one call is made. -/
theorem reclaim_bound_witness :
    expired (release observer_test_attached 0).heap 0 = true ∧
      (release observer_test_attached 0).m_observers.map Node.weak = [0, 1, 2] ∧
      (∃ w1, attach (release observer_test_attached 0) 1 = .done w1 ∧
        (∀ n ∈ w1.m_observers, expired (release observer_test_attached 0).heap n.weak = false) ∧
        w1.m_observers.length = 2) ∧
      (∃ w1, detach (release observer_test_attached 0) 2 = .done w1 ∧
        (∀ n ∈ w1.m_observers, expired (release observer_test_attached 0).heap n.weak = false) ∧
        w1.m_observers.length + 1 = 2) ∧
      (∃ w1, broadcast 3 (release observer_test_attached 0) ed = .done w1 ∧
        (∀ n ∈ w1.m_observers, expired (release observer_test_attached 0).heap n.weak = false) ∧
        w1.m_observers.length = 2) :=
  ⟨by decide, by decide,
    (reclaim_bound (release observer_test_attached 0)).1 1 ⟨"as", .AchievementSystem 0, 1, 0⟩
      (by decide),
    (reclaim_bound (release observer_test_attached 0)).2.1 2 ⟨"ui", .UIHUD, 1, 0⟩ (by decide),
    (reclaim_bound (release observer_test_attached 0)).2.2.1 ed 3 (by decide)
      (forall_resolve_of_all (by decide)) (by decide)⟩

/-- Witness for C6: the third `attach` of `observer_test` (`ui` after `qt`, `as`). -/
theorem attach_appends_new_witness :
    resolve (run [.attach 0, .attach 1] observer_test_objects).world.heap 2
        = some ⟨"ui", .UIHUD, 1, 0⟩ ∧
      ∃ w1, attach (run [.attach 0, .attach 1] observer_test_objects).world 2 = .done w1 ∧
        w1.out = (run [.attach 0, .attach 1] observer_test_objects).world.out
          ++ ["add success.\n"] ∧
        w1.m_observers = (run [.attach 0, .attach 1] observer_test_objects).world.m_observers.filter
            (live (run [.attach 0, .attach 1] observer_test_objects).world.heap)
          ++ [⟨(run [.attach 0, .attach 1] observer_test_objects).world.fresh, 2⟩] ∧
        w1.heap = (run [.attach 0, .attach 1] observer_test_objects).world.heap ∧
        w1.calls = (run [.attach 0, .attach 1] observer_test_objects).world.calls :=
  ⟨by decide,
    attach_appends_new (run [.attach 0, .attach 1] observer_test_objects).world 2
      ⟨"ui", .UIHUD, 1, 0⟩ (by decide)
      (fun n hn z hz => by
        have := forall_resolve_of_all (p := fun z => z.m_name != "ui") (by decide) n hn z hz
        simpa using this)⟩

/-- Witness for C7: `as` is detached after the three `attach` calls of
`observer_test`; the next broadcast reaches `qt` and `ui` only. -/
theorem detach_removes_named_witness :
    resolve observer_test_attached.heap 1 = some ⟨"as", .AchievementSystem 0, 1, 0⟩ ∧
      ∃ w1, detach observer_test_attached 1 = .done w1 ∧
        w1.m_observers.map Node.weak = [0, 2] ∧
        ∃ w2 added, broadcast 3 w1 ed = .done w2 ∧ w2.calls = w1.calls ++ added ∧
          ∀ e ∈ added, ∀ x, observer_test_attached.heap[e.1]? = some x → x.m_name ≠ "as" := by
  obtain ⟨w1, h1, h2, _, _, h5⟩ := detach_removes_named observer_test_attached 1
    ⟨"as", .AchievementSystem 0, 1, 0⟩ (by decide)
  refine ⟨by decide, w1, h1, ?_, ?_⟩
  · rw [h2]
    decide
  · exact h5 ed 3 (by decide) (forall_resolve_of_all (by decide)) (by decide)

/-- Witness for C8: `ui` is detached when only `qt` is attached. -/
theorem detach_never_fails_witness :
    resolve (run [.attach 0] observer_test_objects).world.heap 2 = some ⟨"ui", .UIHUD, 1, 0⟩ ∧
      (∃ w1, detach (run [.attach 0] observer_test_objects).world 2 = .done w1) ∧
      detach (run [.attach 0] observer_test_objects).world 2
        = .done (run [.attach 0] observer_test_objects).world ∧
      detach observer_test_objects 2 = .done observer_test_objects := by
  have h := detach_never_fails (run [.attach 0] observer_test_objects).world 2
    ⟨"ui", .UIHUD, 1, 0⟩ (by decide)
  have h0 := detach_never_fails observer_test_objects 2 ⟨"ui", .UIHUD, 1, 0⟩ (by decide)
  refine ⟨by decide, h.1, ?_, h0.2.2 (by decide)⟩
  rw [h.2.1 (fun n hn z hz => by
    have := forall_resolve_of_all (p := fun z => z.m_name != "ui") (by decide) n hn z hz
    simpa using this)]
  decide

/-- Witness for C9: in `attach_in_monitor` the subscriber `N`, attached by `A`
during the broadcast, receives the event of that broadcast and of the next. -/
theorem attach_in_monitor_is_dispatched_witness :
    NodesOk attach_in_monitor ∧
      attach_in_monitor.m_observers.filter (live attach_in_monitor.heap)
        = [Node.mk 0 0, Node.mk 1 1] ∧
      resolve attach_in_monitor.heap 0 = some ⟨"A", .Client [.attach 2], 1, 0⟩ ∧
      resolve attach_in_monitor.heap 2 = some ⟨"N", .UIHUD, 1, 0⟩ ∧
      ∃ w1, broadcast 4 attach_in_monitor ed = .done w1 ∧
        w1.m_observers = [Node.mk 0 0, Node.mk 1 1, Node.mk 2 2] ∧
        w1.calls = [(0, ed), (1, ed), (2, ed)] ∧
        ∃ w2, broadcast 4 w1 rit = .done w2 ∧ w2.m_observers = w1.m_observers ∧
          w2.calls = w1.calls ++ [(0, rit), (1, rit), (2, rit)] :=
  ⟨⟨by decide, by decide⟩, by decide, by decide, by decide,
    attach_in_monitor_is_dispatched attach_in_monitor ed rit 4 [] [⟨1, 1⟩] ⟨0, 0⟩ 2
      ⟨"A", .Client [.attach 2], 1, 0⟩ ⟨"N", .UIHUD, 1, 0⟩ ⟨by decide, by decide⟩ (by decide)
      (forall_resolve_of_all (by decide)) (by decide) rfl (by decide) rfl
      (fun n hn z hz => by
        have := forall_resolve_of_all (p := fun z => z.m_name != "N") (by decide) n hn z hz
        simpa using this)
      (by decide)⟩

/-- One entry of the range-for whose subscriber's `monitor` throws at once. -/
theorem visit_raising {w : World} {X : ObjId} {x : Obj} {rest : List Op} (ev : Event)
    (hx : resolve w.heap X = some x) (hs : x.state = .Client (.raise :: rest)) :
    visit w X ev = .fault .uncaughtException (unlock (record (lock w X) X ev) X) := by
  obtain ⟨he, hxx⟩ := resolve_eq_some hx
  have hlk : (record (lock w X) X ev).heap[X]? = some { x with locks := x.locks + 1 } := by
    simp [record, lock, getElem?_update, hxx]
  unfold visit
  simp only [he, Bool.false_eq_true, ↓reduceIte]
  rw [monitor_Client ev hlk hs]
  rfl

/-- A broadcast over a registry whose live entries are `pre`, of the classes of
the source, then a subscriber whose `monitor` throws, then `suf`. -/
theorem broadcast_raising (w : World) (ev : Event) (fuel : Nat) (pre suf : List Node)
    (X : Node) (x : Obj) (rest : List Op)
    (hnodes : (w.m_observers.map Node.addr).Nodup)
    (hreg : w.m_observers.filter (live w.heap) = pre ++ X :: suf)
    (hb : ∀ n ∈ pre, ∀ z, resolve w.heap n.weak = some z → z.state.builtin = true)
    (hx : resolve w.heap X.weak = some x) (hs : x.state = .Client (.raise :: rest))
    (hfuel : pre.length + 1 ≤ fuel) :
    ∃ w1, broadcast fuel w ev = .fault .uncaughtException w1 ∧
      w1.m_observers = pre ++ X :: suf ∧
      w1.calls = w.calls ++ (pre ++ [X]).map (fun n => (n.weak, ev)) := by
  have hcl : (cleanup w).m_observers = pre ++ X :: suf := hreg
  have hnc : ((cleanup w).m_observers.map Node.addr).Nodup :=
    ((List.filter_sublist _).map _).nodup hnodes
  obtain ⟨k, hk⟩ : ∃ k, fuel = pre.length + (k + 1) := ⟨fuel - (pre.length + 1), by omega⟩
  obtain ⟨wa, a1, a2, a3, a4, a5⟩ := dispatch_builtin ev (k + 1) pre [] (X :: suf) (cleanup w)
    (by simp [hcl]) hnc hb
  obtain ⟨xa, hxa, hxs⟩ := similar_resolve a4 (show resolve (cleanup w).heap X.weak = some x from hx)
  have hXpre : X.addr ∉ pre.map Node.addr := by
    have h1 := hnc
    rw [hcl, List.map_append, List.nodup_append] at h1
    intro h
    exact h1.2.2 h (by simp)
  have hlivea : List.filter (live (cleanup w).heap) pre = pre := by
    apply List.filter_eq_self.2
    intro n hm
    have : n ∈ (cleanup w).m_observers := by rw [hcl]; simp [hm]
    exact live_cleanup w n this
  refine ⟨unlock (record (lock wa X.weak) X.weak ev) X.weak, ?_, ?_, ?_⟩
  · unfold broadcast begin_it
    rw [hk, hcl, a1]
    simp only [List.head?_cons, Option.map_some']
    rw [dispatch]
    have hfa : find_node wa.m_observers X.addr = some X := by
      rw [a2, hcl]; exact find_node_mid hXpre
    simp only [hfa, visit_raising ev hxa (shape_client hxs hs)]
  · show wa.m_observers = _
    rw [a2, hcl]
  · show wa.calls ++ [(X.weak, ev)] = _
    rw [a5, hlivea]
    simp
    rfl

/-- C11, counterexample: in `raise_in_monitor` the `monitor` of `A` throws; the
broadcast ends with the exception and `monitor` is not invoked on `B`, which
is live and registered after `A`. -/
theorem failure_isolation_counterexample :
    raise_in_monitor.m_observers.map Node.weak = [0, 1] ∧
      expired raise_in_monitor.heap 1 = false ∧
      (raise_in_monitor.heap[0]?).map Obj.state = some (.Client [.raise]) ∧
      ∃ w1, broadcast 2 raise_in_monitor ed = .fault .uncaughtException w1 ∧
        w1.calls = [(0, ed)] ∧ (1, ed) ∉ w1.calls :=
  ⟨by decide, by decide, by decide, _, rfl, by decide, by decide⟩

/-- C11, amended: a failure of `monitor` is not isolated.  When the live
entries are `pre` (of the classes of the source), then a subscriber whose
`monitor` throws, then `suf`, the broadcast ends with the exception for every
fuel that reaches that subscriber; `monitor` has been invoked on `pre` and on
the throwing subscriber, in that order, and on no handle of `suf` (unless the
same subscriber also has a handle before); the registry is the live entries. -/
theorem raise_ends_broadcast (w : World) (event : Event) (fuel : Nat) (pre suf : List Node)
    (X : Node) (x : Obj) (rest : List Op)
    (hnodes : (w.m_observers.map Node.addr).Nodup)
    (hreg : w.m_observers.filter (live w.heap) = pre ++ X :: suf)
    (hb : ∀ n ∈ pre, ∀ z, resolve w.heap n.weak = some z → z.state.builtin = true)
    (hx : resolve w.heap X.weak = some x) (hs : x.state = .Client (.raise :: rest))
    (hfuel : pre.length + 1 ≤ fuel) :
    ∃ w1, broadcast fuel w event = .fault .uncaughtException w1 ∧
      w1.m_observers = pre ++ X :: suf ∧
      w1.calls = w.calls ++ (pre ++ [X]).map (fun n => (n.weak, event)) ∧
      ∀ n ∈ suf, n.weak ∉ (pre ++ [X]).map Node.weak →
        (n.weak, event) ∉ (pre ++ [X]).map (fun n => (n.weak, event)) := by
  obtain ⟨w1, h1, h2, h3⟩ := broadcast_raising w event fuel pre suf X x rest hnodes hreg hb hx
    hs hfuel
  refine ⟨w1, h1, h2, h3, ?_⟩
  intro n _ hnot hmem
  obtain ⟨m, hm, hme⟩ := List.mem_map.1 hmem
  apply hnot
  have : m.weak = n.weak := congrArg Prod.fst hme
  exact List.mem_map.2 ⟨m, hm, this⟩

/-- Witness for C11: the program `raise_in_monitor`. -/
theorem raise_ends_broadcast_witness :
    (raise_in_monitor.m_observers.map Node.addr).Nodup ∧
      raise_in_monitor.m_observers.filter (live raise_in_monitor.heap)
        = [Node.mk 0 0, Node.mk 1 1] ∧
      resolve raise_in_monitor.heap 0 = some ⟨"A", .Client [.raise], 1, 0⟩ ∧
      ∃ w1, broadcast 1 raise_in_monitor rit = .fault .uncaughtException w1 ∧
        w1.m_observers = [Node.mk 0 0, Node.mk 1 1] ∧
        w1.calls = raise_in_monitor.calls ++ [(0, rit)] ∧
        ∀ n ∈ [Node.mk 1 1], n.weak ∉ [0] → (n.weak, rit) ∉ [((0 : ObjId), rit)] :=
  ⟨by decide, by decide, by decide,
    raise_ends_broadcast raise_in_monitor rit 1 [] [⟨1, 1⟩] ⟨0, 0⟩
      ⟨"A", .Client [.raise], 1, 0⟩ [] (by decide) (by decide)
      (fun n hn => by simp at hn) (by decide) rfl (by decide)⟩

theorem expired_release_sole {h : List Obj} {o : ObjId} {obs : Obj} (ho : h[o]? = some obs)
    (hsole : obs.owners = 1) (hl : obs.locks = 0) :
    expired (update h o (fun x => { x with owners := x.owners - 1 })) o = true := by
  simp [expired, use_count_update, ho, hsole, hl]

/-- C13: `attach` does not extend the lifetime of a subscriber.  For every state
and observer `o` the heap, and with it the number of owners and the use count
of `o`, is the same after `attach(o)`.  When `o` exists with one owner and
`attach(o)` has added its handle, the release of `o` by that owner destroys
`o`: every handle to `o` in the registry is then expired, although `o` was
never detached, and the next reclamation removes it. -/
theorem attach_is_non_owning (w : World) (o : ObjId) :
    (attach w o).world.heap = w.heap ∧
      ((attach w o).world.heap[o]?).map Obj.owners = (w.heap[o]?).map Obj.owners ∧
      use_count (attach w o).world.heap o = use_count w.heap o ∧
      ∀ obs, resolve w.heap o = some obs → obs.owners = 1 → obs.locks = 0 →
        ∃ w1, attach w o = .done w1 ∧
          ((∀ n ∈ w.m_observers, ∀ z, resolve w.heap n.weak = some z →
              z.m_name ≠ obs.m_name) → Node.mk w.fresh o ∈ w1.m_observers) ∧
          expired (release w1 o).heap o = true ∧
          (∀ n ∈ (release w1 o).m_observers, n.weak = o →
            expired (release w1 o).heap n.weak = true) ∧
          ∀ n ∈ (cleanup (release w1 o)).m_observers, n.weak ≠ o := by
  have hh := attach_heap w o
  refine ⟨hh, by rw [hh], by rw [hh], ?_⟩
  intro obs ho hsole hl
  have hex : ∀ w1 : World, w1.heap = w.heap → expired (release w1 o).heap o = true := by
    intro w1 h1
    simp only [release, h1]
    exact expired_release_sole (resolve_eq_some ho).2 hsole hl
  have key : ∀ w1 : World, w1.heap = w.heap →
      expired (release w1 o).heap o = true ∧
      (∀ n ∈ (release w1 o).m_observers, n.weak = o →
        expired (release w1 o).heap n.weak = true) ∧
      ∀ n ∈ (cleanup (release w1 o)).m_observers, n.weak ≠ o := by
    intro w1 h1
    refine ⟨hex w1 h1, fun n _ hn => by rw [hn]; exact hex w1 h1, ?_⟩
    intro n hn hno
    have := (List.mem_filter.1 hn).2
    rw [hno, hex w1 h1] at this
    cases this
  rw [attach_eq ho]
  split
  · rename_i hany
    refine ⟨_, rfl, ?_, key _ rfl⟩
    intro hnew
    exfalso
    obtain ⟨n, hn, hnm⟩ := List.any_eq_true.1 hany
    obtain ⟨z, hz, hzn⟩ := named_iff.1 hnm
    exact hnew n hn z hz hzn
  · refine ⟨_, rfl, ?_, key _ rfl⟩
    intro _
    show Node.mk w.fresh o ∈ (cleanup w).m_observers ++ [Node.mk (cleanup w).fresh o]
    exact List.mem_append_right _ (List.mem_singleton.2 rfl)

/-- Witness for C13: `qt` is attached in `observer_test_objects`, then released
by its only owner. -/
theorem attach_is_non_owning_witness :
    resolve observer_test_objects.heap 0 = some ⟨"qt", .QuestTracker 0, 1, 0⟩ ∧
      use_count (attach observer_test_objects 0).world.heap 0 = 1 ∧
      ∃ w1, attach observer_test_objects 0 = .done w1 ∧
        ((∀ n ∈ observer_test_objects.m_observers, ∀ z,
            resolve observer_test_objects.heap n.weak = some z →
              z.m_name ≠ (Obj.mk "qt" (.QuestTracker 0) 1 0).m_name) →
          Node.mk observer_test_objects.fresh 0 ∈ w1.m_observers) ∧
        expired (release w1 0).heap 0 = true ∧
        (∀ n ∈ (release w1 0).m_observers, n.weak = 0 →
          expired (release w1 0).heap n.weak = true) ∧
        ∀ n ∈ (cleanup (release w1 0)).m_observers, n.weak ≠ 0 :=
  ⟨by decide, by decide,
    (attach_is_non_owning observer_test_objects 0).2.2.2 ⟨"qt", .QuestTracker 0, 1, 0⟩
      (by decide) rfl rfl⟩

/-- C14: identity is the name alone.  Two `Observers` compare equal exactly when
their names are equal, whatever their class, counters and owners.  When a live
registered observer `o1` and an existing unregistered observer `o2` have the
same name, `attach(o2)` prints "the object already exists.", the registry is
the sequence of the live entries and has no handle to `o2`, and the next
broadcast (subscribers of the classes of the source) never invokes `monitor` on
`o2`. -/
theorem identity_is_name (w : World) (o1 o2 : ObjId) (x1 x2 : Obj) :
    (∀ a b : Obj, operator_eq a b = true ↔ a.m_name = b.m_name) ∧
      (resolve w.heap o1 = some x1 → (∃ n ∈ w.m_observers, n.weak = o1) →
        resolve w.heap o2 = some x2 → x2.m_name = x1.m_name →
        (∀ n ∈ w.m_observers, n.weak ≠ o2) →
        ∃ w1, attach w o2 = .done w1 ∧
          w1.out = w.out ++ ["the object already exists.\n"] ∧
          w1.m_observers = w.m_observers.filter (live w.heap) ∧
          (∀ n ∈ w1.m_observers, n.weak ≠ o2) ∧
          ∀ event fuel, (w.m_observers.map Node.addr).Nodup →
            (∀ n ∈ w.m_observers, ∀ z, resolve w.heap n.weak = some z →
              z.state.builtin = true) →
            w.m_observers.length ≤ fuel →
            ∃ w2 added, broadcast fuel w1 event = .done w2 ∧ w2.calls = w1.calls ++ added ∧
              ∀ e ∈ added, e.1 ≠ o2) := by
  refine ⟨fun a b => by simp [operator_eq], ?_⟩
  intro h1 ⟨n1, hn1, hw1⟩ h2 hname hnot
  have hany : w.m_observers.any (named w.heap x2.m_name) = true := by
    rw [List.any_eq_true]
    refine ⟨n1, hn1, named_iff.2 ⟨x1, by rw [hw1]; exact h1, hname.symm⟩⟩
  rw [attach_eq h2, if_pos hany]
  have hsub : (w.m_observers.filter (live w.heap)).Sublist w.m_observers :=
    List.filter_sublist _
  refine ⟨_, rfl, by simp [puts, cleanup, puts_exists], rfl,
    fun n hn => hnot n (hsub.subset hn), ?_⟩
  intro event fuel hnodes hb hfuel
  obtain ⟨w2, g1, _, _, _, g5⟩ := broadcast_builtin (puts (cleanup w) "the object already exists.")
    event fuel ((hsub.map _).nodup hnodes)
    (fun n hn z hz => hb n (hsub.subset hn) z hz)
    (le_trans ((List.filter_sublist _).length_le) (le_trans hsub.length_le hfuel))
  refine ⟨w2, _, g1, g5, ?_⟩
  intro e he
  obtain ⟨n, hn, rfl⟩ := List.mem_map.1 he
  exact hnot n (hsub.subset (List.mem_filter.1 hn).1)

/-- Witness for C14: in `same_name_program` the `UIHUD` named "qt" is refused
and the next broadcast reaches the `QuestTracker` only. -/
theorem identity_is_name_witness :
    resolve same_name_program.heap 0 = some ⟨"qt", .QuestTracker 0, 1, 0⟩ ∧
      resolve same_name_program.heap 1 = some ⟨"qt", .UIHUD, 1, 0⟩ ∧
      operator_eq ⟨"qt", .QuestTracker 0, 1, 0⟩ ⟨"qt", .UIHUD, 1, 0⟩ = true ∧
      ∃ w1, attach same_name_program 1 = .done w1 ∧
        w1.out = same_name_program.out ++ ["the object already exists.\n"] ∧
        w1.m_observers = [Node.mk 0 0] ∧
        ∃ w2 added, broadcast 1 w1 ed = .done w2 ∧ w2.calls = w1.calls ++ added ∧
          ∀ e ∈ added, e.1 ≠ 1 := by
  obtain ⟨hop, h⟩ := identity_is_name same_name_program 0 1 ⟨"qt", .QuestTracker 0, 1, 0⟩
    ⟨"qt", .UIHUD, 1, 0⟩
  obtain ⟨w1, h1, h2, h3, _, h5⟩ := h (by decide) (by decide) (by decide) rfl (by decide)
  refine ⟨by decide, by decide, (hop _ _).2 rfl, w1, h1, h2, ?_, ?_⟩
  · rw [h3]; decide
  · exact h5 ed 1 (by decide) (forall_resolve_of_all (by decide)) (by decide)

theorem deliver_append (self : ObjId) (l1 l2 : List Event) :
    ∀ w, deliver self (l1 ++ l2) w = deliver self l2 (deliver self l1 w) := by
  induction l1 with
  | nil => intro w; rfl
  | cons e rest ih => intro w; exact ih _

theorem count_kind_cons (kind : String) (e : Event) (l : List Event) :
    count_kind kind (e :: l) = count_kind kind l + (if e.type_ = kind then 1 else 0) := by
  unfold count_kind
  rw [List.countP_cons]
  by_cases h : e.type_ = kind <;> simp [h]

theorem count_kind_append (kind : String) (l1 l2 : List Event) :
    count_kind kind (l1 ++ l2) = count_kind kind l1 + count_kind kind l2 := by
  unfold count_kind
  exact List.countP_append _ _ _

theorem div_step (k p : Nat) : (k + 1) / p = k / p + (if (k + 1) % p = 0 then 1 else 0) := by
  rw [Nat.succ_div]
  by_cases h : p ∣ k + 1
  · simp [h, Nat.mod_eq_zero_of_dvd h]
  · have : ¬ (k + 1) % p = 0 := fun e => h (Nat.dvd_of_mod_eq_zero e)
    simp [h, this]

/-- A subscriber that counts the events of one kind and prints a line at every
`p`-th of them: the effect of delivering a sequence of events, as long as the
counter does not wrap. -/
theorem deliver_periodic (self : ObjId) (kind msg : String) (p : Nat) (mk : Nat → ObsState)
    (hskip : ∀ (w : World) (x : Obj) (k : Nat) (e : Event), w.heap[self]? = some x →
      x.state = mk k → e.type_ ≠ kind → (monitor w self e).world = w)
    (hstep : ∀ (w : World) (x : Obj) (k : Nat) (e : Event), w.heap[self]? = some x →
      x.state = mk k → e.type_ = kind → k + 1 < 2 ^ 64 →
      (monitor w self e).world =
        if (k + 1) % p = 0 then puts (set_state w self (mk (k + 1))) msg
        else set_state w self (mk (k + 1)))
    (events : List Event) : ∀ (w : World) (x : Obj) (k : Nat), w.heap[self]? = some x →
      x.state = mk k → k + count_kind kind events < 2 ^ 64 →
      (deliver self events w).heap[self]?
          = some { x with state := mk (k + count_kind kind events) } ∧
        (∀ i, i ≠ self → (deliver self events w).heap[i]? = w.heap[i]?) ∧
        (deliver self events w).out = w.out ++
          List.replicate ((k + count_kind kind events) / p - k / p) (msg ++ "\n") ∧
        (deliver self events w).m_observers = w.m_observers ∧
        (deliver self events w).calls = w.calls := by
  induction events with
  | nil =>
    intro w x k hx hs _
    refine ⟨?_, fun _ _ => rfl, by simp [deliver, count_kind], rfl, rfl⟩
    simp only [deliver, count_kind, List.countP_nil, Nat.add_zero]
    rw [hx, ← hs]
  | cons e rest ih =>
    intro w x k hx hs hlt
    rw [count_kind_cons] at hlt ⊢
    simp only [deliver]
    by_cases he : e.type_ = kind
    · simp only [he, ↓reduceIte] at hlt ⊢
      have hk1 : k + 1 < 2 ^ 64 := by omega
      have hm := hstep w x k e hx hs he hk1
      have hx1 : (set_state w self (mk (k + 1))).heap[self]?
          = some { x with state := mk (k + 1) } := by
        simp [set_state, getElem?_update, hx]
      have hoth : ∀ i, i ≠ self → (set_state w self (mk (k + 1))).heap[i]? = w.heap[i]? := by
        intro i hi
        simp [set_state, getElem?_update, hi]
      have hd := div_step k p
      have hmono : (k + 1) / p ≤ (k + 1 + count_kind kind rest) / p :=
        Nat.div_le_div_right (Nat.le_add_right _ _)
      have harr : k + (count_kind kind rest + 1) = k + 1 + count_kind kind rest := by omega
      by_cases hp : (k + 1) % p = 0
      · simp only [hp, ↓reduceIte] at hm hd
        rw [hm]
        obtain ⟨i1, i2, i3, i4, i5⟩ := ih (puts (set_state w self (mk (k + 1))) msg)
          { x with state := mk (k + 1) } (k + 1) hx1 rfl (by omega)
        refine ⟨by rw [i1, harr], fun i hi => by rw [i2 i hi]; exact hoth i hi, ?_, i4, i5⟩
        rw [i3, harr]
        have : (k + 1 + count_kind kind rest) / p - k / p
            = 1 + ((k + 1 + count_kind kind rest) / p - (k + 1) / p) := by omega
        rw [this, List.replicate_add]
        simp [puts, set_state]
      · simp only [hp, ↓reduceIte] at hm hd
        rw [hm]
        obtain ⟨i1, i2, i3, i4, i5⟩ := ih (set_state w self (mk (k + 1)))
          { x with state := mk (k + 1) } (k + 1) hx1 rfl (by omega)
        refine ⟨by rw [i1, harr], fun i hi => by rw [i2 i hi]; exact hoth i hi, ?_, i4, i5⟩
        rw [i3, harr]
        have : (k + 1 + count_kind kind rest) / p - k / p
            = (k + 1 + count_kind kind rest) / p - (k + 1) / p := by omega
        rw [this]
        rfl
    · simp only [he, ↓reduceIte, Nat.add_zero] at hlt ⊢
      rw [hskip w x k e hx hs he]
      exact ih w x k hx hs hlt

/-- The effect of each single delivery to a subscriber that counts the events of
one kind and prints a line at every `p`-th of them. -/
theorem deliver_periodic_each (self : ObjId) (kind msg : String) (p : Nat)
    (mk : Nat → ObsState)
    (hskip : ∀ (w : World) (x : Obj) (k : Nat) (e : Event), w.heap[self]? = some x →
      x.state = mk k → e.type_ ≠ kind → (monitor w self e).world = w)
    (hstep : ∀ (w : World) (x : Obj) (k : Nat) (e : Event), w.heap[self]? = some x →
      x.state = mk k → e.type_ = kind → k + 1 < 2 ^ 64 →
      (monitor w self e).world =
        if (k + 1) % p = 0 then puts (set_state w self (mk (k + 1))) msg
        else set_state w self (mk (k + 1)))
    (w : World) (x : Obj) (events : List Event) (hx : w.heap[self]? = some x)
    (hs : x.state = mk 0) (hlt : count_kind kind events < 2 ^ 64) :
    ∀ pre e post, events = pre ++ e :: post →
      (e.type_ = kind →
        (deliver self (pre ++ [e]) w).out = (deliver self pre w).out ++
          (if (count_kind kind pre + 1) % p = 0 then [msg ++ "\n"] else [])) ∧
      (e.type_ ≠ kind → deliver self (pre ++ [e]) w = deliver self pre w) := by
  intro pre e post hev
  have hc : count_kind kind events
      = count_kind kind pre + (count_kind kind post + (if e.type_ = kind then 1 else 0)) := by
    rw [hev, count_kind_append, count_kind_cons]
  obtain ⟨h1, _, _, _, _⟩ := deliver_periodic self kind msg p mk hskip hstep pre w x 0 hx hs
    (by omega)
  rw [Nat.zero_add] at h1
  have hd : ∀ v, deliver self (pre ++ [e]) v = (monitor (deliver self pre v) self e).world :=
    fun v => by rw [deliver_append]; rfl
  refine ⟨fun he => ?_, fun he => ?_⟩
  · simp only [he, ↓reduceIte] at hc
    rw [hd, hstep _ _ _ e h1 rfl he (by omega)]
    split <;> simp [puts, set_state]
  · rw [hd, hskip _ _ _ e h1 rfl he]

theorem QuestTracker_skip (self : ObjId) (w : World) (x : Obj) (k : Nat) (e : Event)
    (hx : w.heap[self]? = some x) (hs : x.state = .QuestTracker k)
    (he : e.type_ ≠ "enemy_defeated") : (monitor w self e).world = w := by
  rw [monitor_QuestTracker e hx hs]
  simp [QuestTracker_monitor, he, Res.world]

theorem QuestTracker_step (self : ObjId) (w : World) (x : Obj) (k : Nat) (e : Event)
    (hx : w.heap[self]? = some x) (hs : x.state = .QuestTracker k)
    (he : e.type_ = "enemy_defeated") (hk : k + 1 < 2 ^ 64) :
    (monitor w self e).world =
      if (k + 1) % 5 = 0 then puts (set_state w self (.QuestTracker (k + 1))) "task finished!"
      else set_state w self (.QuestTracker (k + 1)) := by
  rw [monitor_QuestTracker e hx hs]
  have : (k + 1) % SIZE_MOD = k + 1 := Nat.mod_eq_of_lt hk
  simp only [QuestTracker_monitor, he, Res.world, ↓reduceIte, this]

theorem AchievementSystem_skip (self : ObjId) (w : World) (x : Obj) (k : Nat) (e : Event)
    (hx : w.heap[self]? = some x) (hs : x.state = .AchievementSystem k)
    (he : e.type_ ≠ "rare_items_collected") : (monitor w self e).world = w := by
  rw [monitor_AchievementSystem e hx hs]
  simp [AchievementSystem_monitor, he, Res.world]

theorem AchievementSystem_step (self : ObjId) (w : World) (x : Obj) (k : Nat) (e : Event)
    (hx : w.heap[self]? = some x) (hs : x.state = .AchievementSystem k)
    (he : e.type_ = "rare_items_collected") (hk : k + 1 < 2 ^ 64) :
    (monitor w self e).world =
      if (k + 1) % 3 = 0 then
        puts (set_state w self (.AchievementSystem (k + 1))) "nice collected!"
      else set_state w self (.AchievementSystem (k + 1)) := by
  rw [monitor_AchievementSystem e hx hs]
  have : (k + 1) % SIZE_MOD = k + 1 := Nat.mod_eq_of_lt hk
  simp only [AchievementSystem_monitor, he, Res.world, ↓reduceIte, this]

/-- C15: a `QuestTracker` that starts with `m_defeat_num = 0` and receives a
sequence of events with fewer than 2^64 of kind "enemy_defeated" ends with the
number of such events as its count and has printed "task finished!" once for
every five of them.  The delivery of an "enemy_defeated" event prints the line
exactly when it is the 5th, 10th, 15th, ... such event; the delivery of an
event of any other kind changes nothing at all. -/
theorem QuestTracker_triggers_every_fifth (w : World) (self : ObjId) (x : Obj)
    (events : List Event) (hx : w.heap[self]? = some x) (hs : x.state = .QuestTracker 0)
    (hlt : count_kind "enemy_defeated" events < 2 ^ 64) :
    ((deliver self events w).heap[self]?).map Obj.state
        = some (.QuestTracker (count_kind "enemy_defeated" events)) ∧
      (deliver self events w).out = w.out ++
        List.replicate (count_kind "enemy_defeated" events / 5) "task finished!\n" ∧
      ∀ pre e post, events = pre ++ e :: post →
        (e.type_ = "enemy_defeated" →
          (deliver self (pre ++ [e]) w).out = (deliver self pre w).out ++
            (if (count_kind "enemy_defeated" pre + 1) % 5 = 0 then ["task finished!\n"]
             else [])) ∧
        (e.type_ ≠ "enemy_defeated" → deliver self (pre ++ [e]) w = deliver self pre w) := by
  have hmsg : "task finished!" ++ "\n" = "task finished!\n" := by decide
  obtain ⟨h1, _, h3, _, _⟩ := deliver_periodic self "enemy_defeated" "task finished!" 5
    ObsState.QuestTracker (QuestTracker_skip self) (QuestTracker_step self) events w x 0 hx hs
    (by omega)
  have h4 := deliver_periodic_each self "enemy_defeated" "task finished!" 5
    ObsState.QuestTracker (QuestTracker_skip self) (QuestTracker_step self) w x events hx hs hlt
  simp only [Nat.zero_add, Nat.zero_div, Nat.sub_zero, hmsg] at h1 h3 h4
  exact ⟨by rw [h1]; rfl, h3, h4⟩

/-- C16: an `AchievementSystem` that starts with `m_rare_items_num = 0` and
receives a sequence of events with fewer than 2^64 of kind
"rare_items_collected" ends with the number of such events as its count and has
printed "nice collected!" once for every three of them.  The delivery of a
"rare_items_collected" event prints the line exactly when it is the 3rd, 6th,
9th, ... such event; the delivery of an event of any other kind
("enemy_defeated" and unknown kinds included) changes nothing at all. -/
theorem AchievementSystem_triggers_every_third (w : World) (self : ObjId) (x : Obj)
    (events : List Event) (hx : w.heap[self]? = some x)
    (hs : x.state = .AchievementSystem 0)
    (hlt : count_kind "rare_items_collected" events < 2 ^ 64) :
    ((deliver self events w).heap[self]?).map Obj.state
        = some (.AchievementSystem (count_kind "rare_items_collected" events)) ∧
      (deliver self events w).out = w.out ++
        List.replicate (count_kind "rare_items_collected" events / 3) "nice collected!\n" ∧
      ∀ pre e post, events = pre ++ e :: post →
        (e.type_ = "rare_items_collected" →
          (deliver self (pre ++ [e]) w).out = (deliver self pre w).out ++
            (if (count_kind "rare_items_collected" pre + 1) % 3 = 0 then ["nice collected!\n"]
             else [])) ∧
        (e.type_ ≠ "rare_items_collected" →
          deliver self (pre ++ [e]) w = deliver self pre w) := by
  have hmsg : "nice collected!" ++ "\n" = "nice collected!\n" := by decide
  obtain ⟨h1, _, h3, _, _⟩ := deliver_periodic self "rare_items_collected" "nice collected!" 3
    ObsState.AchievementSystem (AchievementSystem_skip self) (AchievementSystem_step self)
    events w x 0 hx hs (by omega)
  have h4 := deliver_periodic_each self "rare_items_collected" "nice collected!" 3
    ObsState.AchievementSystem (AchievementSystem_skip self) (AchievementSystem_step self)
    w x events hx hs hlt
  simp only [Nat.zero_add, Nat.zero_div, Nat.sub_zero, hmsg] at h1 h3 h4
  exact ⟨by rw [h1]; rfl, h3, h4⟩

/-- Witness for C15: five "enemy_defeated" events among others, as in
`observer_test`, print "task finished!" once, at the fifth. -/
theorem QuestTracker_triggers_every_fifth_witness :
    observer_test_objects.heap[0]? = some ⟨"qt", .QuestTracker 0, 1, 0⟩ ∧
      count_kind "enemy_defeated" [ed, ed, rit, ed, ed, rand, ed] < 2 ^ 64 ∧
      (deliver 0 [ed, ed, rit, ed, ed, rand] observer_test_objects).out = [] ∧
      (deliver 0 [ed, ed, rit, ed, ed, rand, ed] observer_test_objects).out
        = ["task finished!\n"] ∧
      observer_test.world.out =
        ["add success.\n", "add success.\n", "add success.\n", "the object already exists.\n",
         "type:enemy_defeated,payload:1\n", "type:enemy_defeated,payload:1\n",
         "type:enemy_defeated,payload:1\n", "type:enemy_defeated,payload:1\n",
         "task finished!\n", "type:enemy_defeated,payload:1\n",
         "type:rare_items_collected,payload:2\n", "type:rare_items_collected,payload:2\n",
         "nice collected!\n", "type:rare_items_collected,payload:2\n",
         "type:random event,payload:3\n"] ∧
      ((deliver 0 [ed, ed, rit, ed, ed, rand, ed] observer_test_objects).heap[0]?).map Obj.state
        = some (.QuestTracker 5) :=
  ⟨by decide, by decide, by decide, by decide, by decide,
    (QuestTracker_triggers_every_fifth observer_test_objects 0 ⟨"qt", .QuestTracker 0, 1, 0⟩
      [ed, ed, rit, ed, ed, rand, ed] (by decide) rfl (by decide)).1⟩

/-- Witness for C16: three "rare_items_collected" events among others print
"nice collected!" once, at the third. -/
theorem AchievementSystem_triggers_every_third_witness :
    observer_test_objects.heap[1]? = some ⟨"as", .AchievementSystem 0, 1, 0⟩ ∧
      count_kind "rare_items_collected" [ed, rit, rand, rit, ed, rit] < 2 ^ 64 ∧
      (deliver 1 [ed, rit, rand, rit, ed] observer_test_objects).out = [] ∧
      (deliver 1 [ed, rit, rand, rit, ed, rit] observer_test_objects).out
        = ["nice collected!\n"] ∧
      (observer_test.world.heap[1]?).map Obj.state = some (.AchievementSystem 3) ∧
      ((deliver 1 [ed, rit, rand, rit, ed, rit] observer_test_objects).heap[1]?).map Obj.state
        = some (.AchievementSystem 3) :=
  ⟨by decide, by decide, by decide, by decide, by decide,
    (AchievementSystem_triggers_every_third observer_test_objects 1
      ⟨"as", .AchievementSystem 0, 1, 0⟩ [ed, rit, rand, rit, ed, rit] (by decide) rfl
      (by decide)).1⟩

theorem not_named_eq {h : List Obj} {s : String} {n : Node} (hl : live h n = true) :
    (!named h s n) = ((h[n.weak]?).map Obj.m_name != some s) := by
  have he : expired h n.weak = false := by simpa [live] using hl
  obtain ⟨x, hx⟩ := resolve_isSome_of_live he
  simp only [named, hx, (resolve_eq_some hx).2, Option.map_some']
  by_cases h1 : x.m_name = s
  · simp [h1]
  · have h2 : (x.m_name == s) = false := by simpa using h1
    have h3 : (some x.m_name == some s) = false := by simpa using h1
    simp only [bne, h2, h3]

/-- C17: `detach`, in its single pass, yields the state of the two-step
`unsubscribe` of the specification: for every state and existing observer `o`,
`detach(o)` returns the state that the reclamation pass followed by the removal
of every entry named like `o` gives. -/
theorem detach_refines_unsubscribe (w : World) (o : ObjId) (obs : Obj)
    (ho : resolve w.heap o = some obs) :
    detach w o = .done (unsubscribe_spec w obs.m_name) := by
  rw [detach_eq ho]
  have : List.filter (fun n => live w.heap n && !named w.heap obs.m_name n) w.m_observers
      = List.filter (fun n => (w.heap[n.weak]?).map Obj.m_name != some obs.m_name)
          (cleanup w).m_observers := by
    show _ = List.filter _ (List.filter _ w.m_observers)
    rw [List.filter_filter]
    apply List.filter_congr
    intro n _
    cases hl : live w.heap n with
    | false =>
      have : (!expired w.heap n.weak) = false := hl
      simp [this]
    | true =>
      have : (!expired w.heap n.weak) = true := hl
      rw [Bool.true_and, not_named_eq hl, this, Bool.and_true]
  unfold unsubscribe_spec
  rw [this]
  rfl

/-- Witness for C17: `as` is detached after the three `attach` calls of
`observer_test`. -/
theorem detach_refines_unsubscribe_witness :
    resolve observer_test_attached.heap 1 = some ⟨"as", .AchievementSystem 0, 1, 0⟩ ∧
      (unsubscribe_spec observer_test_attached "as").m_observers = [⟨0, 0⟩, ⟨2, 2⟩] ∧
      detach observer_test_attached 1 = .done (unsubscribe_spec observer_test_attached "as") :=
  ⟨by decide, by decide,
    detach_refines_unsubscribe observer_test_attached 1 ⟨"as", .AchievementSystem 0, 1, 0⟩
      (by decide)⟩

/-- C18: the reclamation pass is a filter.  Its result is a sub-sequence of the
registry (the relative order is kept) that holds exactly the handles whose
subscriber still exists, each as often as before, and every sub-sequence of
live handles of the registry is a sub-sequence of it; nothing but the registry
changes, and a second pass changes nothing. -/
theorem cleanup_is_filter (w : World) :
    (cleanup w).m_observers.Sublist w.m_observers ∧
      (∀ n, n ∈ (cleanup w).m_observers ↔ n ∈ w.m_observers ∧ expired w.heap n.weak = false) ∧
      (∀ n, expired w.heap n.weak = false →
        (cleanup w).m_observers.count n = w.m_observers.count n) ∧
      (∀ l : List Node, l.Sublist w.m_observers → (∀ n ∈ l, expired w.heap n.weak = false) →
        l.Sublist (cleanup w).m_observers) ∧
      cleanup w = { w with m_observers := (cleanup w).m_observers } ∧
      cleanup (cleanup w) = cleanup w := by
  refine ⟨List.filter_sublist _, fun n => ?_, fun n hn => ?_, fun l hl hall => ?_, rfl, ?_⟩
  · simp [cleanup, List.mem_filter]
  · simp only [cleanup]
    rw [List.count_filter]
    simp [hn]
  · have h1 := hl.filter (fun n => !expired w.heap n.weak)
    have h2 : List.filter (fun n => !expired w.heap n.weak) l = l :=
      List.filter_eq_self.2 (fun n hn => by simp [hall n hn])
    rw [h2] at h1
    exact h1
  · simp only [cleanup, List.filter_filter, Bool.and_self]

/-- Witness for C18: `qt` is destroyed after the three `attach` calls of
`observer_test`; the pass keeps the handles to `as` and `ui`. -/
theorem cleanup_is_filter_witness :
    expired (release observer_test_attached 0).heap 0 = true ∧
      expired (release observer_test_attached 0).heap 1 = false ∧
      (cleanup (release observer_test_attached 0)).m_observers = [⟨1, 1⟩, ⟨2, 2⟩] ∧
      [Node.mk 2 2].Sublist (cleanup (release observer_test_attached 0)).m_observers ∧
      (cleanup (release observer_test_attached 0)).m_observers.count ⟨1, 1⟩
        = (release observer_test_attached 0).m_observers.count ⟨1, 1⟩ ∧
      cleanup (cleanup (release observer_test_attached 0))
        = cleanup (release observer_test_attached 0) :=
  ⟨by decide, by decide, by decide,
    (cleanup_is_filter (release observer_test_attached 0)).2.2.2.1 [⟨2, 2⟩]
      (by decide) (by decide),
    (cleanup_is_filter (release observer_test_attached 0)).2.2.1 ⟨1, 1⟩ (by decide),
    (cleanup_is_filter (release observer_test_attached 0)).2.2.2.2.2⟩

/-- C19: only live entries block a registration.  When every registered
subscriber named like the existing observer `o` has been destroyed,
`attach(o)` prints "add success.", the registry is the live entries followed by
the new handle to `o`, and the new handle is its only entry with that name. -/
theorem attach_after_destroyed_namesake (w : World) (o : ObjId) (obs : Obj)
    (ho : resolve w.heap o = some obs)
    (hdead : ∀ n ∈ w.m_observers, ∀ z, w.heap[n.weak]? = some z → z.m_name = obs.m_name →
      expired w.heap n.weak = true) :
    ∃ w1, attach w o = .done w1 ∧ w1.out = w.out ++ ["add success.\n"] ∧
      w1.m_observers = w.m_observers.filter (live w.heap) ++ [Node.mk w.fresh o] ∧
      w1.m_observers.filter (fun n => (w1.heap[n.weak]?).map Obj.m_name == some obs.m_name)
        = [Node.mk w.fresh o] := by
  have hany : ¬ w.m_observers.any (named w.heap obs.m_name) = true := by
    simp only [List.any_eq_true, not_exists, not_and]
    intro n hn hs
    obtain ⟨z, hz, hzn⟩ := named_iff.1 hs
    have := hdead n hn z (resolve_eq_some hz).2 hzn
    rw [(resolve_eq_some hz).1] at this
    cases this
  rw [attach_eq ho, if_neg hany]
  refine ⟨_, rfl, rfl, rfl, ?_⟩
  show List.filter (fun n => (w.heap[n.weak]?).map Obj.m_name == some obs.m_name)
    (List.filter (fun n => !expired w.heap n.weak) w.m_observers ++ [Node.mk w.fresh o]) = _
  rw [List.filter_append]
  have h1 : List.filter (fun n => (w.heap[n.weak]?).map Obj.m_name == some obs.m_name)
      (List.filter (fun n => !expired w.heap n.weak) w.m_observers) = [] := by
    rw [List.filter_eq_nil_iff]
    intro n hn hnm
    obtain ⟨hn1, hn2⟩ := List.mem_filter.1 hn
    cases hz : w.heap[n.weak]? with
    | none => simp [hz] at hnm
    | some z =>
      simp only [hz, Option.map_some', beq_iff_eq, Option.some.injEq] at hnm
      have := hdead n hn1 z hz hnm
      rw [this] at hn2
      cases hn2
  rw [h1]
  simp [List.filter, (resolve_eq_some ho).2]

/-- Witness for C19: in `same_name_program` the registered `QuestTracker` named
"qt" is destroyed, then the `UIHUD` named "qt" is attached. -/
theorem attach_after_destroyed_namesake_witness :
    resolve (release same_name_program 0).heap 1 = some ⟨"qt", .UIHUD, 1, 0⟩ ∧
      (release same_name_program 0).m_observers = [⟨0, 0⟩] ∧
      expired (release same_name_program 0).heap 0 = true ∧
      ∃ w1, attach (release same_name_program 0) 1 = .done w1 ∧
        w1.out = (release same_name_program 0).out ++ ["add success.\n"] ∧
        w1.m_observers = [Node.mk 1 1] ∧
        w1.m_observers.filter (fun n => (w1.heap[n.weak]?).map Obj.m_name == some "qt")
          = [Node.mk 1 1] :=
  ⟨by decide, by decide, by decide,
    attach_after_destroyed_namesake (release same_name_program 0) 1 ⟨"qt", .UIHUD, 1, 0⟩
      (by decide) (by decide)⟩

theorem quiet_heap {L : List Node} {f : Nat} {w : World} (hw : Quiet L f w) (o : ObjId)
    (g : Obj → Obj) (hg : ∀ x, x.state.quiet = true → (g x).state.quiet = true) :
    Quiet L f { w with heap := update w.heap o g } := by
  refine ⟨hw.1, hw.2.1, ?_⟩
  intro n hn x hx
  have hx' : (update w.heap o g)[n.weak]? = some x := hx
  rw [getElem?_update] at hx'
  split at hx'
  · rename_i e
    cases hy : w.heap[o]? with
    | none => simp [hy] at hx'
    | some y =>
      simp only [hy, Option.map_some', Option.some.injEq] at hx'
      subst hx'
      exact hg y (hw.2.2 n hn y (by rw [e]; exact hy))
  · exact hw.2.2 n hn x hx'

theorem run_body_quiet {L : List Node} {f : Nat} (body : List Op)
    (hb : body.all Op.quiet = true) : ∀ w, Quiet L f w → Quiet L f (run_body body w).world := by
  induction body with
  | nil => intro w hw; exact hw
  | cons op rest ih =>
    intro w hw
    simp only [List.all_cons, Bool.and_eq_true] at hb
    cases op with
    | attach o => simp [Op.quiet] at hb
    | detach o => simp [Op.quiet] at hb
    | release o =>
      simp only [run_body]
      exact ih hb.2 _ (quiet_heap hw o _ (fun _ h => h))
    | raise => exact hw

theorem monitor_quiet {L : List Node} {f : Nat} {w : World} {n : Node} (ev : Event)
    (hw : Quiet L f w) (hn : n ∈ L) : Quiet L f (monitor w n.weak ev).world := by
  have hst : ∀ s : ObsState, s.quiet = true → Quiet L f (set_state w n.weak s) :=
    fun s hs => quiet_heap hw n.weak _ (fun _ _ => hs)
  have hout : ∀ {w1 : World} (l : List String), Quiet L f w1 →
      Quiet L f { w1 with out := l } := fun l h => h
  cases ho : w.heap[n.weak]? with
  | none => simpa [monitor, ho] using hw
  | some x =>
    cases hs : x.state with
    | QuestTracker k =>
      rw [monitor_QuestTracker ev ho hs]
      simp only [Res.world, QuestTracker_monitor]
      split
      · split
        · exact hout _ (hst _ rfl)
        · exact hst _ rfl
      · exact hw
    | AchievementSystem k =>
      rw [monitor_AchievementSystem ev ho hs]
      simp only [Res.world, AchievementSystem_monitor]
      split
      · split
        · exact hout _ (hst _ rfl)
        · exact hst _ rfl
      · exact hw
    | UIHUD =>
      rw [monitor_UIHUD ev ho hs]
      exact hout _ hw
    | Client body =>
      rw [monitor_Client ev ho hs]
      have hq := hw.2.2 n hn x ho
      rw [hs] at hq
      exact run_body_quiet body hq w hw

theorem visit_quiet {L : List Node} {f : Nat} {w : World} {n : Node} (ev : Event)
    (hw : Quiet L f w) (hn : n ∈ L) : Quiet L f (visit w n.weak ev).world := by
  unfold visit
  cases he : expired w.heap n.weak with
  | true => exact hw
  | false =>
    simp only [Bool.false_eq_true, ↓reduceIte]
    have h1 : Quiet L f (record (lock w n.weak) n.weak ev) :=
      quiet_heap hw n.weak _ (fun _ h => h)
    have h2 := monitor_quiet ev h1 hn
    have key : ∀ w2 : World, Quiet L f w2 → Quiet L f (unlock w2 n.weak) :=
      fun w2 h => quiet_heap h n.weak _ (fun _ h => h)
    cases hm : monitor (record (lock w n.weak) n.weak ev) n.weak ev with
    | done w2 => rw [hm] at h2; exact key w2 h2
    | fault e w2 => rw [hm] at h2; exact key w2 h2

theorem dispatch_quiet {L : List Node} {f : Nat} (ev : Event) (fuel : Nat) :
    ∀ w it, Quiet L f w → Quiet L f (dispatch ev fuel w it).world := by
  induction fuel with
  | zero =>
    intro w it hw
    cases it <;> exact hw
  | succ fuel ih =>
    intro w it hw
    cases it with
    | none => exact hw
    | some a =>
      unfold dispatch
      cases hf : find_node w.m_observers a with
      | none => exact hw
      | some n =>
        have hn : n ∈ L := by
          have := (find_node_some hf).1
          rw [hw.1] at this
          exact this
        have h1 := visit_quiet ev hw hn
        simp only
        cases hv : visit w n.weak ev with
        | fault e w3 => rw [hv] at h1; exact h1
        | done w3 =>
          rw [hv] at h1
          simp only
          cases hnx : next_it w3.m_observers a with
          | none => exact h1
          | some it1 => exact ih w3 it1 h1

/-- C21: `broadcast` changes the bus by reclamation only.  When no live
registered subscriber calls the bus in its `monitor`, the registry after the
call, with any fuel and also when the call ends with an exception, is the
sequence of the entries that were live before it, and no list node has been
made.  When the subscribers are of the classes of the source the call returns
and the heap differs from the one before at most in the counters of the
subscribers. -/
theorem broadcast_keeps_registry (w : World) (event : Event) (fuel : Nat)
    (hq : ∀ n ∈ w.m_observers, ∀ x, resolve w.heap n.weak = some x → x.state.quiet = true) :
    (broadcast fuel w event).world.m_observers = w.m_observers.filter (live w.heap) ∧
      (broadcast fuel w event).world.fresh = w.fresh ∧
      ((w.m_observers.map Node.addr).Nodup →
        (∀ n ∈ w.m_observers, ∀ x, resolve w.heap n.weak = some x → x.state.builtin = true) →
        (w.m_observers.filter (live w.heap)).length ≤ fuel →
        ∃ w1, broadcast fuel w event = .done w1 ∧
          w1.m_observers = w.m_observers.filter (live w.heap) ∧
          Similar w.heap w1.heap) := by
  have h0 : Quiet (w.m_observers.filter (live w.heap)) w.fresh (cleanup w) := by
    refine ⟨rfl, rfl, ?_⟩
    intro n hn x hx
    obtain ⟨h1, h2⟩ := List.mem_filter.1 hn
    have he : expired w.heap n.weak = false := by simpa [live] using h2
    exact hq n h1 x (by simp [resolve, he]; exact hx)
  have h := dispatch_quiet event fuel (cleanup w) (begin_it (cleanup w)) h0
  refine ⟨h.1, h.2.1, ?_⟩
  intro hnodes hb hfuel
  obtain ⟨w1, g1, g2, _, g4, _⟩ := broadcast_builtin w event fuel hnodes hb hfuel
  exact ⟨w1, g1, g2, g4⟩

/-- Witness for C21: the first broadcast of `observer_test` after `qt` has been
destroyed. -/
theorem broadcast_keeps_registry_witness :
    (release observer_test_attached 0).m_observers = [⟨0, 0⟩, ⟨1, 1⟩, ⟨2, 2⟩] ∧
      (broadcast 3 (release observer_test_attached 0) ed).world.m_observers
        = [⟨1, 1⟩, ⟨2, 2⟩] ∧
      (broadcast 3 (release observer_test_attached 0) ed).world.m_observers
        = (release observer_test_attached 0).m_observers.filter
            (live (release observer_test_attached 0).heap) ∧
      (broadcast 3 (release observer_test_attached 0) ed).world.fresh
        = (release observer_test_attached 0).fresh ∧
      ∃ w1, broadcast 3 (release observer_test_attached 0) ed = .done w1 ∧
        w1.m_observers = (release observer_test_attached 0).m_observers.filter
          (live (release observer_test_attached 0).heap) ∧
        Similar (release observer_test_attached 0).heap w1.heap := by
  have h := broadcast_keeps_registry (release observer_test_attached 0) ed 3
    (forall_resolve_of_all (by decide))
  exact ⟨by decide, by decide, h.1, h.2.1,
    h.2.2 (by decide) (forall_resolve_of_all (by decide)) (by decide)⟩

end Observer

namespace Mediator

end Mediator

namespace Memento

theorem run_ops_history : ∀ (ops : List Op) (w w2 : World), run_ops ops w = some w2 →
    w2.m_history = w.m_history := by
  intro ops
  induction ops with
  | nil =>
    intro w w2 h
    simp only [run_ops, Option.some.injEq] at h
    rw [← h]
  | cons op rest ih =>
    intro w w2 h
    cases op with
    | move dx dy =>
      simp only [run_ops] at h
      cases hm : move w dx dy with
      | none => simp [hm] at h
      | some w1 =>
        simp only [hm] at h
        rw [ih w1 w2 h]
        unfold move at hm
        split at hm
        · simp only [Option.some.injEq] at hm
          rw [← hm]
        · cases hm
    | damage v =>
      simp only [run_ops] at h
      cases hm : damage w v with
      | none => simp [hm] at h
      | some w1 =>
        simp only [hm] at h
        rw [ih w1 w2 h]
        unfold damage at hm
        split at hm
        · simp only [Option.some.injEq] at hm
          rw [← hm]
        · cases hm

theorem restore_pop (v : World) (m : PlayerMemento) (rest : List PlayerMemento)
    (h : v.m_history = some (m :: rest)) :
    restore v = { m_health := m.m_health, m_pos := m.m_pos, m_history := some rest,
                  out := v.out ++ ["[History] undo snapshot.\n"] } := by
  simp [restore, h, SaveHistory_undo]

theorem save_push (v : World) (stack : List PlayerMemento) (h : v.m_history = some stack) :
    save v = { v with
      m_history := some (⟨v.m_health, v.m_pos⟩ :: stack)
      out := v.out ++ ["[History] save snapshot.\n"] } := by
  simp [save, h, SaveHistory_save]

theorem restore_saved (w w2 : World) (stack : List PlayerMemento) (ops : List Op)
    (hh : w.m_history = some stack) (hrun : run_ops ops (save w) = some w2) :
    (restore w2).m_health = w.m_health ∧ (restore w2).m_pos = w.m_pos ∧
      (restore w2).m_history = some stack := by
  have h1 := run_ops_history ops _ _ hrun
  rw [save_push w stack hh] at h1
  rw [restore_pop w2 _ _ h1]
  exact ⟨rfl, rfl, rfl⟩

/-- C23: memento round trip.  For a player with a history, after `save()` and
any sequence of `move` and `damage` calls (none of which overflows),
`restore()` sets health and position to the values they had at that `save()`
and leaves the history as it was before it.  With two saves the first
`restore()` gives the state of the second save and the next one the state of
the first; in general `restore()` takes the state from the top of the stack and
pops it.  On an empty history, or without a history, `restore()` leaves health,
position and history unchanged. -/
theorem memento_round_trip (w w2 : World) (stack : List PlayerMemento) (ops : List Op)
    (hh : w.m_history = some stack) (hrun : run_ops ops (save w) = some w2) :
    ((restore w2).m_health = w.m_health ∧ (restore w2).m_pos = w.m_pos ∧
        (restore w2).m_history = some stack) ∧
      (∀ ops2 ops3 w3 w4, run_ops ops2 (save w2) = some w3 →
        run_ops ops3 (restore w3) = some w4 →
        ((restore w3).m_health = w2.m_health ∧ (restore w3).m_pos = w2.m_pos) ∧
          (restore w4).m_health = w.m_health ∧ (restore w4).m_pos = w.m_pos ∧
          (restore w4).m_history = some stack) ∧
      (∀ (v : World) (m : PlayerMemento) (rest : List PlayerMemento),
        v.m_history = some (m :: rest) →
        restore v = { m_health := m.m_health, m_pos := m.m_pos, m_history := some rest,
                      out := v.out ++ ["[History] undo snapshot.\n"] }) ∧
      (∀ v : World, v.m_history = some [] ∨ v.m_history = none →
        (restore v).m_health = v.m_health ∧ (restore v).m_pos = v.m_pos ∧
          (restore v).m_history = v.m_history) := by
  have h2 : w2.m_history = some (⟨w.m_health, w.m_pos⟩ :: stack) := by
    have h1 := run_ops_history ops _ _ hrun
    rw [save_push w stack hh] at h1
    exact h1
  refine ⟨restore_saved w w2 stack ops hh hrun, ?_, restore_pop, ?_⟩
  · intro ops2 ops3 w3 w4 hr2 hr3
    obtain ⟨a1, a2, a3⟩ := restore_saved w2 w3 _ ops2 h2 hr2
    refine ⟨⟨a1, a2⟩, ?_⟩
    have h4 := run_ops_history ops3 _ _ hr3
    rw [a3] at h4
    rw [restore_pop w4 _ _ h4]
    exact ⟨rfl, rfl, rfl⟩
  · intro v hv
    rcases hv with hv | hv
    · simp [restore, hv, SaveHistory_undo]
    · simp [restore, hv]

/-- Witness for C23: `memento_test`: after `save`, `move(5, 3)` and
`damage(20)` the first `restore` gives hp 100 at (0, 0), the second finds the
history empty and changes nothing. -/
theorem memento_round_trip_witness :
    (Player_new 100 (0, 0) (some [])).m_history = some [] ∧
      run_ops [.move 5 3, .damage 20] (save (Player_new 100 (0, 0) (some [])))
        = some ⟨80, (5, 3), some [⟨100, (0, 0)⟩], ["[History] save snapshot.\n"]⟩ ∧
      ((restore ⟨80, (5, 3), some [⟨100, (0, 0)⟩], ["[History] save snapshot.\n"]⟩).m_health
          = (Player_new 100 (0, 0) (some [])).m_health ∧
        (restore ⟨80, (5, 3), some [⟨100, (0, 0)⟩], ["[History] save snapshot.\n"]⟩).m_pos
          = (Player_new 100 (0, 0) (some [])).m_pos ∧
        (restore ⟨80, (5, 3), some [⟨100, (0, 0)⟩], ["[History] save snapshot.\n"]⟩).m_history
          = some []) ∧
      (restore (restore ⟨80, (5, 3), some [⟨100, (0, 0)⟩], ["[History] save snapshot.\n"]⟩)).out
        = ["[History] save snapshot.\n", "[History] undo snapshot.\n",
           "[History] nothing to undo.\n"] :=
  ⟨by decide, by decide,
    (memento_round_trip (Player_new 100 (0, 0) (some []))
      ⟨80, (5, 3), some [⟨100, (0, 0)⟩], ["[History] save snapshot.\n"]⟩ [] [.move 5 3, .damage 20]
      (by decide) (by decide)).1,
    by decide⟩

end Memento

namespace Flyweight

/-- C24: the key `color + "_" + type` does not tell the pairs (type "b", color
"a_") and (type "_b", color "a") apart.  After the two requests the second call
has returned the object of the first, whose stored type and color are not the
ones requested, and the pool holds one piece for two distinct pairs.  The
requests of `flyweight_test` behave as claimed: two White Knights share one
object and the pool size is 2. -/
theorem key_collision_shares_piece :
    ("b", "a_") ≠ ("_b", "a") ∧ key_of "b" "a_" = key_of "_b" "a" ∧
      (get_pieces [("b", "a_"), ("_b", "a")] PieceFactory_new).2 = [0, 0] ∧
      (get_pieces [("b", "a_"), ("_b", "a")] PieceFactory_new).1.heap[0]? = some ⟨"b", "a_"⟩ ∧
      pool_size (get_pieces [("b", "a_"), ("_b", "a")] PieceFactory_new).1 = 1 ∧
      ([("b", "a_"), ("_b", "a")] : List (String × String)).dedup.length = 2 ∧
      (get_pieces flyweight_test_requests PieceFactory_new).2 = [0, 0, 1] ∧
      pool_size (get_pieces flyweight_test_requests PieceFactory_new).1 = 2 := by
  refine ⟨by decide, by decide, by decide, by decide, by decide, by decide, by decide, by decide⟩

end Flyweight

namespace Chain

theorem scan_UIHandler (ts : List String) : ∀ out : List String,
    scan .UIHandler ts out =
      if "ui" ∈ ts then (out ++ ["[Handled by UIHandler] ui\n"], true) else (out, false) := by
  induction ts with
  | nil => intro out; simp [scan]
  | cons t rest ih =>
    intro out
    by_cases h : t = "ui"
    · subst h
      have : "[Handled by " ++ handler_name .UIHandler ++ "] " ++ "ui" ++ "\n"
          = "[Handled by UIHandler] ui\n" := by decide
      simp [scan, handle_input_impl, this]
    · have h1 : (t == "ui") = false := by simpa using h
      have h2 : ¬ "ui" = t := fun e => h e.symm
      simp only [scan, handle_input_impl, h1, Bool.false_eq_true, ↓reduceIte, List.append_nil,
        ih, List.mem_cons, h2, false_or]

theorem scan_PlayerHandler (ts : List String) : ∀ out : List String,
    scan .PlayerHandler ts out =
      if "player" ∈ ts then (out ++ ["[Handled by PlayerHandler] player\n"], true)
      else (out, false) := by
  induction ts with
  | nil => intro out; simp [scan]
  | cons t rest ih =>
    intro out
    by_cases h : t = "player"
    · subst h
      have : "[Handled by " ++ handler_name .PlayerHandler ++ "] " ++ "player" ++ "\n"
          = "[Handled by PlayerHandler] player\n" := by decide
      simp [scan, handle_input_impl, this]
    · have h1 : (t == "player") = false := by simpa using h
      have h2 : ¬ "player" = t := fun e => h e.symm
      simp only [scan, handle_input_impl, h1, Bool.false_eq_true, ↓reduceIte, List.append_nil,
        ih, List.mem_cons, h2, false_or]

theorem scan_FallbackHandler (t : String) (ts out : List String) :
    scan .FallbackHandler (t :: ts) out =
      (out ++ ["[Fallback handles] " ++ t ++ "\n", "[Handled by FallbackHandler] " ++ t ++ "\n"],
        true) := by
  have : "[Handled by " ++ handler_name .FallbackHandler ++ "] "
      = "[Handled by FallbackHandler] " := by decide
  simp [scan, handle_input_impl, this]

/-- The output of the chain `UIHandler -> PlayerHandler -> FallbackHandler` for
every input: an input without tokens is reported as unhandled; an input with
tokens is handled by exactly one handler, the first in chain order that accepts
one of its tokens. -/
theorem test_chain_output (input : String) (out : List String) :
    (tokens input = [] →
        handle_input test_chain input out = out ++ ["[Unhandled] " ++ input ++ "\n"]) ∧
      (∀ t ts, tokens input = t :: ts →
        handle_input test_chain input out = out ++
          (if "ui" ∈ t :: ts then ["[Handled by UIHandler] ui\n"]
           else if "player" ∈ t :: ts then ["[Handled by PlayerHandler] player\n"]
           else ["[Fallback handles] " ++ t ++ "\n",
                 "[Handled by FallbackHandler] " ++ t ++ "\n"])) := by
  refine ⟨?_, ?_⟩
  · intro h
    simp [test_chain, handle_input, h, scan]
  · intro t ts h
    simp only [test_chain, handle_input, h, scan_UIHandler, scan_PlayerHandler]
    by_cases h1 : "ui" ∈ t :: ts
    · simp only [h1, ↓reduceIte]
    · simp only [h1, ↓reduceIte, Bool.false_eq_true]
      by_cases h2 : "player" ∈ t :: ts
      · simp only [h2, ↓reduceIte]
      · simp only [h2, ↓reduceIte, Bool.false_eq_true, scan_FallbackHandler]

/-- C25: with the chain `UIHandler -> PlayerHandler -> FallbackHandler`, the
empty input and an input of one blank have no token; no handler handles them,
the fallback included, and they are reported as unhandled.  The three inputs of
`chain_of_responsibility` are each handled by one handler. -/
theorem fallback_misses_empty_input :
    tokens "" = [] ∧ handle_input test_chain "" [] = ["[Unhandled] \n"] ∧
      tokens " " = [] ∧ handle_input test_chain " " [] = ["[Unhandled]  \n"] ∧
      chain_of_responsibility = ["[Handled by UIHandler] ui\n",
        "[Handled by PlayerHandler] player\n", "[Fallback handles] unknown\n",
        "[Handled by FallbackHandler] unknown\n"] :=
  ⟨by decide, by decide, by decide, by decide, by decide⟩

end Chain

namespace PlayerState

theorem change_state_fields (c : PlayerContext) (s : StateId) :
    (change_state c (some s)).m_state = (if c.m_state = some s then c.m_state else some s) ∧
      (change_state c (some s)).m_stamina = c.m_stamina ∧
      ((change_state c (some s)).m_frames_left = c.m_frames_left ∨
        (change_state c (some s)).m_frames_left = 3) ∧
      ((change_state c (some s)).m_state = some .Attack → c.m_state ≠ some .Attack →
        (change_state c (some s)).m_frames_left = 3) := by
  unfold change_state
  by_cases h : c.m_state = some s
  · simp only [h, ↓reduceIte, true_or, true_and]
    intro a b
    exact absurd a b
  · simp only [h, ↓reduceIte]
    cases s <;> cases hc : c.m_state with
    | none => simp [enter, play_animation, print, kTotalFrames]
    | some old => cases old <;> simp [enter, exit, play_animation, print, kTotalFrames]

theorem inv_change_state (c : PlayerContext) (s : StateId) (hc : Inv c) :
    Inv (change_state c (some s)) := by
  obtain ⟨⟨s0, hs0⟩, h1, h2, h3, h4, h5⟩ := hc
  obtain ⟨a1, a2, a3, a4⟩ := change_state_fields c s
  refine ⟨?_, by rw [a2]; exact h1, by rw [a2]; exact h2, ?_, ?_, ?_⟩
  · rw [a1]
    split
    · exact ⟨s0, hs0⟩
    · exact ⟨s, rfl⟩
  · rcases a3 with e | e <;> (rw [e]; first | done | omega)
  · rcases a3 with e | e <;> (rw [e]; first | done | omega)
  · intro hat
    by_cases hca : c.m_state = some .Attack
    · rcases a3 with e | e
      · rw [e]; exact h5 hca
      · rw [e]; omega
    · rw [a4 hat hca]; omega

theorem inv_print (c : PlayerContext) (s : String) (hc : Inv c) : Inv (print c s) := hc

theorem inv_handle_input (c : PlayerContext) (input : Input) (hc : Inv c) :
    Inv (handle_input c input) := by
  obtain ⟨s0, hs0⟩ := hc.1
  unfold handle_input
  rw [hs0]
  cases s0 with
  | Idle =>
    simp only [IdleState_handle_input]
    split
    · exact inv_change_state c _ hc
    · split
      · exact inv_change_state c _ hc
      · exact hc
  | Running =>
    simp only [RunningState_handle_input]
    split
    · exact inv_change_state c _ hc
    · split
      · exact inv_change_state c _ hc
      · exact hc
  | Attack =>
    simp only [AttackState_handle_input]
    split
    · obtain ⟨_, h1, h2, _, _, _⟩ := hc
      exact ⟨⟨.Attack, hs0⟩, h1, h2, by simp [kTotalFrames], by simp [kTotalFrames],
        fun _ => by simp [kTotalFrames]⟩
    · exact hc

theorem inv_update (c : PlayerContext) (hc : Inv c) : Inv (update c) := by
  obtain ⟨s0, hs0⟩ := hc.1
  obtain ⟨_, h1, h2, h3, h4, h5⟩ := hc
  unfold update
  rw [hs0]
  cases s0 with
  | Idle =>
    refine ⟨⟨.Idle, hs0⟩, ?_, ?_, h3, h4, h5⟩
    · show 0 ≤ min 100 (c.m_stamina + 2)
      omega
    · show min 100 (c.m_stamina + 2) ≤ 100
      omega
  | Running =>
    simp only [RunningState_update]
    split
    · refine ⟨⟨.Running, hs0⟩, ?_, ?_, h3, h4, h5⟩
      · show 0 ≤ max 0 (c.m_stamina - kRunCost)
        omega
      · show max 0 (c.m_stamina - kRunCost) ≤ 100
        simp only [kRunCost]
        omega
    · exact inv_change_state _ _ (inv_print c _ ⟨⟨_, hs0⟩, h1, h2, h3, h4, h5⟩)
  | Attack =>
    have h6 := h5 hs0
    simp only [AttackState_update]
    split
    · rename_i hle
      have hle' : c.m_frames_left - 1 ≤ 0 := hle
      obtain ⟨a1, a2, a3, _⟩ := change_state_fields
        (print { c with m_frames_left := c.m_frames_left - 1 }
          "[Attack] Animation finished -> Idle\n") .Idle
      have hst : (print { c with m_frames_left := c.m_frames_left - 1 }
          "[Attack] Animation finished -> Idle\n").m_state = some .Attack := hs0
      have hfr : (print { c with m_frames_left := c.m_frames_left - 1 }
          "[Attack] Animation finished -> Idle\n").m_frames_left = c.m_frames_left - 1 := rfl
      have hsta : (print { c with m_frames_left := c.m_frames_left - 1 }
          "[Attack] Animation finished -> Idle\n").m_stamina = c.m_stamina := rfl
      rw [hst] at a1
      simp only [reduceCtorEq, ↓reduceIte, Option.some.injEq] at a1
      rw [hfr] at a3
      rw [hsta] at a2
      refine ⟨⟨.Idle, a1⟩, by rw [a2]; exact h1, by rw [a2]; exact h2, ?_, ?_, ?_⟩
      · rcases a3 with e | e <;> (rw [e]; first | done | omega)
      · rcases a3 with e | e <;> (rw [e]; first | done | omega)
      · intro hat
        rw [a1] at hat
        cases hat
    · rename_i hgt
      have hgt' : ¬ c.m_frames_left - 1 ≤ 0 := hgt
      exact ⟨⟨.Attack, hs0⟩, h1, h2, by show 0 ≤ c.m_frames_left - 1; omega,
        by show c.m_frames_left - 1 ≤ 3; omega, fun _ => by
          show 1 ≤ c.m_frames_left - 1
          omega⟩

theorem inv_new : Inv PlayerContext_new := by
  refine ⟨⟨.Idle, by decide⟩, by decide, by decide, by decide, by decide, ?_⟩
  intro h
  revert h
  decide

theorem inv_run (calls : List Call) : ∀ c, Inv c → Inv (run calls c) := by
  induction calls with
  | nil => intro c hc; exact hc
  | cons call rest ih =>
    intro c hc
    cases call with
    | handle_input i => exact ih _ (inv_handle_input c i hc)
    | update => exact ih _ (inv_update c hc)

/-- C26: after every sequence of `handle_input` and `update` calls on a newly
constructed `PlayerContext` the stamina is within 0..100, the current state is
the context's Idle, Running or Attack state (it is never null), and the frame
counter of the attack state is within 0..3.  In Running, an `update` with
stamina below 5 leaves the stamina as it is and makes Idle the current
state. -/
theorem context_invariant (calls : List Call) :
    (0 ≤ (run calls PlayerContext_new).m_stamina ∧
        (run calls PlayerContext_new).m_stamina ≤ 100) ∧
      ((run calls PlayerContext_new).m_state = some .Idle ∨
        (run calls PlayerContext_new).m_state = some .Running ∨
        (run calls PlayerContext_new).m_state = some .Attack) ∧
      (0 ≤ (run calls PlayerContext_new).m_frames_left ∧
        (run calls PlayerContext_new).m_frames_left ≤ 3) ∧
      ∀ c : PlayerContext, c.m_state = some .Running → c.m_stamina < 5 →
        (update c).m_stamina = c.m_stamina ∧ (update c).m_state = some .Idle := by
  obtain ⟨⟨s, hs⟩, h1, h2, h3, h4, _⟩ := inv_run calls _ inv_new
  refine ⟨⟨h1, h2⟩, ?_, ⟨h3, h4⟩, ?_⟩
  · rw [hs]
    cases s <;> simp
  · intro c hc hlt
    have hno : has_stamina c kRunCost = false := by
      simp only [has_stamina, kRunCost, decide_eq_false_iff_not, ge_iff_le, not_le]
      exact hlt
    obtain ⟨a1, a2, _, _⟩ := change_state_fields
      (print c "[Running] Out of stamina -> Idle\n") .Idle
    have hst : (print c "[Running] Out of stamina -> Idle\n").m_state = some .Running := hc
    rw [hst] at a1
    simp only [Option.some.injEq, reduceCtorEq, ↓reduceIte] at a1
    simp only [update, hc, RunningState_update, hno, Bool.false_eq_true, ↓reduceIte]
    exact ⟨a2, a1⟩

/-- Witness for C26: after `Move` and twenty updates the context is Running
with stamina 0; the next `update` consumes nothing and switches to Idle.  The
calls of `state_test` end in Idle with stamina 89. -/
theorem context_invariant_witness :
    (run (.handle_input .Move :: List.replicate 20 .update) PlayerContext_new).m_state
        = some .Running ∧
      (run (.handle_input .Move :: List.replicate 20 .update) PlayerContext_new).m_stamina
        = 0 ∧
      (run state_test_calls PlayerContext_new).m_state = some .Idle ∧
      (run state_test_calls PlayerContext_new).m_stamina = 89 ∧
      (update (run (.handle_input .Move :: List.replicate 20 .update)
          PlayerContext_new)).m_stamina
        = (run (.handle_input .Move :: List.replicate 20 .update) PlayerContext_new).m_stamina ∧
      (update (run (.handle_input .Move :: List.replicate 20 .update)
          PlayerContext_new)).m_state = some .Idle :=
  ⟨by decide, by decide, by decide, by decide,
    (context_invariant []).2.2.2
      (run (.handle_input .Move :: List.replicate 20 .update) PlayerContext_new)
      (by decide) (by decide)⟩

end PlayerState
